import Mathlib

/-!
# easyjson: the encoder generator (`gen/encoder.go`)

A shallow embedding of the code generator that emits JSON encoders, and
theorems about what it emits.

* Types are nodes of a type graph (`Universe.info`), so that cyclic type
  declarations can be described.
* The output stream `g.out` is the list of lines printed so far.  Every line
  is recorded by the print statement that produced it together with its
  string operands (`Line`); `Line.render` is the text of the line.
* `genTypeEncoder` is recursive over the type graph; the embedding carries a
  recursion budget and answers `none` when the budget is exhausted.
* The emitted lines are run by an interpreter (`run`, `runEncoder`) that gives
  the printed statements their Go meaning; `encode` is the text they write.
-/

namespace EasyJSON

/-! ## reflect: kinds and type descriptions -/

/-- The kinds of `reflect.Kind`. -/
inductive Kind
  | Invalid | Bool | Int | Int8 | Int16 | Int32 | Int64
  | Uint | Uint8 | Uint16 | Uint32 | Uint64 | Uintptr
  | Float32 | Float64 | Complex64 | Complex128
  | Array | Chan | Func | Interface | Map | Ptr | Slice | String | Struct
  | UnsafePointer
  deriving DecidableEq, Repr

/-- A type is named by its node in the type graph. -/
abbrev TypeId := Nat

/-- What `reflect.StructField` offers to the generator: the declared name, the
field type and the value of the `json` key of the tag (`f.Tag.Get("json")`). -/
structure StructField where
  Name : String
  Typ : TypeId
  jsonTag : String
  deriving DecidableEq, Repr

/-- What `reflect.Type` answers for one type. -/
structure TypeInfo where
  /-- Result of `t.Kind()`. -/
  kind : Kind
  /-- Text of the type as printed by `%v`. -/
  str : String
  /-- Result of `t.Elem()`. -/
  elem : TypeId
  /-- Result of `t.Key()`. -/
  key : TypeId
  /-- Result of `t.NumMethod()`. -/
  numMethod : Nat
  /-- Whether `reflect.PtrTo(t)` implements `easyjson.Marshaler`. -/
  implementsMarshaler : Bool
  /-- Whether `reflect.PtrTo(t)` implements `json.Marshaler`. -/
  implementsJSONMarshaler : Bool
  /-- Whether `reflect.PtrTo(t)` implements `easyjson.Optional`. -/
  implementsOptional : Bool
  deriving DecidableEq, Repr

/-- The type graph and the collaborators of the generator that live outside
`gen/encoder.go`: the function-name registry, the type-name printer, the field
namer, the field lister, the auxiliary-name supply and `strconv.Quote`. -/
structure Universe where
  info : TypeId → TypeInfo
  functionName : String → TypeId → String
  getType : TypeId → String
  getJSONFieldName : TypeId → StructField → String
  getStructFields : TypeId → List StructField
  varName : Nat → String
  quote : String → String

/-! ## The emitted text -/

/-- The condition printed by `notEmptyCheck`, by the return statement that
produced it. -/
inductive Cond
  | isDefined (v : String)
  | lenNonZero (v : String)
  | notNil (v : String)
  | boolValue (v : String)
  | strNonEmpty (v : String)
  | numNonZero (v : String)
  | always
  deriving DecidableEq, Repr

/-- Text of a condition. -/
def Cond.render : Cond → String
  | .isDefined v => "(" ++ v ++ ").IsDefined()"
  | .lenNonZero v => "len(" ++ v ++ ") != 0"
  | .notNil v => v ++ " != nil"
  | .boolValue v => v
  | .strNonEmpty v => v ++ " != \"\""
  | .numNonZero v => v ++ " != 0"
  | .always => "true"

/-- One printed line, by the print statement that produced it; `p` is the
leading white space. -/
inductive Line
  | marshalEasyJSON (p inRef : String)
  | rawMarshalJSON (p inRef : String)
  | prim (p enc inRef : String)
  | rawByte (p : String) (c : Char)
  | forRange (p iVar vVar inRef : String)
  | forEntries (p tmpVar inRef : String)
  | ifPos (p iVar : String)
  | close (p : String)
  | callEncoder (p enc inRef : String)
  | ifNil (p inRef : String)
  | rawNull (p : String)
  | elseOpen (p : String)
  | declTrue (p x : String)
  | commaUnless (p x : String)
  | clearFlag (p x : String)
  | rawJSONMarshal (p inRef : String)
  | rawString (p s : String)
  | ifCond (p : String) (c : Cond)
  | funcHeader (fname typ : String)
  | blankUse (p x : String)
  | text (s : String)
  deriving DecidableEq, Repr

/-- Text of a line (without the final newline); `q` is `strconv.Quote`, used by
the `%q` verb. -/
def Line.render (q : String → String) : Line → String
  | .marshalEasyJSON p i => p ++ "(" ++ i ++ ").MarshalEasyJSON(out)"
  | .rawMarshalJSON p i => p ++ "out.Raw( (" ++ i ++ ").MarshalJSON() )"
  | .prim p enc i => p ++ enc ++ "(" ++ i ++ ")"
  | .rawByte p c => p ++ "out.RawByte('" ++ String.singleton c ++ "')"
  | .forRange p iv vv i => p ++ "for " ++ iv ++ ", " ++ vv ++ " := range " ++ i ++ " \x7b"
  | .forEntries p tmp i =>
    p ++ "for " ++ tmp ++ "_name, " ++ tmp ++ "_value := range " ++ i ++ " \x7b"
  | .ifPos p iv => p ++ "if " ++ iv ++ " > 0 \x7b"
  | .close p => p ++ "\x7d"
  | .callEncoder p enc i => p ++ enc ++ "(out, &" ++ i ++ ")"
  | .ifNil p i => p ++ "if " ++ i ++ " == nil \x7b"
  | .rawNull p => p ++ "out.RawString(\"null\")"
  | .elseOpen p => p ++ "\x7d else \x7b"
  | .declTrue p x => p ++ x ++ " := true"
  | .commaUnless p x => p ++ "if !" ++ x ++ " \x7b out.RawByte(',') \x7d"
  | .clearFlag p x => p ++ x ++ " = false"
  | .rawJSONMarshal p i => p ++ "out.Raw(json.Marshal(" ++ i ++ "))"
  | .rawString p s => p ++ "out.RawString(" ++ q s ++ ")"
  | .ifCond p c => p ++ "if " ++ c.render ++ " \x7b"
  | .funcHeader fname typ => "func " ++ fname ++ "(out *jwriter.Writer, in *" ++ typ ++ ") \x7b"
  | .blankUse p x => p ++ "_ = " ++ x
  | .text s => s

/-! ## The generator -/

/-- The state of `Generator` that the encoder generator reads or writes. -/
structure Generator where
  out : List Line
  varCounter : Nat
  typesUnseen : List TypeId
  omitEmpty : Bool
  noStdMarshalers : Bool
  deriving DecidableEq, Repr

/-- The statement `fmt.Fprintln(g.out, ...)`. -/
def Generator.println (g : Generator) (l : Line) : Generator :=
  { g with out := g.out ++ [l] }

/-- Modelled from the spec: `Generator.uniqueVarName` is not under `src/`; the
auxiliary-name supply is a monotonic counter producing collision-free
identifiers (`Universe.varName` of the successive counter values). -/
def uniqueVarName (U : Universe) (g : Generator) : String × Generator :=
  (U.varName g.varCounter, { g with varCounter := g.varCounter + 1 })

/-- Modelled from the spec: `Generator.addType` is not under `src/`; a newly
discovered record type is communicated to the registry as an "also generate
this" worklist item (the registry, not this core, deduplicates). -/
def addType (g : Generator) (t : TypeId) : Generator :=
  { g with typesUnseen := g.typesUnseen ++ [t] }

/-- Source: `getStructEncoderName`. -/
def getStructEncoderName (U : Universe) (t : TypeId) : String :=
  U.functionName "easyjson_encode_" t

/-- Source: the table `primitiveEncoders`; a kind without an entry yields the
empty string, as a Go map lookup does. -/
def primitiveEncoders : Kind → String
  | .String => "out.String"
  | .Bool => "out.Bool"
  | .Int => "out.Int"
  | .Int8 => "out.Int8"
  | .Int16 => "out.Int16"
  | .Int32 => "out.Int32"
  | .Int64 => "out.Int64"
  | .Uint => "out.Uint"
  | .Uint8 => "out.Uint8"
  | .Uint16 => "out.Uint16"
  | .Uint32 => "out.Uint32"
  | .Uint64 => "out.Uint64"
  | .Float32 => "out.Float32"
  | .Float64 => "out.Float64"
  | _ => ""

/-- The call `strings.Repeat(s, n)`. -/
def stringsRepeat (s : String) : Nat → String
  | 0 => ""
  | n + 1 => s ++ stringsRepeat s n

/-- Source: `genTypeEncoder`.  The result is `none` when the recursion did not
return within the budget, and otherwise the generator state together with the
returned error (`none` for `nil`).  The recursive calls for the element of a
sequence, the target of a pointer and the value of a map discard the error
they return, as the source does. -/
def genTypeEncoder (U : Universe) :
    Nat → TypeId → String → Nat → Generator → Option (Generator × Option String)
  | 0, _, _, _, _ => none
  | fuel + 1, t, inRef, indent, g =>
    let ws := stringsRepeat "  " indent
    if (U.info t).implementsMarshaler then
      some (g.println (.marshalEasyJSON ws inRef), none)
    else if (U.info t).implementsJSONMarshaler then
      some (g.println (.rawMarshalJSON ws inRef), none)
    else if primitiveEncoders (U.info t).kind ≠ "" then
      some (g.println (.prim ws (primitiveEncoders (U.info t).kind) inRef), none)
    else
      match (U.info t).kind with
      | .Slice =>
        let elem := (U.info t).elem
        let (iVar, g1) := uniqueVarName U g
        let (vVar, g2) := uniqueVarName U g1
        let g3 := g2.println (.rawByte ws '[')
        let g4 := g3.println (.forRange ws iVar vVar inRef)
        let g5 := g4.println (.ifPos (ws ++ "  ") iVar)
        let g6 := g5.println (.rawByte (ws ++ "    ") ',')
        let g7 := g6.println (.close (ws ++ "  "))
        match genTypeEncoder U fuel elem vVar (indent + 1) g7 with
        | none => none
        | some (g8, _) =>
          let g9 := g8.println (.close ws)
          some (g9.println (.rawByte ws ']'), none)
      | .Struct =>
        let enc := getStructEncoderName U t
        let g1 := addType g t
        some (g1.println (.callEncoder ws enc inRef), none)
      | .Ptr =>
        let g1 := g.println (.ifNil ws inRef)
        let g2 := g1.println (.rawNull (ws ++ "  "))
        let g3 := g2.println (.elseOpen ws)
        match genTypeEncoder U fuel (U.info t).elem ("*" ++ inRef) (indent + 1) g3 with
        | none => none
        | some (g4, _) => some (g4.println (.close ws), none)
      | .Map =>
        let key := (U.info t).key
        if (U.info key).kind ≠ .String then
          some (g, some ("map type " ++ (U.info key).str
            ++ " not supported: only string keys are allowed"))
        else
          let (tmpVar, g1) := uniqueVarName U g
          let g2 := g1.println (.rawByte ws '{')
          let g3 := g2.println (.declTrue ws (tmpVar ++ "_first"))
          let g4 := g3.println (.forEntries ws tmpVar inRef)
          let g5 := g4.println (.commaUnless (ws ++ "  ") (tmpVar ++ "_first"))
          let g6 := g5.println (.clearFlag (ws ++ "  ") (tmpVar ++ "_first"))
          let g7 := g6.println (.prim (ws ++ "  ") "out.String" (tmpVar ++ "_name"))
          match genTypeEncoder U fuel (U.info t).elem (tmpVar ++ "_value")
              (indent + 1) g7 with
          | none => none
          | some (g8, _) =>
            let g9 := g8.println (.close ws)
            some (g9.println (.rawByte ws '}'), none)
      | .Interface =>
        if (U.info t).numMethod ≠ 0 then
          some (g, some ("interface type " ++ (U.info t).str
            ++ " not supported: only interface{} is allowed"))
        else
          some (g.println (.rawJSONMarshal ws inRef), none)
      | _ => some (g, some ("don't know how to encode " ++ (U.info t).str))

/-- Source: `notEmptyCheck`. -/
def notEmptyCheck (U : Universe) (t : TypeId) (v : String) : Cond :=
  if (U.info t).implementsOptional then .isDefined v
  else
    match (U.info t).kind with
    | .Slice | .Map => .lenNonZero v
    | .Interface | .Ptr => .notNil v
    | .Bool => .boolValue v
    | .String => .strNonEmpty v
    | .Float32 | .Float64
    | .Int | .Int8 | .Int16 | .Int32 | .Int64
    | .Uint | .Uint8 | .Uint16 | .Uint32 | .Uint64 => .numNonZero v
    | _ => .always

/-- The call `strings.Split(s, ",")` on the characters of `s`; `acc` holds the
characters of the current piece, last one first. -/
def splitCommaAux : List Char → List Char → List String
  | [], acc => [String.mk acc.reverse]
  | c :: cs, acc =>
    if c = ',' then String.mk acc.reverse :: splitCommaAux cs []
    else splitCommaAux cs (c :: acc)

/-- The call `strings.Split(s, ",")`. -/
def stringsSplitComma (s : String) : List String :=
  splitCommaAux s.data []

/-- Source: the loop of `genStructFieldEncoder` over the pieces of the tag;
`i` is the index of the first remaining piece. -/
def omitEmptyLoop : Nat → List String → Bool → Bool
  | _, [], omitEmpty => omitEmpty
  | i, s :: rest, omitEmpty =>
    if 0 < i ∧ s = "omitempty" then omitEmptyLoop (i + 1) rest true
    else if 0 < i ∧ s = "!omitempty" then omitEmptyLoop (i + 1) rest false
    else omitEmptyLoop (i + 1) rest omitEmpty

/-- The omission policy that `genStructFieldEncoder` computes for a field. -/
def fieldOmitEmpty (g : Generator) (f : StructField) : Bool :=
  omitEmptyLoop 0 (stringsSplitComma f.jsonTag) g.omitEmpty

/-- Source: `genStructFieldEncoder`. -/
def genStructFieldEncoder (U : Universe) (fuel : Nat) (t : TypeId) (f : StructField)
    (g : Generator) : Option (Generator × Option String) :=
  let jsonName := U.getJSONFieldName t f
  let omitEmpty := fieldOmitEmpty g f
  if !omitEmpty then
    let g1 := g.println (.commaUnless "  " "first")
    let g2 := g1.println (.clearFlag "  " "first")
    let g3 := g2.println (.rawString "  " (U.quote jsonName ++ ":"))
    genTypeEncoder U fuel f.Typ ("in." ++ f.Name) 1 g3
  else
    let g1 := g.println (.ifCond "  " (notEmptyCheck U f.Typ ("in." ++ f.Name)))
    let g2 := g1.println (.commaUnless "    " "first")
    let g3 := g2.println (.clearFlag "    " "first")
    let g4 := g3.println (.rawString "    " (U.quote jsonName ++ ":"))
    match genTypeEncoder U fuel f.Typ ("in." ++ f.Name) 2 g4 with
    | none => none
    | some (g5, some err) => some (g5, some err)
    | some (g5, none) => some (g5.println (.close "  "), none)

/-- Source: the loop of `genStructEncoder` over the fields. -/
def genStructFields (U : Universe) (fuel : Nat) (t : TypeId) :
    List StructField → Generator → Option (Generator × Option String)
  | [], g => some (g, none)
  | f :: fs, g =>
    match genStructFieldEncoder U fuel t f g with
    | none => none
    | some (g1, some err) => some (g1, some err)
    | some (g1, none) => genStructFields U fuel t fs g1

/-- Source: `genStructEncoder`. -/
def genStructEncoder (U : Universe) (fuel : Nat) (t : TypeId) (g : Generator) :
    Option (Generator × Option String) :=
  if (U.info t).kind ≠ .Struct then
    some (g, some ("cannot generate encoder/decoder for " ++ (U.info t).str
      ++ ", not a struct type"))
  else
    let fname := getStructEncoderName U t
    let typ := U.getType t
    let g1 := g.println (.funcHeader fname typ)
    let g2 := g1.println (.rawByte "  " '{')
    let g3 := g2.println (.declTrue "  " "first")
    let g4 := g3.println (.blankUse "  " "first")
    match genStructFields U fuel t (U.getStructFields t) g4 with
    | none => none
    | some (g5, some err) => some (g5, some err)
    | some (g5, none) =>
      let g6 := g5.println (.rawByte "  " '}')
      some (g6.println (.close ""), none)

/-! ## Statements in the words of the spec -/

/-- Text of the output stream, line by line. -/
def Generator.lines (q : String → String) (g : Generator) : List String :=
  g.out.map (Line.render q)

/-- Follows the spec's words: among the tokens after the first, the last one
that is exactly `omitempty` or exactly `!omitempty` decides; without such a
token the global default holds. -/
def lastDirectivePolicy (tokens : List String) (dflt : Bool) : Bool :=
  match (tokens.tail.filter (fun s => s = "omitempty" ∨ s = "!omitempty")).getLast? with
  | some s => decide (s = "omitempty")
  | none => dflt

/-- Follows the spec's words: the emptiness priority table by kind, as the
negation of "is empty". -/
def emptinessTable (k : Kind) (v : String) : String :=
  if k = .Slice ∨ k = .Map then "len(" ++ v ++ ") != 0"
  else if k = .Ptr ∨ k = .Interface then v ++ " != nil"
  else if k = .Bool then v
  else if k = .String then v ++ " != \"\""
  else if k ∈ [Kind.Int, .Int8, .Int16, .Int32, .Int64, .Uint, .Uint8, .Uint16,
      .Uint32, .Uint64, .Float32, .Float64] then v ++ " != 0"
  else "true"

/-- The type that the recursion of `genTypeEncoder` visits after `t`: the
element of a sequence, the target of a pointer or the value of a map with
string keys, for a type without marshal capability; `none` where the call
returns without recursion. -/
def descent (U : Universe) (t : TypeId) : Option TypeId :=
  if (U.info t).implementsMarshaler then none
  else if (U.info t).implementsJSONMarshaler then none
  else if primitiveEncoders (U.info t).kind ≠ "" then none
  else
    match (U.info t).kind with
    | .Slice => some (U.info t).elem
    | .Ptr => some (U.info t).elem
    | .Map => if (U.info (U.info t).key).kind ≠ .String then none else some (U.info t).elem
    | _ => none

/-- Whether the chain of descents from `t` ends within `n` types. -/
def descentEnds (U : Universe) : Nat → TypeId → Bool
  | 0, _ => false
  | n + 1, t =>
    match descent U t with
    | none => true
    | some t1 => descentEnds U n t1

/-! ## Running the emitted code

The emitted lines are given their Go meaning.  Values of the program being
encoded are `Value`s; what the writer methods, the marshal methods of user
types, `json.Marshal` and the encoders generated for other records append to
the output is supplied by a `Runtime`.  The flags declared by the emitted code,
the position variables of loops over sequences and the value variables of
loops are kept apart, which is how collision-free auxiliary names behave; a
block gives up its own declarations when it is left. -/

/-- A floating-point value: a finite value `±mantissa * 2 ^ exponent` (the two
signed zeros are the finite values with mantissa zero), an infinity, or
not-a-number. -/
inductive FloatValue
  | finite (negative : Bool) (mantissa : Nat) (exponent : Int)
  | inf (negative : Bool)
  | nan
  deriving DecidableEq, Repr

/-- The comparison `f == 0` of Go: it holds for both signed zeros and for no
other value (not for the infinities, not for not-a-number). -/
def FloatValue.eqZero : FloatValue → Bool
  | .finite _ m _ => m == 0
  | _ => false

/-- A run-time value of the program whose values are encoded; `num` is a value
of an integer kind and `float` a value of a floating-point kind. -/
inductive Value
  | bool (b : Bool)
  | str (s : String)
  | num (n : Int)
  | float (f : FloatValue)
  | nil
  | ptr (target : Value)
  | slice (elems : List Value)
  | map (entries : List (String × Value))
  | other (id : Nat)

/-- What the callees of the emitted code append to the output. -/
structure Runtime where
  /-- The writer method `enc` of `jwriter.Writer`, such as `out.Int32`. -/
  writePrim : String → Value → String
  /-- The call `(v).MarshalEasyJSON(out)`. -/
  marshalEasyJSON : Value → String
  /-- The call `out.Raw( (v).MarshalJSON() )`. -/
  rawMarshalJSON : Value → String
  /-- The call `out.Raw(json.Marshal(v))`. -/
  rawJSONMarshal : Value → String
  /-- The generated encoder `enc(out, &v)` of a record. -/
  callEncoder : String → Value → String
  /-- The call `(v).IsDefined()`. -/
  isDefined : Value → Bool

/-- The state of a running encoder: the text written so far, the boolean
flags, the position variables and the value variables in scope (innermost
first). -/
structure RunState where
  out : String
  flags : List (String × Bool)
  idx : List (String × Nat)
  vals : List (String × Value)

/-- Appending text to the output. -/
def RunState.write (s : RunState) (t : String) : RunState :=
  { s with out := s.out ++ t }

/-- The target of a pointer. -/
def Value.deref : Value → Value
  | .ptr v => v
  | _ => .nil

/-- The elements of a sequence. -/
def Value.elems : Value → List Value
  | .slice es => es
  | _ => []

/-- The entries of a map, in the order in which a loop over the map yields
them. -/
def Value.entries : Value → List (String × Value)
  | .map es => es
  | _ => []

/-- Whether a value is `nil`. -/
def Value.isNil : Value → Bool
  | .nil => true
  | _ => false

/-- The value of a reference: leading stars dereference, the rest is looked up
among the value variables. -/
def evalRefChars (vals : List (String × Value)) : List Char → Value
  | [] => (vals.lookup "").getD .nil
  | c :: cs =>
    if c = '*' then (evalRefChars vals cs).deref
    else (vals.lookup (String.mk (c :: cs))).getD .nil

/-- The value of a reference. -/
def evalRef (vals : List (String × Value)) (r : String) : Value :=
  evalRefChars vals r.data

/-- The truth value of a condition printed by `notEmptyCheck`. -/
def evalCond (rt : Runtime) (vals : List (String × Value)) : Cond → Bool
  | .isDefined v => rt.isDefined (evalRef vals v)
  | .lenNonZero v =>
    match evalRef vals v with
    | .slice es => !es.isEmpty
    | .map es => !es.isEmpty
    | _ => false
  | .notNil v => !(evalRef vals v).isNil
  | .boolValue v =>
    match evalRef vals v with
    | .bool b => b
    | _ => false
  | .strNonEmpty v =>
    match evalRef vals v with
    | .str s => decide (s ≠ "")
    | _ => false
  | .numNonZero v =>
    match evalRef vals v with
    | .num n => decide (n ≠ 0)
    | .float f => !f.eqZero
    | _ => false
  | .always => true

/-- Splits the lines after the opening line of a block into the body of the
block and the lines from its terminating line (`}` or `} else {`) on; `d` is
the number of inner blocks that are open. -/
def splitBlock : Nat → List Line → List Line × List Line
  | _, [] => ([], [])
  | d, l :: ls =>
    match l with
    | .close _ =>
      if d = 0 then ([], l :: ls)
      else (l :: (splitBlock (d - 1) ls).1, (splitBlock (d - 1) ls).2)
    | .elseOpen _ =>
      if d = 0 then ([], l :: ls)
      else (l :: (splitBlock d ls).1, (splitBlock d ls).2)
    | .forRange _ _ _ _ | .forEntries _ _ _ | .ifPos _ _ | .ifNil _ _ | .ifCond _ _
    | .funcHeader _ _ =>
      (l :: (splitBlock (d + 1) ls).1, (splitBlock (d + 1) ls).2)
    | _ => (l :: (splitBlock d ls).1, (splitBlock d ls).2)

/-- Assignment to the innermost flag of the given name. -/
def setFlag (x : String) (b : Bool) : List (String × Bool) → List (String × Bool)
  | [] => []
  | (y, c) :: rest => if y = x then (y, b) :: rest else (y, c) :: setFlag x b rest

/-- Leaving a block that was entered in state `s0` and ended in state `s1`:
the output and the assignments to outer flags stay, the declarations of the
block go. -/
def leaveBlock (s0 s1 : RunState) : RunState :=
  { out := s1.out
    flags := s1.flags.drop (s1.flags.length - s0.flags.length)
    idx := s0.idx
    vals := s0.vals }

/-- The loop `for i, v := range` over the elements of a sequence, from
position `k` on; `step` runs the body. -/
def rangeSlice (step : RunState → RunState) (iVar vVar : String) :
    Nat → List Value → RunState → RunState
  | _, [], s => s
  | k, e :: es, s =>
    rangeSlice step iVar vVar (k + 1) es
      (leaveBlock s (step { s with idx := (iVar, k) :: s.idx, vals := (vVar, e) :: s.vals }))

/-- The loop `for k, v := range` over the entries of a map, in the order in
which the map yields them; `step` runs the body. -/
def rangeMap (step : RunState → RunState) (kVar vVar : String) :
    List (String × Value) → RunState → RunState
  | [], s => s
  | (k, e) :: es, s =>
    rangeMap step kVar vVar es
      (leaveBlock s (step { s with vals := (vVar, e) :: (kVar, .str k) :: s.vals }))

/-- A conditional with test value `c` whose opening line is followed by `ls`;
`rec` runs lines. -/
def execIf (rec : List Line → RunState → RunState) (c : Bool) (ls : List Line)
    (s : RunState) : RunState :=
  match (splitBlock 0 ls).2 with
  | .elseOpen _ :: ls1 =>
    rec (splitBlock 0 ls1).2.tail
      (leaveBlock s (rec (if c then (splitBlock 0 ls).1 else (splitBlock 0 ls1).1) s))
  | rest => rec rest.tail (if c then leaveBlock s (rec (splitBlock 0 ls).1 s) else s)

/-- Runs the line `l` followed by the lines `ls`; `rec` runs lines.  A `}` that
closes no block opened in these lines ends the function. -/
def execStep (rt : Runtime) (rec : List Line → RunState → RunState) (l : Line)
    (ls : List Line) (s : RunState) : RunState :=
  match l with
  | .marshalEasyJSON _ r => rec ls (s.write (rt.marshalEasyJSON (evalRef s.vals r)))
  | .rawMarshalJSON _ r => rec ls (s.write (rt.rawMarshalJSON (evalRef s.vals r)))
  | .prim _ enc r => rec ls (s.write (rt.writePrim enc (evalRef s.vals r)))
  | .rawByte _ c => rec ls (s.write (String.singleton c))
  | .rawNull _ => rec ls (s.write "null")
  | .rawString _ t => rec ls (s.write t)
  | .rawJSONMarshal _ r => rec ls (s.write (rt.rawJSONMarshal (evalRef s.vals r)))
  | .callEncoder _ enc r => rec ls (s.write (rt.callEncoder enc (evalRef s.vals r)))
  | .declTrue _ x => rec ls { s with flags := (x, true) :: s.flags }
  | .clearFlag _ x => rec ls { s with flags := setFlag x false s.flags }
  | .commaUnless _ x => rec ls (if s.flags.lookup x = some false then s.write "," else s)
  | .blankUse _ _ => rec ls s
  | .text _ => rec ls s
  | .funcHeader _ _ => rec ls s
  | .close _ => s
  | .elseOpen _ => s
  | .ifCond _ c => execIf rec (evalCond rt s.vals c) ls s
  | .ifPos _ i => execIf rec (decide (0 < (s.idx.lookup i).getD 0)) ls s
  | .ifNil _ r => execIf rec (evalRef s.vals r).isNil ls s
  | .forRange _ i v r =>
    rec (splitBlock 0 ls).2.tail
      (rangeSlice (fun st => rec (splitBlock 0 ls).1 st) i v 0 (evalRef s.vals r).elems s)
  | .forEntries _ tmp r =>
    rec (splitBlock 0 ls).2.tail
      (rangeMap (fun st => rec (splitBlock 0 ls).1 st) (tmp ++ "_name") (tmp ++ "_value")
        (evalRef s.vals r).entries s)

/-- Runs lines within a recursion budget; a budget of the number of lines
suffices. -/
def exec (rt : Runtime) : Nat → List Line → RunState → RunState
  | 0, _, s => s
  | _ + 1, [], s => s
  | f + 1, l :: ls, s => execStep rt (fun ls1 st => exec rt f ls1 st) l ls s

/-- Runs lines. -/
def run (rt : Runtime) (ls : List Line) (s : RunState) : RunState :=
  exec rt ls.length ls s

/-- The text that an emitted encoder function writes when it is called with
the fields of its argument bound as given by `input` (the value of `in.F` for
each field `F`). -/
def runEncoder (rt : Runtime) (lines : List Line) (input : List (String × Value)) : String :=
  match lines with
  | .funcHeader _ _ :: body =>
    (run rt body { out := "", flags := [], idx := [], vals := input }).out
  | _ => ""

/-- The text that the code emitted by `genTypeEncoder` for the type `t` writes
for the value `v`, by the same case distinction as the generator. -/
def encode (U : Universe) (rt : Runtime) : Nat → TypeId → Value → String
  | 0, _, _ => ""
  | n + 1, t, v =>
    if (U.info t).implementsMarshaler then rt.marshalEasyJSON v
    else if (U.info t).implementsJSONMarshaler then rt.rawMarshalJSON v
    else if primitiveEncoders (U.info t).kind ≠ "" then
      rt.writePrim (primitiveEncoders (U.info t).kind) v
    else
      match (U.info t).kind with
      | .Slice =>
        "[" ++ String.intercalate "," (v.elems.map (encode U rt n (U.info t).elem)) ++ "]"
      | .Struct => rt.callEncoder (getStructEncoderName U t) v
      | .Ptr => if v.isNil then "null" else encode U rt n (U.info t).elem v.deref
      | .Map =>
        if (U.info (U.info t).key).kind ≠ .String then ""
        else
          "\x7b" ++ String.intercalate ","
            (v.entries.map (fun e => rt.writePrim "out.String" (.str e.1)
              ++ encode U rt n (U.info t).elem e.2)) ++ "\x7d"
      | .Interface => if (U.info t).numMethod ≠ 0 then "" else rt.rawJSONMarshal v
      | _ => ""

/-! ## A small type graph for concrete evaluation -/

/-- A capability-free type description without methods. -/
def plainInfo (k : Kind) (s : String) (elem key : TypeId) : TypeInfo :=
  { kind := k, str := s, elem := elem, key := key, numMethod := 0,
    implementsMarshaler := false, implementsJSONMarshaler := false,
    implementsOptional := false }

/-- The types of the example graph:
`0` string, `1` int, `2` map[int]string, `3` []map[int]string,
`4` type Node struct (Next *Node), `5` *Node, `6` type T []T, `7` type P *P,
`8` type M map[string]M, `9` a channel type with both marshal capabilities,
`10` a map[int]string type with the standard marshal capability,
`11` type Holder struct (F []map[int]string), `12` int32,
`13` type Rec struct (name string, count int32), `14` map[string]int,
`15` type OptInt int with the is-defined capability and the fast
custom-marshal capability, `16` type Opt struct (N OptInt), `17` type Tri struct (A string, B int,
C string), `18` type Sparse struct (X int, Y string), `19` interface without
methods, `20` an interface with one method, `21` uintptr, `22` []int,
`23` *int, `24` type Link struct (Next *int), `25` float64,
`26` type Score struct (S float64). -/
def demoInfo : TypeId → TypeInfo
  | 0 => plainInfo .String "string" 0 0
  | 1 => plainInfo .Int "int" 0 0
  | 2 => plainInfo .Map "map[int]string" 0 1
  | 3 => plainInfo .Slice "[]map[int]string" 2 0
  | 4 => plainInfo .Struct "demo.Node" 0 0
  | 5 => plainInfo .Ptr "*demo.Node" 4 0
  | 6 => plainInfo .Slice "demo.T" 6 0
  | 7 => plainInfo .Ptr "demo.P" 7 0
  | 8 => plainInfo .Map "demo.M" 8 0
  | 9 => { plainInfo .Chan "demo.Both" 0 0 with
      implementsMarshaler := true, implementsJSONMarshaler := true }
  | 10 => { plainInfo .Map "demo.Raw" 0 1 with implementsJSONMarshaler := true }
  | 11 => plainInfo .Struct "demo.Holder" 0 0
  | 12 => plainInfo .Int32 "int32" 0 0
  | 13 => plainInfo .Struct "demo.Rec" 0 0
  | 14 => plainInfo .Map "map[string]int" 1 0
  | 15 => { plainInfo .Int "demo.OptInt" 0 0 with
      implementsOptional := true, implementsMarshaler := true }
  | 16 => plainInfo .Struct "demo.Opt" 0 0
  | 17 => plainInfo .Struct "demo.Tri" 0 0
  | 18 => plainInfo .Struct "demo.Sparse" 0 0
  | 19 => plainInfo .Interface "interface \x7b\x7d" 0 0
  | 20 => { plainInfo .Interface "fmt.Stringer" 0 0 with numMethod := 1 }
  | 21 => plainInfo .Uintptr "uintptr" 0 0
  | 22 => plainInfo .Slice "[]int" 1 0
  | 23 => plainInfo .Ptr "*int" 1 0
  | 24 => plainInfo .Struct "demo.Link" 0 0
  | 25 => plainInfo .Float64 "float64" 0 0
  | 26 => plainInfo .Struct "demo.Score" 0 0
  | _ => plainInfo .Invalid "<invalid>" 0 0

/-- The fields of the record types of the example graph. -/
def demoFields : TypeId → List StructField
  | 4 => [{ Name := "Next", Typ := 5, jsonTag := "" }]
  | 11 => [{ Name := "F", Typ := 3, jsonTag := "" }]
  | 13 => [{ Name := "name", Typ := 0, jsonTag := "n" },
           { Name := "count", Typ := 12, jsonTag := "c,omitempty" }]
  | 16 => [{ Name := "N", Typ := 15, jsonTag := "n,omitempty" }]
  | 17 => [{ Name := "A", Typ := 0, jsonTag := "a" },
           { Name := "B", Typ := 1, jsonTag := "b" },
           { Name := "C", Typ := 0, jsonTag := "c" }]
  | 18 => [{ Name := "X", Typ := 1, jsonTag := "x,omitempty" },
           { Name := "Y", Typ := 0, jsonTag := "y,omitempty" }]
  | 24 => [{ Name := "Next", Typ := 23, jsonTag := "next" }]
  | 26 => [{ Name := "S", Typ := 25, jsonTag := "s,omitempty" }]
  | _ => []

/-- The call `strconv.Quote` on text in which only the double quote and the
backslash need an escape. -/
def quoteChars : List Char → List Char
  | [] => []
  | c :: cs =>
    if c = Char.ofNat 34 ∨ c = Char.ofNat 92 then Char.ofNat 92 :: c :: quoteChars cs
    else c :: quoteChars cs

/-- The call `strconv.Quote` on printable text. -/
def demoQuote (s : String) : String :=
  "\"" ++ String.mk (quoteChars s.data) ++ "\""

/-- The serialized name of a field: the first piece of the tag, or the
declared name when that piece is empty. -/
def demoFieldName (f : StructField) : String :=
  match stringsSplitComma f.jsonTag with
  | s :: _ => if s = "" then f.Name else s
  | [] => f.Name

/-- The example graph with its collaborators. -/
def demo : Universe :=
  { info := demoInfo
    functionName := fun p t => p ++ (demoInfo t).str
    getType := fun t => (demoInfo t).str
    getJSONFieldName := fun _ f => demoFieldName f
    getStructFields := demoFields
    varName := fun n => "v" ++ toString (n + 1)
    quote := demoQuote }

/-- A fresh generator with the given global omission default. -/
def newGenerator (omitEmpty : Bool) : Generator :=
  { out := [], varCounter := 0, typesUnseen := [], omitEmpty := omitEmpty,
    noStdMarshalers := false }

/-- Whether a line opens a block. -/
def Line.opens : Line → Bool
  | .forRange _ _ _ _ | .forEntries _ _ _ | .ifPos _ _ | .ifNil _ _ | .ifCond _ _
  | .funcHeader _ _ => true
  | _ => false

/-- Whether a line neither opens nor ends a block. -/
def Line.plain : Line → Bool
  | .forRange _ _ _ _ | .forEntries _ _ _ | .ifPos _ _ | .ifNil _ _ | .ifCond _ _
  | .funcHeader _ _ | .close _ | .elseOpen _ => false
  | _ => true

/-- Lines in which every block that is opened is closed and no other block is
ended: splitting runs through them. -/
def Balanced (A : List Line) : Prop :=
  ∀ d rest, splitBlock d (A ++ rest) = (A ++ (splitBlock d rest).1, (splitBlock d rest).2)

/-- The texts `ms` one after the other, each but the first preceded by a
comma, and the first one too unless `first` holds. -/
def joinFrom (first : Bool) : List String → String
  | [] => ""
  | m :: ms => (if first then "" else ",") ++ m ++ joinFrom false ms

/-- Whether a name begins with a star. -/
def startsWithStar (s : String) : Bool :=
  s.data.head? == some '*'

/-- The lines `A`, run with the reference `inRef` in scope, append to the
output the text `w` of the value of `inRef`, are balanced and leave behind at
most flags of their own, none of them named `first`. -/
def WritesAs (rt : Runtime) (A : List Line) (inRef : String) (w : Value → String) : Prop :=
  Balanced A ∧ ∀ (B : List Line) (s : RunState), ∃ D : List (String × Bool),
    (∀ p ∈ D, p.1 ≠ "first") ∧
    run rt (A ++ B) s
      = run rt B { out := s.out ++ w (evalRef s.vals inRef), flags := D ++ s.flags,
                   idx := s.idx, vals := s.vals }

/-- Whether the emitted record encoder writes the field `f` when the fields of
its argument are bound as in `vals`: the field is always included, or the
condition of its guard holds. -/
def fieldWritten (U : Universe) (rt : Runtime) (g : Generator)
    (vals : List (String × Value)) (f : StructField) : Bool :=
  !fieldOmitEmpty g f || evalCond rt vals (notEmptyCheck U f.Typ ("in." ++ f.Name))

/-- The member that the emitted record encoder writes for the field `f`: the
quoted name, a colon and the text of the value. -/
def fieldMember (U : Universe) (rt : Runtime) (fuel : Nat) (t : TypeId)
    (vals : List (String × Value)) (f : StructField) : String :=
  U.quote (U.getJSONFieldName t f) ++ ":"
    ++ encode U rt fuel f.Typ (evalRef vals ("in." ++ f.Name))

/-- A runtime for concrete evaluation: the writer methods print strings
quoted, numbers in decimal and booleans as `true` or `false`; the callees
outside the emitted code leave a mark, and `IsDefined` always answers `true`. -/
def demoRuntime : Runtime :=
  { writePrim := fun enc v =>
      match v with
      | .str s => demoQuote s
      | .num n => toString n
      | .bool b => toString b
      | _ => "<" ++ enc ++ ">"
    marshalEasyJSON := fun _ => "<MarshalEasyJSON>"
    rawMarshalJSON := fun _ => "<MarshalJSON>"
    rawJSONMarshal := fun _ => "<json.Marshal>"
    callEncoder := fun enc _ => "<" ++ enc ++ ">"
    isDefined := fun _ => true }

/-- Follows the spec's words: whether `v`, a value of the scalar kind `k`, is
the zero value of that kind: the empty string, `false`, the integer zero, or a
floating-point value that compares equal to zero (either signed zero); `none`
when `v` is not a value of a scalar kind `k`. -/
def holdsZeroValue (k : Kind) (v : Value) : Option Bool :=
  match v with
  | .str s => if k = .String then some (decide (s = "")) else none
  | .bool b => if k = .Bool then some (!b) else none
  | .num n =>
    if k ∈ [Kind.Int, .Int8, .Int16, .Int32, .Int64, .Uint, .Uint8, .Uint16,
      .Uint32, .Uint64] then some (decide (n = 0)) else none
  | .float f => if k ∈ [Kind.Float32, .Float64] then some f.eqZero else none
  | _ => none

/-- The members that the emitted record encoder writes for the fields `fs`, in
the order of `fs`. -/
def writtenMembers (U : Universe) (rt : Runtime) (fuel : Nat) (t : TypeId) (g : Generator)
    (vals : List (String × Value)) (fs : List StructField) : List String :=
  (fs.filter (fieldWritten U rt g vals)).map (fieldMember U rt fuel t vals)

/-- The generator after `genStructEncoder` has run for the record `t` of the
example graph, starting from a fresh generator. -/
def demoGenerated (omitEmpty : Bool) (t : TypeId) : Generator :=
  match genStructEncoder demo 2 t (newGenerator omitEmpty) with
  | some (g1, _) => g1
  | none => newGenerator omitEmpty

/-- Source: `genStructMarshaller`. -/
def genStructMarshaller (U : Universe) (t : TypeId) (g : Generator) :
    Generator × Option String :=
  if (U.info t).kind ≠ .Struct then
    (g, some ("cannot generate encoder/decoder for " ++ (U.info t).str
      ++ ", not a struct type"))
  else
    let fname := getStructEncoderName U t
    let typ := U.getType t
    let g1 :=
      if !g.noStdMarshalers then
        ((((g.println (.text ("func (v *" ++ typ ++ ") MarshalJSON() ([]byte, error) \x7b"))).println
          (.text "  w := jwriter.Writer\x7b\x7d")).println
          (.text ("  " ++ fname ++ "(&w, v)"))).println
          (.text "  return w.Buffer.BuildBytes(), w.Error")).println
          (.text "\x7d")
      else g
    let g2 := g1.println (.text ("func (v *" ++ typ ++ ") MarshalEasyJSON(w *jwriter.Writer) \x7b"))
    let g3 := g2.println (.text ("  " ++ fname ++ "(w, v)"))
    (g3.println (.text "\x7d"), none)

/-- The name of a kind, as the constant of package `reflect` is called. -/
def kindName : Kind → String
  | .Invalid => "Invalid" | .Bool => "Bool" | .Int => "Int" | .Int8 => "Int8"
  | .Int16 => "Int16" | .Int32 => "Int32" | .Int64 => "Int64" | .Uint => "Uint"
  | .Uint8 => "Uint8" | .Uint16 => "Uint16" | .Uint32 => "Uint32" | .Uint64 => "Uint64"
  | .Uintptr => "Uintptr" | .Float32 => "Float32" | .Float64 => "Float64"
  | .Complex64 => "Complex64" | .Complex128 => "Complex128" | .Array => "Array"
  | .Chan => "Chan" | .Func => "Func" | .Interface => "Interface" | .Map => "Map"
  | .Ptr => "Ptr" | .Slice => "Slice" | .String => "String" | .Struct => "Struct"
  | .UnsafePointer => "UnsafePointer"

/-- Follows the spec's words: the fourteen scalar kinds. -/
def scalarKinds : List Kind :=
  [.String, .Bool, .Int, .Int8, .Int16, .Int32, .Int64, .Uint, .Uint8, .Uint16, .Uint32,
    .Uint64, .Float32, .Float64]

/-- Follows the spec's words: the type itself (not a type nested in it) has no
known encoding: it is a map whose key kind is not string, an interface with at
least one method, or of a kind outside the fourteen scalars, sequence, record,
pointer, map and interface. -/
def hasNoEncoding (U : Universe) (t : TypeId) : Bool :=
  ((U.info t).kind == .Map && (U.info (U.info t).key).kind != .String)
  || ((U.info t).kind == .Interface && (U.info t).numMethod != 0)
  || !((scalarKinds ++ [Kind.Slice, .Struct, .Ptr, .Map, .Interface]).contains (U.info t).kind)

/-- The lines that a call appended to the output stream: `g` is the state
before the call and `g1` the state after it. -/
def appendedLines (q : String → String) (g g1 : Generator) : List String :=
  (g1.out.drop g.out.length).map (Line.render q)

/-- The relation between the result `r` of a call at indent `k` started in
state `g` and the result `r2` of the same call at indent `k + 1` started in
state `g2`: both do not return, or both return with the same error, name
counter and registry, and the lines appended by the second are the lines
appended by the first, each prefixed with two spaces; every line appended by
the first begins with the white space of indent `k`. -/
def IndentRel (q : String → String) (k : Nat) (g g2 : Generator) :
    Option (Generator × Option String) → Option (Generator × Option String) → Prop
  | none, none => True
  | some (g1, e1), some (g3, e3) =>
    e3 = e1 ∧ g3.varCounter = g1.varCounter ∧ g3.typesUnseen = g1.typesUnseen
    ∧ ∃ A B, g1.out = g.out ++ A ∧ g3.out = g2.out ++ B
      ∧ B.map (Line.render q) = (A.map (Line.render q)).map (fun s => "  " ++ s)
      ∧ ∀ s ∈ A.map (Line.render q), ∃ r, s = stringsRepeat "  " k ++ r
  | _, _ => False

/-- The key literal that a line writes, if the line is the key line of a
field. -/
def Line.keyLiteral : Line → Option String
  | .rawString _ s => some s
  | _ => none

/-- Whether a line initialises the flag `first` of a record encoder. -/
def Line.declaresFirst : Line → Bool
  | .declTrue _ x => decide (x = "first")
  | _ => false

/-- Follows the spec's words: the outputs of `genStructFieldEncoder` for the
fields `fs`, one after the other in the order of `fs`, each field once; `g` is
the state in which the first field starts. -/
def fieldsOutput (U : Universe) (fuel : Nat) (t : TypeId) :
    List StructField → Generator → List String
  | [], _ => []
  | f :: fs, g =>
    match genStructFieldEncoder U fuel t f g with
    | some (g1, _) => appendedLines U.quote g g1 ++ fieldsOutput U fuel t fs g1
    | none => []

/-- An auxiliary-name supply whose names are told apart by their length:
`v`, `vx`, `vxx`, and so on. -/
def tallyName (n : Nat) : String :=
  String.mk ('v' :: List.replicate n 'x')

/-- The example graph with the name supply `tallyName`. -/
def demoTally : Universe :=
  { demo with varName := tallyName }

/-! ## Theorems about the generator -/

/-- C1: capability rules come first in `genTypeEncoder`.  For every type,
value reference and indent: with the fast custom-marshal capability the call
appends exactly the line `<ws>(<in>).MarshalEasyJSON(out)` and returns no
error; otherwise with the standard marshal capability it appends exactly the
line `<ws>out.Raw( (<in>).MarshalJSON() )` and returns no error.  Nothing is
assumed about the kind of the type, a type with both capabilities gets the
fast call, and neither the name counter nor the registry worklist changes. -/
theorem genTypeEncoder_capability_first (U : Universe) (fuel : Nat) (t : TypeId)
    (inRef : String) (indent : Nat) (g : Generator) :
    ((U.info t).implementsMarshaler = true →
      ∃ g1, genTypeEncoder U (fuel + 1) t inRef indent g = some (g1, none)
        ∧ g1.lines U.quote = g.lines U.quote
            ++ [stringsRepeat "  " indent ++ "(" ++ inRef ++ ").MarshalEasyJSON(out)"]
        ∧ g1.varCounter = g.varCounter ∧ g1.typesUnseen = g.typesUnseen)
    ∧ ((U.info t).implementsMarshaler = false →
      (U.info t).implementsJSONMarshaler = true →
      ∃ g1, genTypeEncoder U (fuel + 1) t inRef indent g = some (g1, none)
        ∧ g1.lines U.quote = g.lines U.quote
            ++ [stringsRepeat "  " indent ++ "out.Raw( (" ++ inRef ++ ").MarshalJSON() )"]
        ∧ g1.varCounter = g.varCounter ∧ g1.typesUnseen = g.typesUnseen) := by
  constructor
  · intro h
    refine ⟨g.println (.marshalEasyJSON (stringsRepeat "  " indent) inRef), ?_, ?_, rfl, rfl⟩
    · simp [genTypeEncoder, h]
    · simp [Generator.lines, Generator.println, Line.render]
  · intro h1 h2
    refine ⟨g.println (.rawMarshalJSON (stringsRepeat "  " indent) inRef), ?_, ?_, rfl, rfl⟩
    · simp [genTypeEncoder, h1, h2]
    · simp [Generator.lines, Generator.println, Line.render]

/-- Witness of C1: the channel type with both capabilities gets the fast call,
the map type with an integer key and the standard capability gets the standard
call. -/
theorem genTypeEncoder_capability_first_witness :
    (∃ g1, genTypeEncoder demo 1 9 "in.X" 1 (newGenerator false) = some (g1, none)
        ∧ g1.lines demo.quote = (newGenerator false).lines demo.quote
            ++ [stringsRepeat "  " 1 ++ "(" ++ "in.X" ++ ").MarshalEasyJSON(out)"]
        ∧ g1.varCounter = (newGenerator false).varCounter
        ∧ g1.typesUnseen = (newGenerator false).typesUnseen)
    ∧ (∃ g1, genTypeEncoder demo 1 10 "in.X" 1 (newGenerator false) = some (g1, none)
        ∧ g1.lines demo.quote = (newGenerator false).lines demo.quote
            ++ [stringsRepeat "  " 1 ++ "out.Raw( (" ++ "in.X" ++ ").MarshalJSON() )"]
        ∧ g1.varCounter = (newGenerator false).varCounter
        ∧ g1.typesUnseen = (newGenerator false).typesUnseen) :=
  ⟨(genTypeEncoder_capability_first demo 0 9 "in.X" 1 (newGenerator false)).1 rfl,
   (genTypeEncoder_capability_first demo 0 10 "in.X" 1 (newGenerator false)).2 rfl rfl⟩

/-- C2, the code at the failing input: the map type with an integer key fails
on its own, but below a sequence its error is discarded: `genTypeEncoder`
on `[]map[int]string` and `genStructEncoder` on the record with a field of
that type both return no error. -/
theorem nested_error_is_discarded :
    (genTypeEncoder demo 1 2 "v2" 2 (newGenerator false)).map Prod.snd
        = some (some "map type int not supported: only string keys are allowed")
    ∧ (genTypeEncoder demo 2 3 "in.F" 1 (newGenerator false)).map Prod.snd = some none
    ∧ (genStructEncoder demo 2 11 (newGenerator false)).map Prod.snd = some none := by
  decide

/-- C3, the code at the failing input: for `map[int]string` the error message
is built from the key type alone; the text of the map type does not occur in
it. -/
theorem map_error_names_key_only :
    genTypeEncoder demo 1 2 "in.M" 0 (newGenerator false)
        = some (newGenerator false,
            some "map type int not supported: only string keys are allowed")
    ∧ ¬ ((demoInfo 2).str.data
          <:+: "map type int not supported: only string keys are allowed".data) := by
  decide

/-- The budget suffices for `genTypeEncoder` exactly when the chain of
descents ends within it. -/
theorem genTypeEncoder_isSome_eq (U : Universe) (n : Nat) (t : TypeId) (inRef : String)
    (indent : Nat) (g : Generator) :
    (genTypeEncoder U n t inRef indent g).isSome = descentEnds U n t := by
  induction n generalizing t inRef indent g with
  | zero => rfl
  | succ n ih =>
    simp only [genTypeEncoder, descentEnds, descent]
    by_cases h1 : (U.info t).implementsMarshaler = true
    · simp [h1]
    by_cases h2 : (U.info t).implementsJSONMarshaler = true
    · simp [h1, h2]
    by_cases h3 : primitiveEncoders (U.info t).kind ≠ ""
    · simp [h1, h2, h3]
    simp only [h1, h2, h3, if_false, Bool.false_eq_true]
    cases hk : (U.info t).kind with
    | Slice =>
      simp only []
      rw [← ih (U.info t).elem (uniqueVarName U (uniqueVarName U g).2).1 (indent + 1)]
      generalize genTypeEncoder U n _ _ _ _ = o
      rcases o with _ | ⟨a, b⟩ <;> rfl
    | Ptr =>
      simp only []
      rw [← ih (U.info t).elem ("*" ++ inRef) (indent + 1)]
      generalize genTypeEncoder U n _ _ _ _ = o
      rcases o with _ | ⟨a, b⟩ <;> rfl
    | Map =>
      simp only []
      by_cases h4 : (U.info (U.info t).key).kind ≠ Kind.String
      · simp [h4]
      · simp only [h4, if_false]
        rw [← ih (U.info t).elem ((uniqueVarName U g).1 ++ "_value") (indent + 1)]
        generalize genTypeEncoder U n _ _ _ _ = o
        rcases o with _ | ⟨a, b⟩ <;> rfl
    | Interface =>
      simp only []
      split_ifs <;> rfl
    | _ => rfl

/-- A chain of descents that ends within `n` types ends within any larger
number. -/
theorem descentEnds_mono (U : Universe) (n m : Nat) (t : TypeId) (h : n ≤ m)
    (hn : descentEnds U n t = true) : descentEnds U m t = true := by
  induction n generalizing m t with
  | zero => simp [descentEnds] at hn
  | succ n ih =>
    cases m with
    | zero => omega
    | succ m =>
      simp only [descentEnds] at hn ⊢
      cases hd : descent U t with
      | none => simp
      | some t1 =>
        rw [hd] at hn
        exact ih m t1 (by omega) hn

/-- The chains of descents from the three self-referential composite types of
the example graph never end. -/
theorem descentEnds_selfReferential (n : Nat) :
    descentEnds demo n 6 = false ∧ descentEnds demo n 7 = false
      ∧ descentEnds demo n 8 = false := by
  induction n with
  | zero => exact ⟨rfl, rfl, rfl⟩
  | succ n ih =>
    refine ⟨?_, ?_, ?_⟩
    · have h : descent demo 6 = some 6 := by decide
      simp only [descentEnds, h]
      exact ih.1
    · have h : descent demo 7 = some 7 := by decide
      simp only [descentEnds, h]
      exact ih.2.1
    · have h : descent demo 8 = some 8 := by decide
      simp only [descentEnds, h]
      exact ih.2.2

/-- C4, counterexample: on the named self-referential composite types
`type T []T`, `type P *P` and `type M map[string]M` no recursion budget lets
`genTypeEncoder` return. -/
theorem genTypeEncoder_selfReferential_diverges :
    (¬ ∃ fuel, (genTypeEncoder demo fuel 6 "in.X" 1 (newGenerator false)).isSome = true)
    ∧ (¬ ∃ fuel, (genTypeEncoder demo fuel 7 "in.X" 1 (newGenerator false)).isSome = true)
    ∧ (¬ ∃ fuel, (genTypeEncoder demo fuel 8 "in.X" 1 (newGenerator false)).isSome = true) := by
  refine ⟨?_, ?_, ?_⟩ <;> rintro ⟨fuel, h⟩ <;> rw [genTypeEncoder_isSome_eq] at h
  · rw [(descentEnds_selfReferential fuel).1] at h; exact absurd h (by decide)
  · rw [(descentEnds_selfReferential fuel).2.1] at h; exact absurd h (by decide)
  · rw [(descentEnds_selfReferential fuel).2.2] at h; exact absurd h (by decide)

/-- C4, amended: `genTypeEncoder` returns within a recursion budget exactly
when the chain of descents from the type (sequence element, pointer target,
value of a map with string keys, through types without marshal capability)
ends within that budget, and then it returns within every larger budget; a
record without marshal capability ends the chain whatever its fields are, so a
record that refers back to itself through a pointer is no obstacle. -/
theorem genTypeEncoder_returns_iff_descent_ends (U : Universe) (n : Nat) (t : TypeId)
    (inRef : String) (indent : Nat) (g : Generator) :
    ((genTypeEncoder U n t inRef indent g).isSome = descentEnds U n t)
    ∧ (descentEnds U n t = true →
        ∀ m, n ≤ m → ∃ r, genTypeEncoder U m t inRef indent g = some r)
    ∧ ((U.info t).implementsMarshaler = false → (U.info t).implementsJSONMarshaler = false →
        (U.info t).kind = .Struct →
        descent U t = none ∧ ∃ r, genTypeEncoder U (n + 1) t inRef indent g = some r) := by
  refine ⟨genTypeEncoder_isSome_eq U n t inRef indent g, ?_, ?_⟩
  · intro hn m hm
    have h := genTypeEncoder_isSome_eq U m t inRef indent g
    rw [descentEnds_mono U n m t hm hn] at h
    exact Option.isSome_iff_exists.mp h
  · intro h1 h2 hk
    have hd : descent U t = none := by
      simp [descent, h1, h2, hk, primitiveEncoders]
    refine ⟨hd, ?_⟩
    have h := genTypeEncoder_isSome_eq U (n + 1) t inRef indent g
    simp only [descentEnds, hd] at h
    exact Option.isSome_iff_exists.mp h

/-- Witness of C4 (amended): the pointer to the record `Node`, whose field
`Next` has that same pointer type, is encoded within a budget of two, and the
record `Node` itself within a budget of one. -/
theorem genTypeEncoder_returns_iff_descent_ends_witness :
    (∀ m, 2 ≤ m → ∃ r, genTypeEncoder demo m 5 "in.Next" 1 (newGenerator false) = some r)
    ∧ (descent demo 4 = none
        ∧ ∃ r, genTypeEncoder demo (0 + 1) 4 "*in.Next" 2 (newGenerator false) = some r) :=
  ⟨(genTypeEncoder_returns_iff_descent_ends demo 2 5 "in.Next" 1 (newGenerator false)).2.1
      (by decide),
   (genTypeEncoder_returns_iff_descent_ends demo 0 4 "*in.Next" 2 (newGenerator false)).2.2
      rfl rfl rfl⟩

/-- C5: a nested record is referenced, never inlined.  For every record type
without marshal capability `genTypeEncoder` appends exactly the line
`<ws><encoderName(t)>(out, &<in>)`, hands the type to the registry once,
returns no error and leaves the name counter alone; the result is the same
whatever the fields of the record are. -/
theorem genTypeEncoder_record_by_reference (U : Universe) (fuel : Nat) (t : TypeId)
    (inRef : String) (indent : Nat) (g : Generator)
    (h1 : (U.info t).implementsMarshaler = false)
    (h2 : (U.info t).implementsJSONMarshaler = false)
    (hk : (U.info t).kind = .Struct) :
    (∃ g1, genTypeEncoder U (fuel + 1) t inRef indent g = some (g1, none)
      ∧ g1.lines U.quote = g.lines U.quote
          ++ [stringsRepeat "  " indent ++ getStructEncoderName U t ++ "(out, &" ++ inRef ++ ")"]
      ∧ g1.typesUnseen = g.typesUnseen ++ [t]
      ∧ g1.varCounter = g.varCounter)
    ∧ ∀ fields : TypeId → List StructField,
        genTypeEncoder { U with getStructFields := fields } (fuel + 1) t inRef indent g
          = genTypeEncoder U (fuel + 1) t inRef indent g := by
  constructor
  · refine ⟨(addType g t).println
      (.callEncoder (stringsRepeat "  " indent) (getStructEncoderName U t) inRef), ?_, ?_, rfl, rfl⟩
    · simp [genTypeEncoder, h1, h2, hk, primitiveEncoders]
    · simp [Generator.lines, Generator.println, Line.render, addType]
  · intro fields
    simp [genTypeEncoder, h1, h2, hk, primitiveEncoders, getStructEncoderName, uniqueVarName]

/-- Witness of C5: the record `Node` of the example graph. -/
theorem genTypeEncoder_record_by_reference_witness :
    (∃ g1, genTypeEncoder demo (0 + 1) 4 "in.X" 1 (newGenerator false) = some (g1, none)
      ∧ g1.lines demo.quote = (newGenerator false).lines demo.quote
          ++ [stringsRepeat "  " 1 ++ getStructEncoderName demo 4 ++ "(out, &" ++ "in.X" ++ ")"]
      ∧ g1.typesUnseen = (newGenerator false).typesUnseen ++ [4]
      ∧ g1.varCounter = (newGenerator false).varCounter)
    ∧ ∀ fields : TypeId → List StructField,
        genTypeEncoder { demo with getStructFields := fields } (0 + 1) 4 "in.X" 1
            (newGenerator false)
          = genTypeEncoder demo (0 + 1) 4 "in.X" 1 (newGenerator false) :=
  genTypeEncoder_record_by_reference demo 0 4 "in.X" 1 (newGenerator false) rfl rfl rfl

/-- Past the first token the loop over the tag pieces lets the last
recognised directive decide. -/
theorem omitEmptyLoop_pos (toks : List String) (i : Nat) (hi : 0 < i) (acc : Bool) :
    omitEmptyLoop i toks acc
      = match (toks.filter (fun s => s = "omitempty" ∨ s = "!omitempty")).getLast? with
        | some s => decide (s = "omitempty")
        | none => acc := by
  induction toks generalizing i acc with
  | nil => simp [omitEmptyLoop]
  | cons s rest ih =>
    simp only [omitEmptyLoop, hi, true_and]
    by_cases h1 : s = "omitempty"
    · simp only [h1, if_true, ih (i + 1) (by omega)]
      simp only [List.filter, true_or, decide_True, List.getLast?_cons]
      cases (List.filter (fun s => decide (s = "omitempty" ∨ s = "!omitempty")) rest).getLast?
        <;> simp
    · by_cases h2 : s = "!omitempty"
      · simp only [h2, if_true, ih (i + 1) (by omega)]
        simp only [List.filter, or_true, decide_True, List.getLast?_cons]
        cases (List.filter (fun s => decide (s = "omitempty" ∨ s = "!omitempty")) rest).getLast?
          <;> simp
      · simp only [h1, h2, if_false, ih (i + 1) (by omega)]
        simp [List.filter, h1, h2]

/-- C6: tag-directive resolution in `genStructFieldEncoder` is last-wins.  The
policy computed for a field is the one of the last token after the first that
is exactly `omitempty` or `!omitempty`, and the global default without such a
token; the first token is never read as a directive; and a field whose policy
comes out as always-include is printed without emptiness guard: the comma
line, the flag line and the key line are followed by the encoder of the field
type. -/
theorem fieldOmitEmpty_last_wins (U : Universe) (fuel : Nat) (t : TypeId) (f : StructField)
    (g : Generator) :
    fieldOmitEmpty g f = lastDirectivePolicy (stringsSplitComma f.jsonTag) g.omitEmpty
    ∧ (∀ (t0 t1 : String) (rest : List String) (d : Bool),
        omitEmptyLoop 0 (t0 :: rest) d = omitEmptyLoop 0 (t1 :: rest) d)
    ∧ (lastDirectivePolicy (stringsSplitComma f.jsonTag) g.omitEmpty = false →
        genStructFieldEncoder U fuel t f g
          = genTypeEncoder U fuel f.Typ ("in." ++ f.Name) 1
              (((g.println (.commaUnless "  " "first")).println
                (.clearFlag "  " "first")).println
                (.rawString "  " (U.quote (U.getJSONFieldName t f) ++ ":")))) := by
  have hloop : ∀ (toks : List String) (d : Bool),
      omitEmptyLoop 0 toks d = lastDirectivePolicy toks d := by
    intro toks d
    cases toks with
    | nil => simp [omitEmptyLoop, lastDirectivePolicy]
    | cons a rest =>
      simp only [omitEmptyLoop, lt_irrefl, false_and, if_false, lastDirectivePolicy,
        List.tail_cons]
      exact omitEmptyLoop_pos rest 1 (by omega) d
  refine ⟨hloop _ _, ?_, ?_⟩
  · intro t0 t1 rest d
    simp [omitEmptyLoop]
  · intro h
    have h0 : fieldOmitEmpty g f = false := by rw [← h]; exact hloop _ _
    simp [genStructFieldEncoder, h0]

/-- Witness of C6: with the global default omit-if-empty, the tag
`omitempty,omitempty,!omitempty` yields always-include. -/
theorem fieldOmitEmpty_last_wins_witness :
    genStructFieldEncoder demo 1 13
        { Name := "count", Typ := 12, jsonTag := "omitempty,omitempty,!omitempty" }
        (newGenerator true)
      = genTypeEncoder demo 1 12 ("in." ++ "count") 1
          ((((newGenerator true).println (.commaUnless "  " "first")).println
            (.clearFlag "  " "first")).println
            (.rawString "  " (demo.quote (demo.getJSONFieldName 13
              { Name := "count", Typ := 12, jsonTag := "omitempty,omitempty,!omitempty" })
              ++ ":"))) :=
  (fieldOmitEmpty_last_wins demo 1 13
    { Name := "count", Typ := 12, jsonTag := "omitempty,omitempty,!omitempty" }
    (newGenerator true)).2.2 (by decide)

/-- C10: `notEmptyCheck` implements the emptiness priority table.  With the
is-defined capability the result is `(<v>).IsDefined()` whatever the kind;
otherwise it is `len(<v>) != 0` for sequence and map, `<v> != nil` for pointer
and interface, `<v>` for boolean, `<v> != ""` for string, `<v> != 0` for the
twelve numeric kinds and `true` for every other kind, records included. -/
theorem notEmptyCheck_table (U : Universe) (t : TypeId) (v : String) :
    (notEmptyCheck U t v).render
      = (if (U.info t).implementsOptional = true then "(" ++ v ++ ").IsDefined()"
        else emptinessTable (U.info t).kind v)
    ∧ emptinessTable .Struct v = "true" := by
  refine ⟨?_, by simp [emptinessTable]⟩
  by_cases h : (U.info t).implementsOptional = true
  · simp [notEmptyCheck, h, Cond.render]
  · simp only [notEmptyCheck, h, if_false, Bool.false_eq_true]
    cases hk : (U.info t).kind <;> simp [emptinessTable, Cond.render]

/-! ## Theorems about running the emitted code -/


/-- Both parts of a split are no longer than the lines that were split. -/
theorem splitBlock_length (ls : List Line) (d : Nat) :
    (splitBlock d ls).1.length ≤ ls.length ∧ (splitBlock d ls).2.length ≤ ls.length := by
  induction ls generalizing d with
  | nil => simp [splitBlock]
  | cons l ls ih =>
    have h1 := ih d
    have h2 := ih (d + 1)
    have h3 := ih (d - 1)
    cases l <;> simp only [splitBlock] <;> (try split_ifs) <;> simp <;> omega

/-- A conditional only runs lines that are no longer than the lines after its
opening line. -/
theorem execIf_congr (rec1 rec2 : List Line → RunState → RunState) (c : Bool)
    (ls : List Line) (s : RunState)
    (h : ∀ ls1 s1, ls1.length ≤ ls.length → rec1 ls1 s1 = rec2 ls1 s1) :
    execIf rec1 c ls s = execIf rec2 c ls s := by
  have hb := splitBlock_length ls 0
  unfold execIf
  split
  · next p ls1 heq =>
    have hl1 : ls1.length < ls.length := by
      have := hb.2; rw [heq] at this; simp at this; omega
    have hb1 := splitBlock_length ls1 0
    have ht : (splitBlock 0 ls1).2.tail.length ≤ ls.length := by
      simp only [List.length_tail]; omega
    rw [h _ _ ht]
    congr 2
    apply h
    split_ifs <;> omega
  · next rest hne =>
    have ht : (splitBlock 0 ls).2.tail.length ≤ ls.length := by
      simp only [List.length_tail]; omega
    rw [h _ _ ht, h _ _ hb.1]

/-- A step only runs lines that are no longer than the lines after the first
one. -/
theorem execStep_congr (rt : Runtime) (rec1 rec2 : List Line → RunState → RunState)
    (l : Line) (ls : List Line) (s : RunState)
    (h : ∀ ls1 s1, ls1.length ≤ ls.length → rec1 ls1 s1 = rec2 ls1 s1) :
    execStep rt rec1 l ls s = execStep rt rec2 l ls s := by
  have hb := splitBlock_length ls 0
  have ht : (splitBlock 0 ls).2.tail.length ≤ ls.length := by
    simp only [List.length_tail]; omega
  have hbody : (fun st => rec1 (splitBlock 0 ls).1 st) = (fun st => rec2 (splitBlock 0 ls).1 st) := by
    funext st; exact h _ _ hb.1
  cases l <;> simp only [execStep] <;>
    first
      | rfl
      | exact h _ _ (le_refl _)
      | exact execIf_congr rec1 rec2 _ ls s h
      | (rw [hbody]; exact h _ _ ht)

/-- Any budget of at least the number of lines gives the same run. -/
theorem exec_budget (rt : Runtime) (f1 f2 : Nat) (ls : List Line) (s : RunState)
    (h1 : ls.length ≤ f1) (h2 : ls.length ≤ f2) : exec rt f1 ls s = exec rt f2 ls s := by
  induction f1 generalizing f2 ls s with
  | zero =>
    have : ls = [] := List.length_eq_zero.mp (by omega)
    subst this
    cases f2 <;> rfl
  | succ n ih =>
    cases ls with
    | nil => cases f2 <;> rfl
    | cons l ls =>
      cases f2 with
      | zero => simp at h2
      | succ m =>
        simp only [exec]
        apply execStep_congr
        intro ls1 s1 hl
        simp only [List.length_cons] at h1 h2
        exact ih m ls1 s1 (by omega) (by omega)

/-- Running no lines changes nothing. -/
theorem run_nil (rt : Runtime) (s : RunState) : run rt [] s = s := rfl

/-- Running lines is running the first one and then, by `run` again, whatever
it leaves to run. -/
theorem run_cons (rt : Runtime) (l : Line) (ls : List Line) (s : RunState) :
    run rt (l :: ls) s = execStep rt (run rt) l ls s := by
  simp only [run, List.length_cons, exec]
  apply execStep_congr
  intro ls1 s1 hl
  exact exec_budget rt _ _ ls1 s1 hl (le_refl _)

/-- No lines are balanced. -/
theorem balanced_nil : Balanced [] := by
  intro d rest; simp

/-- Balanced lines followed by balanced lines are balanced. -/
theorem balanced_append {A B : List Line} (hA : Balanced A) (hB : Balanced B) :
    Balanced (A ++ B) := by
  intro d rest
  rw [List.append_assoc, hA, hB]
  simp

/-- A line that neither opens nor ends a block is balanced. -/
theorem balanced_plain {l : Line} (h : l.plain = true) : Balanced [l] := by
  intro d rest
  cases l <;> simp [Line.plain] at h <;> simp [splitBlock]

/-- A block with a balanced body is balanced. -/
theorem balanced_block {l : Line} {A : List Line} (p : String) (h : l.opens = true)
    (hA : Balanced A) : Balanced (l :: (A ++ [Line.close p])) := by
  intro d rest
  have h1 : splitBlock (d + 1) (A ++ Line.close p :: rest)
      = (A ++ Line.close p :: (splitBlock d rest).1, (splitBlock d rest).2) := by
    rw [hA]; simp [splitBlock]
  cases l <;> simp [Line.opens] at h <;> simp [splitBlock, h1]

/-- A conditional with two balanced branches is balanced. -/
theorem balanced_ifElse {l : Line} {A B : List Line} (p q : String) (h : l.opens = true)
    (hA : Balanced A) (hB : Balanced B) :
    Balanced (l :: (A ++ Line.elseOpen p :: (B ++ [Line.close q]))) := by
  intro d rest
  have h2 : splitBlock (d + 1) (B ++ Line.close q :: rest)
      = (B ++ Line.close q :: (splitBlock d rest).1, (splitBlock d rest).2) := by
    rw [hB]; simp [splitBlock]
  have h1 : splitBlock (d + 1) (A ++ Line.elseOpen p :: (B ++ Line.close q :: rest))
      = (A ++ Line.elseOpen p :: (B ++ Line.close q :: (splitBlock d rest).1),
          (splitBlock d rest).2) := by
    rw [hA]; simp [splitBlock, h2]
  cases l <;> simp [Line.opens] at h <;> simp [splitBlock, h1]

/-- Splitting stops at the `}` after a balanced body. -/
theorem splitBlock_close {A : List Line} (hA : Balanced A) (p : String) (B : List Line) :
    splitBlock 0 (A ++ Line.close p :: B) = (A, Line.close p :: B) := by
  rw [hA]; simp [splitBlock]

/-- Splitting stops at the `} else {` after a balanced body. -/
theorem splitBlock_else {A : List Line} (hA : Balanced A) (p : String) (B : List Line) :
    splitBlock 0 (A ++ Line.elseOpen p :: B) = (A, Line.elseOpen p :: B) := by
  rw [hA]; simp [splitBlock]

/-- A conditional without else branch runs its body when the test holds. -/
theorem execIf_block (rec : List Line → RunState → RunState) (c : Bool) {A : List Line}
    (hA : Balanced A) (p : String) (B : List Line) (s : RunState) :
    execIf rec c (A ++ Line.close p :: B) s
      = rec B (if c then leaveBlock s (rec A s) else s) := by
  simp [execIf, splitBlock_close hA]

/-- A conditional with else branch runs one of its branches. -/
theorem execIf_else (rec : List Line → RunState → RunState) (c : Bool) {A E : List Line}
    (hA : Balanced A) (hE : Balanced E) (p q : String) (B : List Line) (s : RunState) :
    execIf rec c (A ++ Line.elseOpen p :: (E ++ Line.close q :: B)) s
      = rec B (leaveBlock s (rec (if c then A else E) s)) := by
  simp [execIf, splitBlock_else hA, splitBlock_close hE]

/-- The loop of `String.intercalate` appends the remaining texts, each preceded
by a comma. -/
theorem intercalate_go_eq (acc : String) (ms : List String) :
    String.intercalate.go acc "," ms = acc ++ joinFrom false ms := by
  induction ms generalizing acc with
  | nil => simp [String.intercalate.go, joinFrom]
  | cons m ms ih =>
    simp only [String.intercalate.go, joinFrom, ih]
    simp [String.append_assoc]

/-- Joining from the first text on is `String.intercalate`. -/
theorem joinFrom_true (ms : List String) : joinFrom true ms = String.intercalate "," ms := by
  cases ms with
  | nil => rfl
  | cons m ms => simp [joinFrom, String.intercalate, intercalate_go_eq]

/-- The flag of a map loop is never the flag `first` of a record encoder. -/
theorem flagName_ne_first (x : String) : x ++ "_first" ≠ "first" := by
  intro h
  have := congrArg String.length h
  rw [String.length_append] at this
  have h6 : "_first".length = 6 := by decide
  have h5 : "first".length = 5 := by decide
  omega

/-- A leading star dereferences. -/
theorem evalRef_star (vals : List (String × Value)) (r : String) :
    evalRef vals ("*" ++ r) = (evalRef vals r).deref := by
  simp [evalRef, evalRefChars]

/-- A reference without leading star is a variable. -/
theorem evalRef_name (vals : List (String × Value)) (r : String)
    (h : startsWithStar r = false) : evalRef vals r = (vals.lookup r).getD .nil := by
  rcases r with ⟨cs⟩
  cases cs with
  | nil => rfl
  | cons c cs =>
    simp [startsWithStar] at h
    simp [evalRef, evalRefChars, h]

/-- A name without leading star keeps that property when text without leading
star is appended. -/
theorem startsWithStar_append (x y : String) (hx : startsWithStar x = false)
    (hy : startsWithStar y = false) : startsWithStar (x ++ y) = false := by
  rcases x with ⟨cs⟩
  cases cs with
  | nil => simpa [startsWithStar] using hy
  | cons c cs => simpa [startsWithStar] using hx

/-- The key variable and the value variable of a map loop differ. -/
theorem nameVar_ne_valueVar (x : String) : (x ++ "_name" == x ++ "_value") = false := by
  rw [beq_eq_false_iff_ne]
  intro h
  have := congrArg String.data h
  simp at this

/-- Leaving a block drops the flags that the block declared. -/
theorem leaveBlock_flags (s : RunState) (o : String) (D : List (String × Bool))
    (i : List (String × Nat)) (v : List (String × Value)) :
    leaveBlock s { out := o, flags := D ++ s.flags, idx := i, vals := v }
      = { out := o, flags := s.flags, idx := s.idx, vals := s.vals } := by
  simp [leaveBlock]

/-- A single line that writes the text of the value of the reference. -/
theorem writesAs_plain (rt : Runtime) (l : Line) (inRef : String) (w : Value → String)
    (hp : l.plain = true)
    (h : ∀ (rec : List Line → RunState → RunState) ls s,
      execStep rt rec l ls s = rec ls (s.write (w (evalRef s.vals inRef)))) :
    WritesAs rt [l] inRef w := by
  refine ⟨balanced_plain hp, fun B s => ⟨[], by simp, ?_⟩⟩
  simp only [List.singleton_append, run_cons, h, RunState.write, List.nil_append]

/-- No lines write the empty text. -/
theorem writesAs_nil (rt : Runtime) (inRef : String) (w : Value → String)
    (h : ∀ v, w v = "") : WritesAs rt [] inRef w := by
  refine ⟨balanced_nil, fun B s => ⟨[], by simp, ?_⟩⟩
  simp [h]

/-- The loop emitted for a sequence writes the texts of the elements from
position `k` on, with a comma before every element whose position is not
zero. -/
theorem rangeSlice_body (rt : Runtime) (p1 p2 p3 i v : String) (A : List Line)
    (w : Value → String) (hA : WritesAs rt A v w) (hv : startsWithStar v = false)
    (es : List Value) (k : Nat) (s : RunState) :
    rangeSlice (fun st => run rt
        (Line.ifPos p1 i :: Line.rawByte p2 ',' :: Line.close p3 :: A) st) i v k es s
      = { s with out := s.out ++ joinFrom (decide (k = 0)) (es.map w) } := by
  induction es generalizing k s with
  | nil => simp [rangeSlice, joinFrom]
  | cons e es ih =>
    simp only [rangeSlice]
    have hbal : Balanced [Line.rawByte p2 ','] := balanced_plain rfl
    have hstep : ∀ st : RunState,
        run rt (Line.ifPos p1 i :: Line.rawByte p2 ',' :: Line.close p3 :: A) st
          = run rt A (if decide (0 < (st.idx.lookup i).getD 0)
              then leaveBlock st (run rt [Line.rawByte p2 ','] st) else st) := by
      intro st
      rw [run_cons]
      simp only [execStep]
      exact execIf_block (run rt) _ hbal p3 A st
    rw [hstep]
    have hlook : (List.lookup i ((i, k) :: s.idx)).getD 0 = k := by simp [List.lookup]
    simp only [hlook]
    rcases Nat.eq_zero_or_pos k with hk | hk
    · subst hk
      simp only [lt_irrefl, decide_False, Bool.false_eq_true, if_false]
      obtain ⟨D, -, hD⟩ := hA.2 [] { s with idx := (i, 0) :: s.idx, vals := (v, e) :: s.vals }
      rw [List.append_nil, run_nil] at hD
      rw [hD, leaveBlock_flags, ih]
      simp [joinFrom, evalRef_name _ _ hv, List.lookup, String.append_assoc]
    · have hk0 : k ≠ 0 := by omega
      simp only [hk, decide_True, if_true]
      have hcomma : leaveBlock { s with idx := (i, k) :: s.idx, vals := (v, e) :: s.vals }
          (run rt [Line.rawByte p2 ','] { s with idx := (i, k) :: s.idx, vals := (v, e) :: s.vals })
          = { out := s.out ++ ",", flags := s.flags, idx := (i, k) :: s.idx, vals := (v, e) :: s.vals } := by
        have hs : String.singleton ',' = "," := rfl
        simp [run_cons, execStep, run_nil, RunState.write, leaveBlock, hs]
      rw [hcomma]
      obtain ⟨D, -, hD⟩ := hA.2 [] { out := s.out ++ ",", flags := s.flags, idx := (i, k) :: s.idx, vals := (v, e) :: s.vals }
      rw [List.append_nil, run_nil] at hD
      rw [hD]
      have hl := leaveBlock_flags s (s.out ++ "," ++ w (evalRef ((v, e) :: s.vals) v)) D
        ((i, k) :: s.idx) ((v, e) :: s.vals)
      simp only [] at hl ⊢
      rw [hl, ih]
      simp [joinFrom, evalRef_name _ _ hv, List.lookup, String.append_assoc, hk0]


/-- Leaving a block drops the flags that the block declared, and keeps the
assignments to the flags of the surrounding blocks. -/
theorem leaveBlock_flags_of_length (s : RunState) (o : String) (D F : List (String × Bool))
    (i : List (String × Nat)) (v : List (String × Value)) (h : F.length = s.flags.length) :
    leaveBlock s { out := o, flags := D ++ F, idx := i, vals := v }
      = { out := o, flags := F, idx := s.idx, vals := s.vals } := by
  simp [leaveBlock, ← h]

/-- The loop emitted for a map writes, for every entry, a comma unless the
flag is still set, the key, and the text of the value with nothing in
between; the flag is cleared by the first entry. -/
theorem rangeMap_body (rt : Runtime) (p1 p2 p3 x tmp : String) (A : List Line)
    (w : Value → String) (hA : WritesAs rt A (tmp ++ "_value") w)
    (htmp : startsWithStar tmp = false)
    (es : List (String × Value)) (s : RunState) (b : Bool) (F : List (String × Bool))
    (hF : s.flags = (x, b) :: F) :
    rangeMap (fun st => run rt
        (Line.commaUnless p1 x :: Line.clearFlag p2 x
          :: Line.prim p3 "out.String" (tmp ++ "_name") :: A) st)
        (tmp ++ "_name") (tmp ++ "_value") es s
      = { s with
          out := s.out ++ joinFrom b
            (es.map (fun e => rt.writePrim "out.String" (.str e.1) ++ w e.2))
          flags := (x, b && es.isEmpty) :: F } := by
  induction es generalizing s b with
  | nil =>
    rcases s with ⟨o, fl, ix, vl⟩
    simp only at hF
    simp [rangeMap, joinFrom, hF]
  | cons e es ih =>
    rcases e with ⟨k, e⟩
    rcases s with ⟨o, fl, ix, vl⟩
    simp only at hF
    subst hF
    have hname : startsWithStar (tmp ++ "_name") = false :=
      startsWithStar_append tmp "_name" htmp rfl
    have hvalue : startsWithStar (tmp ++ "_value") = false :=
      startsWithStar_append tmp "_value" htmp rfl
    simp only [rangeMap]
    rw [run_cons]
    simp only [execStep]
    rw [run_cons]
    simp only [execStep]
    rw [run_cons]
    simp only [execStep, evalRef_name _ _ hname]
    cases b with
    | true =>
      simp only [List.lookup, beq_self_eq_true, setFlag, if_true, RunState.write,
        nameVar_ne_valueVar, Option.getD_some, reduceCtorEq, if_false,
        Option.some.injEq, Bool.true_eq_false]
      obtain ⟨D, -, hD⟩ := hA.2 [] { out := o ++ rt.writePrim "out.String" (Value.str k), flags := (x, false) :: F, idx := ix, vals := (tmp ++ "_value", e) :: (tmp ++ "_name", Value.str k) :: vl }
      rw [List.append_nil, run_nil] at hD
      have hD' := hD
      simp only [] at hD'
      rw [hD', leaveBlock_flags_of_length _ _ _ _ _ _ (by simp)]
      rw [ih _ false rfl]
      simp [joinFrom, evalRef_name _ _ hvalue, List.lookup, String.append_assoc]
    | false =>
      simp only [List.lookup, beq_self_eq_true, setFlag, if_true, RunState.write,
        nameVar_ne_valueVar, Option.getD_some]
      obtain ⟨D, -, hD⟩ := hA.2 [] { out := o ++ "," ++ rt.writePrim "out.String" (Value.str k), flags := (x, false) :: F, idx := ix, vals := (tmp ++ "_value", e) :: (tmp ++ "_name", Value.str k) :: vl }
      rw [List.append_nil, run_nil] at hD
      have hD' := hD
      simp only [] at hD'
      rw [hD', leaveBlock_flags_of_length _ _ _ _ _ _ (by simp)]
      rw [ih _ false rfl]
      simp [joinFrom, evalRef_name _ _ hvalue, List.lookup, String.append_assoc]


/-- The lines emitted for a sequence write `[`, the texts of the elements
separated by commas, and `]`. -/
theorem writesAs_slice (rt : Runtime) (p p1 p2 p3 p4 p5 i v inRef : String) (A : List Line)
    (w : Value → String) (hA : WritesAs rt A v w) (hv : startsWithStar v = false) :
    WritesAs rt
      (Line.rawByte p '[' :: Line.forRange p i v inRef :: Line.ifPos p1 i
        :: Line.rawByte p2 ',' :: Line.close p3 :: (A ++ [Line.close p4, Line.rawByte p5 ']']))
      inRef (fun x => "[" ++ String.intercalate "," (x.elems.map w) ++ "]") := by
  have hbody : Balanced (Line.ifPos p1 i :: Line.rawByte p2 ',' :: Line.close p3 :: A) := by
    have h1 : Balanced (Line.ifPos p1 i :: ([Line.rawByte p2 ','] ++ [Line.close p3])) :=
      balanced_block p3 rfl (balanced_plain rfl)
    simpa using balanced_append h1 hA.1
  constructor
  · have h2 := balanced_block (l := Line.forRange p i v inRef) p4 rfl hbody
    have h3 := balanced_append (balanced_append (balanced_plain (l := Line.rawByte p '[') rfl) h2)
      (balanced_plain (l := Line.rawByte p5 ']') rfl)
    simpa using h3
  · intro B s
    refine ⟨[], by simp, ?_⟩
    have hshape : (Line.rawByte p '[' :: Line.forRange p i v inRef :: Line.ifPos p1 i
        :: Line.rawByte p2 ',' :: Line.close p3 :: (A ++ [Line.close p4, Line.rawByte p5 ']']))
          ++ B
        = Line.rawByte p '[' :: Line.forRange p i v inRef
          :: ((Line.ifPos p1 i :: Line.rawByte p2 ',' :: Line.close p3 :: A)
            ++ Line.close p4 :: (Line.rawByte p5 ']' :: B)) := by simp
    rw [hshape, run_cons]
    simp only [execStep]
    rw [run_cons]
    simp only [execStep, splitBlock_close hbody, List.tail_cons, RunState.write]
    rw [rangeSlice_body rt p1 p2 p3 i v A w hA hv, run_cons]
    have hl : String.singleton '[' = "[" := rfl
    have hr : String.singleton ']' = "]" := rfl
    simp [execStep, RunState.write, joinFrom_true, String.append_assoc, hl, hr]

/-- The lines emitted for a pointer write `null` for `nil` and the text of the
target otherwise. -/
theorem writesAs_ptr (rt : Runtime) (p p1 p2 p3 inRef : String) (A : List Line)
    (w : Value → String) (hA : WritesAs rt A ("*" ++ inRef) w) :
    WritesAs rt
      (Line.ifNil p inRef :: Line.rawNull p1 :: Line.elseOpen p2 :: (A ++ [Line.close p3]))
      inRef (fun x => if x.isNil then "null" else w x.deref) := by
  have hnull : Balanced [Line.rawNull p1] := balanced_plain rfl
  constructor
  · have h := balanced_ifElse (l := Line.ifNil p inRef) p2 p3 rfl hnull hA.1
    simpa using h
  · intro B s
    refine ⟨[], by simp, ?_⟩
    have hshape : (Line.ifNil p inRef :: Line.rawNull p1 :: Line.elseOpen p2
        :: (A ++ [Line.close p3])) ++ B
        = Line.ifNil p inRef
          :: ([Line.rawNull p1] ++ Line.elseOpen p2 :: (A ++ Line.close p3 :: B)) := by simp
    rw [hshape, run_cons]
    simp only [execStep]
    rw [execIf_else (run rt) _ hnull hA.1]
    obtain ⟨D, -, hD⟩ := hA.2 [] s
    rw [List.append_nil, run_nil] at hD
    cases hn : (evalRef s.vals inRef).isNil
    · simp only [Bool.false_eq_true, if_false, hD, evalRef_star]
      rw [leaveBlock_flags]
      simp
    · simp [run_cons, execStep, run_nil, RunState.write, leaveBlock]

/-- The lines emitted for a map with string keys write an opening brace, the
entries separated by commas, each entry being the key immediately followed by
the text of the value, and a closing brace. -/
theorem writesAs_map (rt : Runtime) (p p1 p2 p3 p4 p5 p6 p7 tmp inRef : String)
    (A : List Line) (w : Value → String) (hA : WritesAs rt A (tmp ++ "_value") w)
    (htmp : startsWithStar tmp = false) :
    WritesAs rt
      (Line.rawByte p '{' :: Line.declTrue p1 (tmp ++ "_first")
        :: Line.forEntries p2 tmp inRef :: Line.commaUnless p3 (tmp ++ "_first")
        :: Line.clearFlag p4 (tmp ++ "_first")
        :: Line.prim p5 "out.String" (tmp ++ "_name")
        :: (A ++ [Line.close p6, Line.rawByte p7 '}']))
      inRef (fun x => "\x7b" ++ String.intercalate ","
        (x.entries.map (fun e => rt.writePrim "out.String" (.str e.1) ++ w e.2)) ++ "\x7d") := by
  have hbody : Balanced (Line.commaUnless p3 (tmp ++ "_first")
      :: Line.clearFlag p4 (tmp ++ "_first")
      :: Line.prim p5 "out.String" (tmp ++ "_name") :: A) := by
    have h1 := balanced_append (balanced_append (balanced_append
      (balanced_plain (l := Line.commaUnless p3 (tmp ++ "_first")) rfl)
      (balanced_plain (l := Line.clearFlag p4 (tmp ++ "_first")) rfl))
      (balanced_plain (l := Line.prim p5 "out.String" (tmp ++ "_name")) rfl)) hA.1
    simpa using h1
  constructor
  · have h2 := balanced_block (l := Line.forEntries p2 tmp inRef) p6 rfl hbody
    have h3 := balanced_append (balanced_append (balanced_append
      (balanced_plain (l := Line.rawByte p '{') rfl)
      (balanced_plain (l := Line.declTrue p1 (tmp ++ "_first")) rfl)) h2)
      (balanced_plain (l := Line.rawByte p7 '}') rfl)
    simpa using h3
  · intro B s
    refine ⟨[(tmp ++ "_first", (evalRef s.vals inRef).entries.isEmpty)], ?_, ?_⟩
    · intro q hq
      simp only [List.mem_singleton] at hq
      subst hq
      exact flagName_ne_first tmp
    have hshape : (Line.rawByte p '{' :: Line.declTrue p1 (tmp ++ "_first")
        :: Line.forEntries p2 tmp inRef :: Line.commaUnless p3 (tmp ++ "_first")
        :: Line.clearFlag p4 (tmp ++ "_first")
        :: Line.prim p5 "out.String" (tmp ++ "_name")
        :: (A ++ [Line.close p6, Line.rawByte p7 '}'])) ++ B
        = Line.rawByte p '{' :: Line.declTrue p1 (tmp ++ "_first")
          :: Line.forEntries p2 tmp inRef
          :: ((Line.commaUnless p3 (tmp ++ "_first") :: Line.clearFlag p4 (tmp ++ "_first")
              :: Line.prim p5 "out.String" (tmp ++ "_name") :: A)
            ++ Line.close p6 :: (Line.rawByte p7 '}' :: B)) := by simp
    rw [hshape, run_cons]
    simp only [execStep]
    rw [run_cons]
    simp only [execStep]
    rw [run_cons]
    simp only [execStep, splitBlock_close hbody, List.tail_cons, RunState.write]
    rw [rangeMap_body rt p3 p4 p5 (tmp ++ "_first") tmp A w hA htmp _ _ true s.flags rfl,
      run_cons]
    have hl : String.singleton '{' = "\x7b" := rfl
    have hr : String.singleton '}' = "\x7d" := rfl
    simp [execStep, RunState.write, joinFrom_true, String.append_assoc, hl, hr]

/-- What the lines appended by `genTypeEncoder` do when they run: they are
balanced and write the text `encode` of the value of the reference; the
generator keeps its global omission default. -/
theorem genTypeEncoder_runs (U : Universe) (rt : Runtime)
    (hnames : ∀ k, startsWithStar (U.varName k) = false)
    (n : Nat) (t : TypeId) (inRef : String) (indent : Nat) (g g1 : Generator)
    (e : Option String) (h : genTypeEncoder U n t inRef indent g = some (g1, e)) :
    ∃ A, g1.out = g.out ++ A ∧ g1.omitEmpty = g.omitEmpty
      ∧ WritesAs rt A inRef (encode U rt n t) := by
  induction n generalizing t inRef indent g g1 e with
  | zero => simp [genTypeEncoder] at h
  | succ n ih =>
    simp only [genTypeEncoder] at h
    by_cases h1 : (U.info t).implementsMarshaler = true
    · rw [if_pos h1] at h
      simp only [Option.some.injEq, Prod.mk.injEq] at h
      obtain ⟨rfl, rfl⟩ := h
      refine ⟨[_], rfl, rfl, ?_⟩
      have hw : encode U rt (n + 1) t = rt.marshalEasyJSON := by
        funext v; simp [encode, h1]
      rw [hw]
      exact writesAs_plain rt _ inRef _ rfl (fun rec ls s => rfl)
    rw [if_neg h1] at h
    by_cases h2 : (U.info t).implementsJSONMarshaler = true
    · rw [if_pos h2] at h
      simp only [Option.some.injEq, Prod.mk.injEq] at h
      obtain ⟨rfl, rfl⟩ := h
      refine ⟨[_], rfl, rfl, ?_⟩
      have hw : encode U rt (n + 1) t = rt.rawMarshalJSON := by
        funext v; simp [encode, h1, h2]
      rw [hw]
      exact writesAs_plain rt _ inRef _ rfl (fun rec ls s => rfl)
    rw [if_neg h2] at h
    by_cases h3 : primitiveEncoders (U.info t).kind ≠ ""
    · rw [if_pos h3] at h
      simp only [Option.some.injEq, Prod.mk.injEq] at h
      obtain ⟨rfl, rfl⟩ := h
      refine ⟨[_], rfl, rfl, ?_⟩
      have hw : encode U rt (n + 1) t
          = rt.writePrim (primitiveEncoders (U.info t).kind) := by
        funext v; simp [encode, h1, h2, h3]
      rw [hw]
      exact writesAs_plain rt _ inRef _ rfl (fun rec ls s => rfl)
    rw [if_neg h3] at h
    have hnil : ∀ (msg : String), some (g, some msg) = some (g1, e) →
        (∀ v, encode U rt (n + 1) t v = "") →
        ∃ A, g1.out = g.out ++ A ∧ g1.omitEmpty = g.omitEmpty
          ∧ WritesAs rt A inRef (encode U rt (n + 1) t) := by
      intro msg hm hw
      simp only [Option.some.injEq, Prod.mk.injEq] at hm
      obtain ⟨rfl, rfl⟩ := hm
      exact ⟨[], by simp, rfl, writesAs_nil rt inRef _ hw⟩
    cases hk : (U.info t).kind with
    | Slice =>
      simp only [hk, uniqueVarName] at h
      split at h
      · simp at h
      · next g8 e8 hr =>
        obtain ⟨A, hout, hom, hA⟩ := ih _ _ _ _ _ _ hr
        simp only [Option.some.injEq, Prod.mk.injEq] at h
        obtain ⟨rfl, rfl⟩ := h
        have hw : encode U rt (n + 1) t = fun x => "[" ++ String.intercalate ","
              (x.elems.map (encode U rt n (U.info t).elem)) ++ "]" := by
            funext v; simp [encode, h1, h2, hk, primitiveEncoders]
        have hW := writesAs_slice rt (stringsRepeat "  " indent)
            (stringsRepeat "  " indent ++ "  ") (stringsRepeat "  " indent ++ "    ")
            (stringsRepeat "  " indent ++ "  ") (stringsRepeat "  " indent)
            (stringsRepeat "  " indent) (U.varName g.varCounter)
            (U.varName (g.varCounter + 1)) inRef A _ hA (hnames _)
        rw [← hw] at hW
        refine ⟨_, ?_, ?_, hW⟩
        · simp [Generator.println] at hout ⊢
          simp [hout]
        · simpa [Generator.println] using hom
    | Struct =>
      simp only [hk, Option.some.injEq, Prod.mk.injEq] at h
      obtain ⟨rfl, rfl⟩ := h
      refine ⟨[_], rfl, rfl, ?_⟩
      have hw : encode U rt (n + 1) t = rt.callEncoder (getStructEncoderName U t) := by
        funext v; simp [encode, h1, h2, hk, primitiveEncoders]
      rw [hw]
      exact writesAs_plain rt _ inRef _ rfl (fun rec ls s => rfl)
    | Ptr =>
      simp only [hk] at h
      split at h
      · simp at h
      · next g4 e4 hr =>
        obtain ⟨A, hout, hom, hA⟩ := ih _ _ _ _ _ _ hr
        simp only [Option.some.injEq, Prod.mk.injEq] at h
        obtain ⟨rfl, rfl⟩ := h
        have hw : encode U rt (n + 1) t
              = fun x => if x.isNil then "null" else encode U rt n (U.info t).elem x.deref := by
            funext v; simp [encode, h1, h2, hk, primitiveEncoders]
        have hW := writesAs_ptr rt (stringsRepeat "  " indent) (stringsRepeat "  " indent ++ "  ")
            (stringsRepeat "  " indent) (stringsRepeat "  " indent) inRef A _ hA
        rw [← hw] at hW
        refine ⟨_, ?_, ?_, hW⟩
        · simp [Generator.println] at hout ⊢
          simp [hout]
        · simpa [Generator.println] using hom
    | Map =>
      simp only [hk] at h
      by_cases h4 : (U.info (U.info t).key).kind ≠ Kind.String
      · rw [if_pos h4] at h
        exact hnil _ h (by intro v; simp [encode, h1, h2, hk, primitiveEncoders, h4])
      · rw [if_neg h4] at h
        simp only [uniqueVarName] at h
        split at h
        · simp at h
        · next g8 e8 hr =>
          obtain ⟨A, hout, hom, hA⟩ := ih _ _ _ _ _ _ hr
          simp only [Option.some.injEq, Prod.mk.injEq] at h
          obtain ⟨rfl, rfl⟩ := h
          have hw : encode U rt (n + 1) t = fun x => "\x7b" ++ String.intercalate ","
                (x.entries.map (fun e => rt.writePrim "out.String" (.str e.1)
                  ++ encode U rt n (U.info t).elem e.2)) ++ "\x7d" := by
              funext v; simp [encode, h1, h2, hk, primitiveEncoders, h4]
          have hW := writesAs_map rt (stringsRepeat "  " indent) (stringsRepeat "  " indent)
              (stringsRepeat "  " indent) (stringsRepeat "  " indent ++ "  ")
              (stringsRepeat "  " indent ++ "  ") (stringsRepeat "  " indent ++ "  ")
              (stringsRepeat "  " indent) (stringsRepeat "  " indent)
              (U.varName g.varCounter) inRef A _ hA (hnames _)
          rw [← hw] at hW
          refine ⟨_, ?_, ?_, hW⟩
          · simp [Generator.println] at hout ⊢
            simp [hout]
          · simpa [Generator.println] using hom
    | Interface =>
      simp only [hk] at h
      by_cases h5 : (U.info t).numMethod ≠ 0
      · rw [if_pos h5] at h
        exact hnil _ h (by intro v; simp [encode, h1, h2, hk, primitiveEncoders, h5])
      · rw [if_neg h5] at h
        simp only [Option.some.injEq, Prod.mk.injEq] at h
        obtain ⟨rfl, rfl⟩ := h
        refine ⟨[_], rfl, rfl, ?_⟩
        have hw : encode U rt (n + 1) t = rt.rawJSONMarshal := by
          funext v; simp [encode, h1, h2, hk, primitiveEncoders, h5]
        rw [hw]
        exact writesAs_plain rt _ inRef _ rfl (fun rec ls s => rfl)
    | _ =>
      simp only [hk] at h
      first
        | (refine hnil _ h ?_
           intro v
           simp [encode, h1, h2, hk, primitiveEncoders]
           done)
        | (exfalso
           apply h3
           simp [hk, primitiveEncoders])

/-- Flags of other names do not hide the flag `first`. -/
theorem lookup_first_append (Ds : List (String × Bool)) (rest : List (String × Bool))
    (h : ∀ p ∈ Ds, p.1 ≠ "first") :
    List.lookup "first" (Ds ++ rest) = List.lookup "first" rest := by
  induction Ds with
  | nil => rfl
  | cons p Ds ih =>
    obtain ⟨x, c⟩ := p
    have hx : x ≠ "first" := h (x, c) (List.mem_cons_self _ _)
    have hx' : ("first" == x) = false := by
      rw [beq_eq_false_iff_ne]; exact fun h => hx h.symm
    simp only [List.cons_append, List.lookup, hx']
    exact ih (fun p hp => h p (List.mem_cons_of_mem _ hp))

/-- Assigning to `first` reaches the flag past flags of other names. -/
theorem setFlag_first_append (Ds : List (String × Bool)) (b c : Bool)
    (h : ∀ p ∈ Ds, p.1 ≠ "first") :
    setFlag "first" c (Ds ++ [("first", b)]) = Ds ++ [("first", c)] := by
  induction Ds with
  | nil => simp [setFlag]
  | cons p Ds ih =>
    obtain ⟨x, d⟩ := p
    have hx : x ≠ "first" := h (x, d) (List.mem_cons_self _ _)
    have ih1 := ih (fun p hp => h p (List.mem_cons_of_mem _ hp))
    simp only [List.cons_append, setFlag, hx, if_false]
    exact congrArg _ ih1

/-- The policy of a field depends on the generator through the global default
only. -/
theorem fieldOmitEmpty_congr (g g1 : Generator) (f : StructField)
    (h : g1.omitEmpty = g.omitEmpty) : fieldOmitEmpty g1 f = fieldOmitEmpty g f := by
  simp [fieldOmitEmpty, h]

/-- The three lines that write a member, followed by the encoder of the
value. -/
theorem member_runs (rt : Runtime) (p1 p2 p3 key inRef : String) (A : List Line)
    (w : Value → String) (hA : WritesAs rt A inRef w) (B : List Line) (s : RunState)
    (b : Bool) (Ds : List (String × Bool)) (hs : s.flags = Ds ++ [("first", b)])
    (hDs : ∀ p ∈ Ds, p.1 ≠ "first") :
    ∃ D : List (String × Bool), (∀ p ∈ D, p.1 ≠ "first") ∧
      run rt (Line.commaUnless p1 "first" :: Line.clearFlag p2 "first"
          :: Line.rawString p3 key :: (A ++ B)) s
        = run rt B { out := s.out ++ ((if b then "" else ",") ++ key
                        ++ w (evalRef s.vals inRef)),
                     flags := D ++ (Ds ++ [("first", false)]), idx := s.idx, vals := s.vals } := by
  rcases s with ⟨o, fl, ix, vl⟩
  simp only at hs
  subst hs
  obtain ⟨D, hD, hrun⟩ := hA.2 B { out := (if b then o else o ++ ",") ++ key, flags := Ds ++ [("first", false)], idx := ix, vals := vl }
  refine ⟨D, hD, ?_⟩
  rw [run_cons]
  simp only [execStep]
  rw [run_cons]
  simp only [execStep]
  rw [run_cons]
  simp only [execStep, lookup_first_append Ds _ hDs, List.lookup, beq_self_eq_true,
    RunState.write]
  cases b with
  | true =>
    simp only [if_true, Bool.true_eq_false, if_false, reduceCtorEq, Option.some.injEq] at hrun ⊢
    rw [setFlag_first_append Ds _ _ hDs, hrun]
    simp [String.append_assoc]
  | false =>
    simp only [if_true, Bool.false_eq_true, if_false] at hrun ⊢
    rw [setFlag_first_append Ds _ _ hDs, hrun]
    simp [String.append_assoc]


/-- Joining two lists of texts: the second list starts a text without comma
only if nothing was written before it. -/
theorem joinFrom_append (b : Bool) (ms1 ms2 : List String) :
    joinFrom b (ms1 ++ ms2) = joinFrom b ms1 ++ joinFrom (b && ms1.isEmpty) ms2 := by
  cases ms1 with
  | nil => simp [joinFrom]
  | cons m ms1 =>
    have h : ∀ (ms : List String), joinFrom false (ms ++ ms2)
        = joinFrom false ms ++ joinFrom false ms2 := by
      intro ms
      induction ms with
      | nil => simp [joinFrom]
      | cons a ms ih => simp [joinFrom, ih, String.append_assoc]
    simp [joinFrom, h, String.append_assoc]

/-- Whether a field is written depends on the generator through the global
default only. -/
theorem fieldWritten_congr (U : Universe) (rt : Runtime) (g g1 : Generator)
    (vals : List (String × Value)) (f : StructField) (h : g1.omitEmpty = g.omitEmpty) :
    fieldWritten U rt g1 vals f = fieldWritten U rt g vals f := by
  simp [fieldWritten, fieldOmitEmpty_congr g g1 f h]

/-- What the lines appended by `genStructFieldEncoder` do when they run: a
field that is written contributes its member, after a comma unless `first`
is still set, and clears `first`; a field that is not written contributes
nothing and leaves `first` alone. -/
theorem genStructFieldEncoder_runs (U : Universe) (rt : Runtime)
    (hnames : ∀ k, startsWithStar (U.varName k) = false)
    (fuel : Nat) (t : TypeId) (f : StructField) (g g1 : Generator)
    (h : genStructFieldEncoder U fuel t f g = some (g1, none)) :
    ∃ A, g1.out = g.out ++ A ∧ g1.omitEmpty = g.omitEmpty ∧ Balanced A ∧
      ∀ (B : List Line) (s : RunState) (b : Bool) (Ds : List (String × Bool)),
        s.flags = Ds ++ [("first", b)] → (∀ p ∈ Ds, p.1 ≠ "first") →
        ∃ Ds1 : List (String × Bool), (∀ p ∈ Ds1, p.1 ≠ "first") ∧
          run rt (A ++ B) s
            = run rt B
                { out := s.out ++ joinFrom b
                    (if fieldWritten U rt g s.vals f then [fieldMember U rt fuel t s.vals f]
                     else [])
                  flags := Ds1 ++ [("first", b && !fieldWritten U rt g s.vals f)]
                  idx := s.idx
                  vals := s.vals } := by
  simp only [genStructFieldEncoder] at h
  cases hpol : fieldOmitEmpty g f with
  | false =>
    simp only [hpol, Bool.not_false, if_true] at h
    obtain ⟨A, hout, hom, hA⟩ := genTypeEncoder_runs U rt hnames _ _ _ _ _ _ _ h
    have hbal : Balanced (Line.commaUnless "  " "first" :: Line.clearFlag "  " "first"
        :: Line.rawString "  " (U.quote (U.getJSONFieldName t f) ++ ":") :: A) := by
      have h1 := balanced_append (balanced_append (balanced_append
        (balanced_plain (l := Line.commaUnless "  " "first") rfl)
        (balanced_plain (l := Line.clearFlag "  " "first") rfl))
        (balanced_plain (l := Line.rawString "  "
          (U.quote (U.getJSONFieldName t f) ++ ":")) rfl)) hA.1
      simpa using h1
    refine ⟨_, ?_, ?_, hbal, ?_⟩
    · simp [Generator.println] at hout ⊢
      simp [hout]
    · simpa [Generator.println] using hom
    · intro B s b Ds hs hDs
      obtain ⟨D, hD, hrun⟩ := member_runs rt "  " "  " "  "
        (U.quote (U.getJSONFieldName t f) ++ ":") ("in." ++ f.Name) A _ hA B s b Ds hs hDs
      refine ⟨D ++ Ds, ?_, ?_⟩
      · intro p hp
        rcases List.mem_append.mp hp with hp | hp
        · exact hD p hp
        · exact hDs p hp
      · simp only [List.cons_append] at hrun ⊢
        rw [hrun]
        simp [fieldWritten, hpol, fieldMember, joinFrom, String.append_assoc]
  | true =>
    simp only [hpol, Bool.not_true, Bool.false_eq_true, if_false] at h
    split at h
    · simp at h
    · simp at h
    · next g5 hr =>
      simp only [Option.some.injEq, Prod.mk.injEq, and_true] at h
      subst h
      obtain ⟨A, hout, hom, hA⟩ := genTypeEncoder_runs U rt hnames _ _ _ _ _ _ _ hr
      have hinner : Balanced (Line.commaUnless "    " "first" :: Line.clearFlag "    " "first"
          :: Line.rawString "    " (U.quote (U.getJSONFieldName t f) ++ ":") :: A) := by
        have h1 := balanced_append (balanced_append (balanced_append
          (balanced_plain (l := Line.commaUnless "    " "first") rfl)
          (balanced_plain (l := Line.clearFlag "    " "first") rfl))
          (balanced_plain (l := Line.rawString "    "
            (U.quote (U.getJSONFieldName t f) ++ ":")) rfl)) hA.1
        simpa using h1
      have hbal := balanced_block
        (l := Line.ifCond "  " (notEmptyCheck U f.Typ ("in." ++ f.Name))) "  " rfl hinner
      refine ⟨_, ?_, ?_, hbal, ?_⟩
      · simp [Generator.println] at hout ⊢
        simp [hout]
      · simpa [Generator.println] using hom
      · intro B s b Ds hs hDs
        refine ⟨Ds, hDs, ?_⟩
        have hshape : (Line.ifCond "  " (notEmptyCheck U f.Typ ("in." ++ f.Name))
            :: ((Line.commaUnless "    " "first" :: Line.clearFlag "    " "first"
              :: Line.rawString "    " (U.quote (U.getJSONFieldName t f) ++ ":") :: A)
              ++ [Line.close "  "])) ++ B
            = Line.ifCond "  " (notEmptyCheck U f.Typ ("in." ++ f.Name))
              :: ((Line.commaUnless "    " "first" :: Line.clearFlag "    " "first"
                :: Line.rawString "    " (U.quote (U.getJSONFieldName t f) ++ ":") :: A)
                ++ Line.close "  " :: B) := by simp
        rw [hshape, run_cons]
        simp only [execStep]
        rw [execIf_block (run rt) _ hinner]
        cases hc : evalCond rt s.vals (notEmptyCheck U f.Typ ("in." ++ f.Name)) with
        | false =>
          simp only [Bool.false_eq_true, if_false]
          congr 1
          rcases s with ⟨o, fl, ix, vl⟩
          simp only at hs hc
          simp [fieldWritten, hpol, hc, joinFrom, hs]
        | true =>
          simp only [if_true]
          obtain ⟨D, hD, hrun⟩ := member_runs rt "    " "    " "    "
            (U.quote (U.getJSONFieldName t f) ++ ":") ("in." ++ f.Name) A _ hA [] s b Ds hs hDs
          rw [List.append_nil, run_nil] at hrun
          rw [hrun, leaveBlock_flags_of_length _ _ _ _ _ _ (by simp [hs])]
          simp [fieldWritten, hpol, hc, fieldMember, joinFrom, String.append_assoc]


/-- What the lines appended for all fields of a record do when they run: they
write the members of the written fields in declaration order, separated by
commas. -/
theorem genStructFields_runs (U : Universe) (rt : Runtime)
    (hnames : ∀ k, startsWithStar (U.varName k) = false)
    (fuel : Nat) (t : TypeId) (fs : List StructField) (g g1 : Generator)
    (h : genStructFields U fuel t fs g = some (g1, none)) :
    ∃ A, g1.out = g.out ++ A ∧ g1.omitEmpty = g.omitEmpty ∧ Balanced A ∧
      ∀ (B : List Line) (s : RunState) (b : Bool) (Ds : List (String × Bool)),
        s.flags = Ds ++ [("first", b)] → (∀ p ∈ Ds, p.1 ≠ "first") →
        ∃ Ds1 : List (String × Bool), (∀ p ∈ Ds1, p.1 ≠ "first") ∧
          run rt (A ++ B) s
            = run rt B
                { out := s.out ++ joinFrom b
                    ((fs.filter (fieldWritten U rt g s.vals)).map
                      (fieldMember U rt fuel t s.vals))
                  flags := Ds1 ++ [("first",
                    b && (fs.filter (fieldWritten U rt g s.vals)).isEmpty)]
                  idx := s.idx
                  vals := s.vals } := by
  induction fs generalizing g with
  | nil =>
    simp only [genStructFields, Option.some.injEq, Prod.mk.injEq, and_true] at h
    subst h
    refine ⟨[], by simp, rfl, balanced_nil, ?_⟩
    intro B s b Ds hs hDs
    refine ⟨Ds, hDs, ?_⟩
    rcases s with ⟨o, fl, ix, vl⟩
    simp only at hs
    simp [joinFrom, hs]
  | cons f fs ih =>
    simp only [genStructFields] at h
    split at h
    · simp at h
    · simp at h
    · next g2 hf =>
      obtain ⟨A1, hout1, hom1, hbal1, hrun1⟩ :=
        genStructFieldEncoder_runs U rt hnames fuel t f g g2 hf
      obtain ⟨A2, hout2, hom2, hbal2, hrun2⟩ := ih g2 h
      refine ⟨A1 ++ A2, ?_, ?_, balanced_append hbal1 hbal2, ?_⟩
      · rw [hout2, hout1, List.append_assoc]
      · rw [hom2, hom1]
      · intro B s b Ds hs hDs
        obtain ⟨Ds1, hDs1, hr1⟩ := hrun1 (A2 ++ B) s b Ds hs hDs
        obtain ⟨Ds2, hDs2, hr2⟩ := hrun2 B { out := s.out ++ joinFrom b (if fieldWritten U rt g s.vals f then [fieldMember U rt fuel t s.vals f] else []), flags := Ds1 ++ [("first", b && !fieldWritten U rt g s.vals f)], idx := s.idx, vals := s.vals } (b && !fieldWritten U rt g s.vals f) Ds1 rfl hDs1
        refine ⟨Ds2, hDs2, ?_⟩
        rw [List.append_assoc, hr1, hr2]
        have hw : ∀ f1, fieldWritten U rt g2 s.vals f1 = fieldWritten U rt g s.vals f1 :=
          fun f1 => fieldWritten_congr U rt g g2 s.vals f1 hom1
        have hw1 : fieldWritten U rt g2 s.vals = fieldWritten U rt g s.vals := funext hw
        simp only [hw1]
        cases hwr : fieldWritten U rt g s.vals f with
        | false => simp [List.filter, hwr, joinFrom]
        | true =>
          simp [List.filter, hwr, joinFrom, String.append_assoc]

/-- The auxiliary names of the example graph do not begin with a star. -/
theorem demo_names (k : Nat) : startsWithStar (demo.varName k) = false := by
  simp [startsWithStar, demo]

/-- What the function emitted by `genStructEncoder` writes: an opening brace,
the members of the written fields in declaration order separated by commas,
and a closing brace. -/
theorem genStructEncoder_runs (U : Universe) (rt : Runtime)
    (hnames : ∀ k, startsWithStar (U.varName k) = false)
    (fuel : Nat) (t : TypeId) (g g1 : Generator)
    (h : genStructEncoder U fuel t g = some (g1, none)) (input : List (String × Value)) :
    runEncoder rt (g1.out.drop g.out.length) input
      = "\x7b" ++ joinFrom true
          (((U.getStructFields t).filter (fieldWritten U rt g input)).map
            (fieldMember U rt fuel t input)) ++ "\x7d" := by
  simp only [genStructEncoder] at h
  split_ifs at h with hk
  · simp at h
  split at h
  · simp at h
  · simp at h
  · next g5 hf =>
    simp only [Option.some.injEq, Prod.mk.injEq, and_true] at h
    subst h
    obtain ⟨A, hout, hom, hbal, hrun⟩ := genStructFields_runs U rt hnames fuel t _ _ _ hf
    have hlines : (((g5.println (.rawByte "  " '}')).println (.close "")).out.drop g.out.length)
        = Line.funcHeader (getStructEncoderName U t) (U.getType t)
          :: Line.rawByte "  " '{' :: Line.declTrue "  " "first" :: Line.blankUse "  " "first"
          :: (A ++ [Line.rawByte "  " '}', Line.close ""]) := by
      simp [Generator.println] at hout ⊢
      simp [hout]
    rw [hlines]
    simp only [runEncoder]
    rw [run_cons]
    simp only [execStep]
    rw [run_cons]
    simp only [execStep]
    rw [run_cons]
    simp only [execStep, RunState.write]
    obtain ⟨Ds1, -, hr⟩ := hrun [Line.rawByte "  " '}', Line.close ""]
      { out := "" ++ String.singleton '{', flags := [("first", true)], idx := [], vals := input }
      true [] rfl (by simp)
    rw [hr, run_cons]
    simp only [execStep]
    rw [run_cons]
    simp only [execStep, RunState.write]
    have hom4 : fieldWritten U rt ((((g.println (.funcHeader (getStructEncoderName U t)
        (U.getType t))).println (.rawByte "  " '{')).println (.declTrue "  " "first")).println
        (.blankUse "  " "first")) input = fieldWritten U rt g input :=
      funext (fun f1 => fieldWritten_congr U rt g _ input f1 rfl)
    have hl : String.singleton '{' = "\x7b" := rfl
    have hr : String.singleton '}' = "\x7d" := rfl
    simp [hom4, hl, hr, String.append_assoc]

/-- C7: running the function that `genStructEncoder` emits for a record, on
any binding of the fields of its argument, writes a well-separated object: an
opening brace, the `key:value` members of the fields that are written (the
always-included fields and the omit-if-empty fields whose guard holds) in
declaration order, separated by commas with no leading and no trailing comma,
and a closing brace.  A record no field of which is written yields exactly
the empty object, and a record with three always-included fields yields
exactly two separating commas. -/
theorem record_encoder_writes_separated_object (U : Universe) (rt : Runtime)
    (hnames : ∀ k, startsWithStar (U.varName k) = false)
    (fuel : Nat) (t : TypeId) (g g1 : Generator)
    (h : genStructEncoder U fuel t g = some (g1, none)) (input : List (String × Value)) :
    runEncoder rt (g1.out.drop g.out.length) input
        = "\x7b" ++ String.intercalate ","
            (writtenMembers U rt fuel t g input (U.getStructFields t)) ++ "\x7d"
    ∧ ((∀ f ∈ U.getStructFields t, fieldWritten U rt g input f = false) →
        runEncoder rt (g1.out.drop g.out.length) input = "\x7b\x7d")
    ∧ (∀ a b c : StructField, U.getStructFields t = [a, b, c] →
        fieldOmitEmpty g a = false → fieldOmitEmpty g b = false →
        fieldOmitEmpty g c = false →
        runEncoder rt (g1.out.drop g.out.length) input
          = "\x7b" ++ fieldMember U rt fuel t input a ++ "," ++ fieldMember U rt fuel t input b
              ++ "," ++ fieldMember U rt fuel t input c ++ "\x7d") := by
  have hrun := genStructEncoder_runs U rt hnames fuel t g g1 h input
  refine ⟨?_, ?_, ?_⟩
  · rw [hrun, joinFrom_true]
    rfl
  · intro hall
    rw [hrun]
    have hnone : (U.getStructFields t).filter (fieldWritten U rt g input) = [] := by
      rw [List.filter_eq_nil_iff]
      intro f hf
      simp [hall f hf]
    simp [hnone, joinFrom]
  · intro a b c hfs ha hb hc
    rw [hrun, hfs]
    simp [List.filter, fieldWritten, ha, hb, hc, joinFrom, String.append_assoc]

/-- Witness of C7 on the example graph: the record `Rec` with its second field
present, the record `Sparse` with both fields empty, and the record `Tri`
with three always-included fields. -/
theorem record_encoder_writes_separated_object_witness :
    runEncoder demoRuntime (demoGenerated false 13).out
        [("in.name", .str "x"), ("in.count", .num 5)] = "\x7b\"n\":\"x\",\"c\":5\x7d"
    ∧ runEncoder demoRuntime (demoGenerated false 18).out
        [("in.X", .num 0), ("in.Y", .str "")] = "\x7b\x7d"
    ∧ runEncoder demoRuntime (demoGenerated false 17).out
        [("in.A", .str "p"), ("in.B", .num 7), ("in.C", .str "")]
        = "\x7b\"a\":\"p\",\"b\":7,\"c\":\"\"\x7d" :=
  ⟨(record_encoder_writes_separated_object demo demoRuntime demo_names 2 13
      (newGenerator false) (demoGenerated false 13) (by decide)
      [("in.name", .str "x"), ("in.count", .num 5)]).1.trans (by decide),
   (record_encoder_writes_separated_object demo demoRuntime demo_names 2 18
      (newGenerator false) (demoGenerated false 18) (by decide)
      [("in.X", .num 0), ("in.Y", .str "")]).2.1 (by decide),
   ((record_encoder_writes_separated_object demo demoRuntime demo_names 2 17
      (newGenerator false) (demoGenerated false 17) (by decide)
      [("in.A", .str "p"), ("in.B", .num 7), ("in.C", .str "")]).2.2 _ _ _ rfl
        (by decide) (by decide) (by decide)).trans (by decide)⟩

/-- For a scalar type without the is-defined capability the guard printed by
`notEmptyCheck` holds exactly when the value is not the zero value. -/
theorem scalar_guard (U : Universe) (rt : Runtime) (vals : List (String × Value))
    (ty : TypeId) (r : String) (z : Bool)
    (hopt : (U.info ty).implementsOptional = false)
    (hz : holdsZeroValue (U.info ty).kind (evalRef vals r) = some z) :
    evalCond rt vals (notEmptyCheck U ty r) = !z := by
  simp only [notEmptyCheck, hopt, Bool.false_eq_true, if_false]
  cases hv : evalRef vals r with
  | str s =>
    simp only [holdsZeroValue, hv] at hz
    split_ifs at hz with hk
    simp only [Option.some.injEq] at hz
    subst hz
    simp [hk, evalCond, hv]
  | bool b =>
    simp only [holdsZeroValue, hv] at hz
    split_ifs at hz with hk
    simp only [Option.some.injEq] at hz
    subst hz
    simp [hk, evalCond, hv]
  | num n =>
    simp only [holdsZeroValue, hv] at hz
    split_ifs at hz with hk
    simp only [Option.some.injEq] at hz
    subst hz
    simp only [List.mem_cons, List.mem_singleton, List.not_mem_nil, or_false] at hk
    rcases hk with hk | hk | hk | hk | hk | hk | hk | hk | hk | hk <;>
      simp [hk, evalCond, hv]
  | float f =>
    simp only [holdsZeroValue, hv] at hz
    split_ifs at hz with hk
    simp only [Option.some.injEq] at hz
    subst hz
    simp only [List.mem_cons, List.mem_singleton, List.not_mem_nil, or_false] at hk
    rcases hk with hk | hk <;> simp [hk, evalCond, hv]
  | nil => simp [holdsZeroValue, hv] at hz
  | ptr v => simp [holdsZeroValue, hv] at hz
  | slice es => simp [holdsZeroValue, hv] at hz
  | map es => simp [holdsZeroValue, hv] at hz
  | other i => simp [holdsZeroValue, hv] at hz

/-- C8, counterexample: the scalar type `OptInt` (kind int) has the is-defined
capability and the fast custom-marshal capability, so the guard of its
omit-if-empty field is `(in.N).IsDefined()` and its value is written by
`(in.N).MarshalEasyJSON(out)`; with an `IsDefined` that answers `true`, the
field holding the zero value is written with its key. -/
theorem omitempty_scalar_zero_is_written :
    (demoInfo 15).kind = Kind.Int
    ∧ (demoInfo 15).implementsOptional = true
    ∧ (demoInfo 15).implementsMarshaler = true
    ∧ holdsZeroValue (demoInfo 15).kind (.num 0) = some true
    ∧ fieldOmitEmpty (newGenerator false) { Name := "N", Typ := 15, jsonTag := "n,omitempty" }
        = true
    ∧ (demoGenerated false 16).lines demoQuote
        = ["func easyjson_encode_demo.Opt(out *jwriter.Writer, in *demo.Opt) \x7b",
           "  out.RawByte('\x7b')",
           "  first := true",
           "  _ = first",
           "  if (in.N).IsDefined() \x7b",
           "    if !first \x7b out.RawByte(',') \x7d",
           "    first = false",
           "    out.RawString(\"\\\"n\\\":\")",
           "    (in.N).MarshalEasyJSON(out)",
           "  \x7d",
           "  out.RawByte('\x7d')",
           "\x7d"]
    ∧ runEncoder demoRuntime (demoGenerated false 16).out [("in.N", .num 0)]
        = "\x7b\"n\":<MarshalEasyJSON>\x7d" := by
  decide

/-- C8, amended: for every record and every scalar field whose type has no
is-defined capability and whose effective policy is omit-if-empty, running the
emitted encoder on a value whose field holds the zero value of its kind (the
empty string, `false`, the integer zero, a floating-point value that compares
equal to zero) writes nothing for that field, and on a value whose field is
not zero (for a floating-point kind also a fractional value, an infinity or
not-a-number) writes the member of the field, preceded by a comma exactly when
a member of an earlier field was written. -/
theorem omitempty_scalar_field_runs (U : Universe) (rt : Runtime)
    (hnames : ∀ k, startsWithStar (U.varName k) = false)
    (fuel : Nat) (t : TypeId) (g g1 : Generator)
    (h : genStructEncoder U fuel t g = some (g1, none)) (input : List (String × Value))
    (pre post : List StructField) (f : StructField)
    (hfs : U.getStructFields t = pre ++ f :: post)
    (hpol : fieldOmitEmpty g f = true)
    (hopt : (U.info f.Typ).implementsOptional = false)
    (z : Bool)
    (hz : holdsZeroValue (U.info f.Typ).kind (evalRef input ("in." ++ f.Name)) = some z) :
    runEncoder rt (g1.out.drop g.out.length) input
      = "\x7b" ++ (String.intercalate "," (writtenMembers U rt fuel t g input pre)
          ++ (if z then ""
              else (if (writtenMembers U rt fuel t g input pre).isEmpty then "" else ",")
                ++ fieldMember U rt fuel t input f)
          ++ joinFrom ((writtenMembers U rt fuel t g input pre).isEmpty && z)
              (writtenMembers U rt fuel t g input post)) ++ "\x7d" := by
  have hw : fieldWritten U rt g input f = !z := by
    simp [fieldWritten, hpol, scalar_guard U rt input f.Typ _ z hopt hz]
  rw [genStructEncoder_runs U rt hnames fuel t g g1 h input, hfs, ← joinFrom_true]
  have hsplit : List.map (fieldMember U rt fuel t input)
      (List.filter (fieldWritten U rt g input) (pre ++ f :: post))
      = writtenMembers U rt fuel t g input pre
        ++ ((if z then [] else [fieldMember U rt fuel t input f])
          ++ writtenMembers U rt fuel t g input post) := by
    cases z <;> simp [writtenMembers, List.filter, hw]
  rw [hsplit, joinFrom_append, joinFrom_append]
  cases z <;> simp [joinFrom, String.append_assoc]

/-- Witness of C8 (amended), the example of the spec: for the record with the
fields `name` (string, tag `n`) and `count` (int32, tag `c,omitempty`) under
the global default include-all, an empty name with count zero is encoded
without the member `c`, and the name `x` with count five with it. -/
theorem omitempty_scalar_field_runs_witness :
    runEncoder demoRuntime (demoGenerated false 13).out
        [("in.name", .str ""), ("in.count", .num 0)] = "\x7b\"n\":\"\"\x7d"
    ∧ runEncoder demoRuntime (demoGenerated false 13).out
        [("in.name", .str "x"), ("in.count", .num 5)] = "\x7b\"n\":\"x\",\"c\":5\x7d"
    ∧ runEncoder demoRuntime (demoGenerated false 26).out
        [("in.S", .float (.finite true 0 0))] = "\x7b\x7d"
    ∧ runEncoder demoRuntime (demoGenerated false 26).out
        [("in.S", .float (.finite false 1 (-1)))] = "\x7b\"s\":<out.Float64>\x7d"
    ∧ runEncoder demoRuntime (demoGenerated false 26).out
        [("in.S", .float .nan)] = "\x7b\"s\":<out.Float64>\x7d"
    ∧ runEncoder demoRuntime (demoGenerated false 26).out
        [("in.S", .float (.inf true))] = "\x7b\"s\":<out.Float64>\x7d" :=
  ⟨(omitempty_scalar_field_runs demo demoRuntime demo_names 2 13 (newGenerator false)
      (demoGenerated false 13) (by decide) [("in.name", .str ""), ("in.count", .num 0)]
      [{ Name := "name", Typ := 0, jsonTag := "n" }] []
      { Name := "count", Typ := 12, jsonTag := "c,omitempty" } rfl (by decide) rfl true
      (by decide)).trans (by decide),
   (omitempty_scalar_field_runs demo demoRuntime demo_names 2 13 (newGenerator false)
      (demoGenerated false 13) (by decide) [("in.name", .str "x"), ("in.count", .num 5)]
      [{ Name := "name", Typ := 0, jsonTag := "n" }] []
      { Name := "count", Typ := 12, jsonTag := "c,omitempty" } rfl (by decide) rfl false
      (by decide)).trans (by decide),
   (omitempty_scalar_field_runs demo demoRuntime demo_names 2 26 (newGenerator false)
      (demoGenerated false 26) (by decide) [("in.S", .float (.finite true 0 0))]
      [] [] { Name := "S", Typ := 25, jsonTag := "s,omitempty" } rfl (by decide) rfl true
      (by decide)).trans (by decide),
   (omitempty_scalar_field_runs demo demoRuntime demo_names 2 26 (newGenerator false)
      (demoGenerated false 26) (by decide) [("in.S", .float (.finite false 1 (-1)))]
      [] [] { Name := "S", Typ := 25, jsonTag := "s,omitempty" } rfl (by decide) rfl false
      (by decide)).trans (by decide),
   (omitempty_scalar_field_runs demo demoRuntime demo_names 2 26 (newGenerator false)
      (demoGenerated false 26) (by decide) [("in.S", .float .nan)]
      [] [] { Name := "S", Typ := 25, jsonTag := "s,omitempty" } rfl (by decide) rfl false
      (by decide)).trans (by decide),
   (omitempty_scalar_field_runs demo demoRuntime demo_names 2 26 (newGenerator false)
      (demoGenerated false 26) (by decide) [("in.S", .float (.inf true))]
      [] [] { Name := "S", Typ := 25, jsonTag := "s,omitempty" } rfl (by decide) rfl false
      (by decide)).trans (by decide)⟩

/-- C9, the code at the failing input: the lines emitted for `map[string]int`
write the key and then the value with no line in between that writes a
separator, so the single-entry map with key `k` and value `1` is written as
`{"k"1}`; the empty map is written as the empty object. -/
theorem map_encoder_omits_colon :
    (genTypeEncoder demo 2 14 "in.M" 1 (newGenerator false)).map
        (fun r => (r.1.lines demoQuote, r.2))
      = some (["  out.RawByte('\x7b')",
               "  v1_first := true",
               "  for v1_name, v1_value := range in.M \x7b",
               "    if !v1_first \x7b out.RawByte(',') \x7d",
               "    v1_first = false",
               "    out.String(v1_name)",
               "    out.Int(v1_value)",
               "  \x7d",
               "  out.RawByte('\x7d')"], none)
    ∧ (genTypeEncoder demo 2 14 "in.M" 1 (newGenerator false)).map
        (fun r => (run demoRuntime r.1.out
          { out := "", flags := [], idx := [], vals := [("in.M", .map [("k", .num 1)])] }).out)
      = some "\x7b\"k\"1\x7d"
    ∧ (genTypeEncoder demo 2 14 "in.M" 1 (newGenerator false)).map
        (fun r => (run demoRuntime r.1.out
          { out := "", flags := [], idx := [], vals := [("in.M", .map [])] }).out)
      = some "\x7b\x7d" := by
  decide

/-! ## Theorems about adapters, scalars, interfaces and errors -/

/-- C13: for every type whose kind is not record, `genStructEncoder` and
`genStructMarshaller` each return the error that names the type, and leave the
generator (output stream, name counter, registry) exactly as it was. -/
theorem nonRecord_is_rejected (U : Universe) (fuel : Nat) (t : TypeId) (g : Generator)
    (hk : (U.info t).kind ≠ .Struct) :
    genStructEncoder U fuel t g
        = some (g, some ("cannot generate encoder/decoder for " ++ (U.info t).str
            ++ ", not a struct type"))
    ∧ genStructMarshaller U t g
        = (g, some ("cannot generate encoder/decoder for " ++ (U.info t).str
            ++ ", not a struct type")) := by
  simp [genStructEncoder, genStructMarshaller, hk]

/-- Witness of C13: the type `[]int` of the example graph. -/
theorem nonRecord_is_rejected_witness :
    genStructEncoder demo 0 22 (newGenerator false)
        = some (newGenerator false,
            some "cannot generate encoder/decoder for []int, not a struct type")
    ∧ genStructMarshaller demo 22 (newGenerator false)
        = (newGenerator false,
            some "cannot generate encoder/decoder for []int, not a struct type") :=
  nonRecord_is_rejected demo 0 22 (newGenerator false) (by decide)

/-- C14: for every record type and every configuration `genStructMarshaller`
returns no error and appends the `MarshalEasyJSON` method on the pointer to the
type, whose body is the single call of the encoder of the record; before it,
it appends the `MarshalJSON` method (fresh writer, the same encoder called on
it, the built bytes returned with the error of the writer) exactly when
`noStdMarshalers` is false.  Name counter and registry stay as they were. -/
theorem genStructMarshaller_adapters (U : Universe) (t : TypeId) (g : Generator)
    (hk : (U.info t).kind = .Struct) :
    (genStructMarshaller U t g).2 = none
    ∧ appendedLines U.quote g (genStructMarshaller U t g).1
        = (if g.noStdMarshalers = false then
            ["func (v *" ++ U.getType t ++ ") MarshalJSON() ([]byte, error) \x7b",
             "  w := jwriter.Writer\x7b\x7d",
             "  " ++ getStructEncoderName U t ++ "(&w, v)",
             "  return w.Buffer.BuildBytes(), w.Error",
             "\x7d"]
           else [])
          ++ ["func (v *" ++ U.getType t ++ ") MarshalEasyJSON(w *jwriter.Writer) \x7b",
              "  " ++ getStructEncoderName U t ++ "(w, v)",
              "\x7d"]
    ∧ (genStructMarshaller U t g).1.out.take g.out.length = g.out
    ∧ (genStructMarshaller U t g).1.varCounter = g.varCounter
    ∧ (genStructMarshaller U t g).1.typesUnseen = g.typesUnseen := by
  cases hn : g.noStdMarshalers <;>
    simp [genStructMarshaller, hk, hn, appendedLines, Generator.println, Line.render]

/-- Witness of C14: the record `Rec` of the example graph with standard
adapters enabled and disabled. -/
theorem genStructMarshaller_adapters_witness :
    appendedLines demo.quote (newGenerator false)
        (genStructMarshaller demo 13 (newGenerator false)).1
      = ["func (v *demo.Rec) MarshalJSON() ([]byte, error) \x7b",
         "  w := jwriter.Writer\x7b\x7d",
         "  easyjson_encode_demo.Rec(&w, v)",
         "  return w.Buffer.BuildBytes(), w.Error",
         "\x7d",
         "func (v *demo.Rec) MarshalEasyJSON(w *jwriter.Writer) \x7b",
         "  easyjson_encode_demo.Rec(w, v)",
         "\x7d"]
    ∧ appendedLines demo.quote { newGenerator false with noStdMarshalers := true }
        (genStructMarshaller demo 13 { newGenerator false with noStdMarshalers := true }).1
      = ["func (v *demo.Rec) MarshalEasyJSON(w *jwriter.Writer) \x7b",
         "  easyjson_encode_demo.Rec(w, v)",
         "\x7d"] :=
  ⟨(genStructMarshaller_adapters demo 13 (newGenerator false) rfl).2.1.trans (by decide),
   (genStructMarshaller_adapters demo 13 { newGenerator false with noStdMarshalers := true }
      rfl).2.1.trans (by decide)⟩

/-- C15: for every type without marshal capability whose kind is one of the
fourteen scalar kinds, `genTypeEncoder` appends exactly the line
`<ws><writer>(<in>)` and returns no error, name counter and registry
unchanged; the table `primitiveEncoders` has an entry exactly for the fourteen
scalar kinds, the entry of a kind is `out.` followed by the name of the kind,
and no two kinds share an entry. -/
theorem genTypeEncoder_scalar (U : Universe) (fuel : Nat) (t : TypeId)
    (inRef : String) (indent : Nat) (g : Generator)
    (h1 : (U.info t).implementsMarshaler = false)
    (h2 : (U.info t).implementsJSONMarshaler = false)
    (hk : (U.info t).kind ∈ scalarKinds) :
    (∃ g1, genTypeEncoder U (fuel + 1) t inRef indent g = some (g1, none)
      ∧ appendedLines U.quote g g1
          = [stringsRepeat "  " indent ++ primitiveEncoders (U.info t).kind
              ++ "(" ++ inRef ++ ")"]
      ∧ g1.out.take g.out.length = g.out
      ∧ g1.varCounter = g.varCounter ∧ g1.typesUnseen = g.typesUnseen)
    ∧ (∀ k : Kind, primitiveEncoders k ≠ "" ↔ k ∈ scalarKinds)
    ∧ (∀ k ∈ scalarKinds, primitiveEncoders k = "out." ++ kindName k)
    ∧ (∀ k1 ∈ scalarKinds, ∀ k2 ∈ scalarKinds,
        primitiveEncoders k1 = primitiveEncoders k2 → k1 = k2) := by
  have htab : ∀ k : Kind, primitiveEncoders k ≠ "" ↔ k ∈ scalarKinds := by
    intro k; cases k <;> decide
  refine ⟨?_, htab, ?_, ?_⟩
  · have hp : primitiveEncoders (U.info t).kind ≠ "" := (htab _).mpr hk
    refine ⟨g.println (.prim (stringsRepeat "  " indent)
      (primitiveEncoders (U.info t).kind) inRef), ?_, ?_, ?_, rfl, rfl⟩
    · simp [genTypeEncoder, h1, h2, hp]
    · simp [appendedLines, Generator.println, Line.render]
    · simp [Generator.println]
  · intro k hk1
    cases k <;> first | rfl | (exact absurd hk1 (by decide))
  · intro k1 hk1 k2 hk2
    cases k1 <;> cases k2 <;>
      first
        | (intro _; rfl)
        | (intro h; exact absurd h (by decide))
        | (exact absurd hk1 (by decide))

/-- Witness of C15: the type int32 of the example graph. -/
theorem genTypeEncoder_scalar_witness :
    ∃ g1, genTypeEncoder demo (0 + 1) 12 "in.count" 1 (newGenerator false) = some (g1, none)
      ∧ appendedLines demo.quote (newGenerator false) g1
          = [stringsRepeat "  " 1 ++ primitiveEncoders (demo.info 12).kind
              ++ "(" ++ "in.count" ++ ")"]
      ∧ g1.out.take (newGenerator false).out.length = (newGenerator false).out
      ∧ g1.varCounter = (newGenerator false).varCounter
      ∧ g1.typesUnseen = (newGenerator false).typesUnseen :=
  (genTypeEncoder_scalar demo 0 12 "in.count" 1 (newGenerator false) rfl rfl (by decide)).1

/-- C16: for every interface type without marshal capability: if it declares
at least one method, `genTypeEncoder` returns the error that names the type
and leaves the generator as it was; if it declares no method, it appends
exactly the line `<ws>out.Raw(json.Marshal(<in>))` and returns no error. -/
theorem genTypeEncoder_interface (U : Universe) (fuel : Nat) (t : TypeId)
    (inRef : String) (indent : Nat) (g : Generator)
    (h1 : (U.info t).implementsMarshaler = false)
    (h2 : (U.info t).implementsJSONMarshaler = false)
    (hk : (U.info t).kind = .Interface) :
    ((U.info t).numMethod ≠ 0 →
      genTypeEncoder U (fuel + 1) t inRef indent g
        = some (g, some ("interface type " ++ (U.info t).str
            ++ " not supported: only interface\x7b\x7d is allowed")))
    ∧ ((U.info t).numMethod = 0 →
      ∃ g1, genTypeEncoder U (fuel + 1) t inRef indent g = some (g1, none)
        ∧ appendedLines U.quote g g1
            = [stringsRepeat "  " indent ++ "out.Raw(json.Marshal(" ++ inRef ++ "))"]
        ∧ g1.out.take g.out.length = g.out
        ∧ g1.varCounter = g.varCounter ∧ g1.typesUnseen = g.typesUnseen) := by
  constructor
  · intro hm
    simp [genTypeEncoder, h1, h2, hk, primitiveEncoders, hm]
  · intro hm
    refine ⟨g.println (.rawJSONMarshal (stringsRepeat "  " indent) inRef), ?_, ?_, ?_, rfl, rfl⟩
    · simp [genTypeEncoder, h1, h2, hk, primitiveEncoders, hm]
    · simp [appendedLines, Generator.println, Line.render]
    · simp [Generator.println]

/-- Witness of C16: the interface with one method and the interface without
methods of the example graph. -/
theorem genTypeEncoder_interface_witness :
    genTypeEncoder demo (0 + 1) 20 "in.X" 1 (newGenerator false)
        = some (newGenerator false, some ("interface type " ++ (demo.info 20).str
            ++ " not supported: only interface\x7b\x7d is allowed"))
    ∧ ∃ g1, genTypeEncoder demo (0 + 1) 19 "in.X" 1 (newGenerator false) = some (g1, none)
        ∧ appendedLines demo.quote (newGenerator false) g1
            = [stringsRepeat "  " 1 ++ "out.Raw(json.Marshal(" ++ "in.X" ++ "))"]
        ∧ g1.out.take (newGenerator false).out.length = (newGenerator false).out
        ∧ g1.varCounter = (newGenerator false).varCounter
        ∧ g1.typesUnseen = (newGenerator false).typesUnseen :=
  ⟨(genTypeEncoder_interface demo 0 20 "in.X" 1 (newGenerator false) rfl rfl rfl).1
      (by decide),
   (genTypeEncoder_interface demo 0 19 "in.X" 1 (newGenerator false) rfl rfl rfl).2 rfl⟩

/-- C19: `genTypeEncoder` returns an error exactly when the type has neither
marshal capability and the type itself is a map whose key kind is not string,
an interface with at least one method, or of a kind outside the fourteen
scalars, sequence, record, pointer, map and interface: such a type yields an
error within any positive budget, and an error is returned for no other type.
Whenever an error is returned the generator state is the one the call started
from: nothing appended, no name consumed, no record registered. -/
theorem genTypeEncoder_error_iff (U : Universe) (n : Nat) (t : TypeId) (inRef : String)
    (indent : Nat) (g : Generator) :
    ((U.info t).implementsMarshaler = false → (U.info t).implementsJSONMarshaler = false →
      hasNoEncoding U t = true →
      ∃ msg, genTypeEncoder U (n + 1) t inRef indent g = some (g, some msg))
    ∧ (∀ g1 msg, genTypeEncoder U n t inRef indent g = some (g1, some msg) →
        (U.info t).implementsMarshaler = false ∧ (U.info t).implementsJSONMarshaler = false
          ∧ hasNoEncoding U t = true ∧ g1 = g) := by
  constructor
  · intro h1 h2 hno
    cases hk : (U.info t).kind <;>
      simp [hasNoEncoding, hk, scalarKinds] at hno <;>
      simp [genTypeEncoder, h1, h2, hk, primitiveEncoders, hno]
  · intro g1 msg h
    cases n with
    | zero => simp [genTypeEncoder] at h
    | succ n =>
      simp only [genTypeEncoder] at h
      by_cases h1 : (U.info t).implementsMarshaler = true
      · rw [if_pos h1] at h; simp at h
      rw [if_neg h1] at h
      by_cases h2 : (U.info t).implementsJSONMarshaler = true
      · rw [if_pos h2] at h; simp at h
      rw [if_neg h2] at h
      by_cases h3 : primitiveEncoders (U.info t).kind ≠ ""
      · rw [if_pos h3] at h; simp at h
      rw [if_neg h3] at h
      simp only [Bool.not_eq_true] at h1 h2
      refine ⟨h1, h2, ?_⟩
      cases hk : (U.info t).kind with
      | Slice =>
        simp only [hk] at h
        split at h <;> simp at h
      | Struct => simp [hk] at h
      | Ptr =>
        simp only [hk] at h
        split at h <;> simp at h
      | Map =>
        simp only [hk] at h
        by_cases h4 : (U.info (U.info t).key).kind ≠ Kind.String
        · rw [if_pos h4] at h
          simp only [Option.some.injEq, Prod.mk.injEq] at h
          exact ⟨by simp [hasNoEncoding, hk, h4], h.1.symm⟩
        · rw [if_neg h4] at h
          split at h <;> simp at h
      | Interface =>
        simp only [hk] at h
        by_cases h5 : (U.info t).numMethod ≠ 0
        · rw [if_pos h5] at h
          simp only [Option.some.injEq, Prod.mk.injEq] at h
          exact ⟨by simp [hasNoEncoding, hk, h5], h.1.symm⟩
        · rw [if_neg h5] at h; simp at h
      | _ =>
        simp only [hk] at h
        first
          | (simp only [Option.some.injEq, Prod.mk.injEq] at h
             refine ⟨?_, h.1.symm⟩
             simp [hasNoEncoding, hk, scalarKinds]
             done)
          | (exfalso
             apply h3
             simp [hk, primitiveEncoders])

/-- Witness of C19 on the example graph: uintptr yields an error and leaves
the generator alone. -/
theorem genTypeEncoder_error_iff_witness :
    (∃ msg, genTypeEncoder demo (0 + 1) 21 "in.X" 1 (newGenerator false)
        = some (newGenerator false, some msg))
    ∧ ((demo.info 21).implementsMarshaler = false
        ∧ (demo.info 21).implementsJSONMarshaler = false
        ∧ hasNoEncoding demo 21 = true ∧ newGenerator false = newGenerator false) :=
  ⟨(genTypeEncoder_error_iff demo 0 21 "in.X" 1 (newGenerator false)).1 rfl rfl (by decide),
   (genTypeEncoder_error_iff demo 1 21 "in.X" 1 (newGenerator false)).2
      (newGenerator false) "don't know how to encode uintptr" (by decide)⟩

/-! ## Theorems about indentation and the layout of the emitted text -/

/-- One more level of indent is two more spaces at the end of the white
space. -/
theorem stringsRepeat_succ (k : Nat) :
    stringsRepeat "  " (k + 1) = stringsRepeat "  " k ++ "  " := by
  induction k with
  | zero => rfl
  | succ k ih =>
    calc stringsRepeat "  " (k + 1 + 1) = "  " ++ stringsRepeat "  " (k + 1) := rfl
      _ = "  " ++ (stringsRepeat "  " k ++ "  ") := by rw [ih]
      _ = ("  " ++ stringsRepeat "  " k) ++ "  " := by rw [String.append_assoc]
      _ = stringsRepeat "  " (k + 1) ++ "  " := rfl

/-- The relation of a call that prints one line and returns. -/
theorem indentRel_single (q : String → String) (k : Nat) (g g2 : Generator)
    (l l2 : Line) (e : Option String) (r : String)
    (hc : g2.varCounter = g.varCounter) (ht : g2.typesUnseen = g.typesUnseen)
    (h2 : Line.render q l2 = "  " ++ Line.render q l)
    (hr : Line.render q l = stringsRepeat "  " k ++ r) :
    IndentRel q k g g2 (some (g.println l, e)) (some (g2.println l2, e)) := by
  refine ⟨rfl, hc, ht, [l], [l2], rfl, rfl, by simp [h2], ?_⟩
  intro s hs
  simp only [List.map_cons, List.map_nil, List.mem_singleton] at hs
  exact ⟨r, hs ▸ hr⟩

/-- The relation of a call that returns an error. -/
theorem indentRel_error (q : String → String) (k : Nat) (g g2 : Generator) (e : Option String)
    (hc : g2.varCounter = g.varCounter) (ht : g2.typesUnseen = g.typesUnseen) :
    IndentRel q k g g2 (some (g, e)) (some (g2, e)) := by
  refine ⟨rfl, hc, ht, [], [], by simp, by simp, by simp, ?_⟩
  intro s hs
  simp at hs


/-- The relation of a call that prints the lines `P`, makes a recursive call
one level deeper, prints the lines `S` and returns no error. -/
theorem indentRel_wrap (q : String → String) (k : Nat) (g g2 g7 g9 : Generator)
    (P P2 S S2 : List Line) (r r2 : Option (Generator × Option String))
    (hP : g7.out = g.out ++ P) (hP2 : g9.out = g2.out ++ P2)
    (hPr : P2.map (Line.render q) = (P.map (Line.render q)).map (fun s => "  " ++ s))
    (hSr : S2.map (Line.render q) = (S.map (Line.render q)).map (fun s => "  " ++ s))
    (hPk : ∀ s ∈ P.map (Line.render q), ∃ x, s = stringsRepeat "  " k ++ x)
    (hSk : ∀ s ∈ S.map (Line.render q), ∃ x, s = stringsRepeat "  " k ++ x)
    (hrel : IndentRel q (k + 1) g7 g9 r r2) :
    IndentRel q k g g2
      (r.map (fun x => ({ x.1 with out := x.1.out ++ S }, none)))
      (r2.map (fun x => ({ x.1 with out := x.1.out ++ S2 }, none))) := by
  rcases r with _ | ⟨g1, e1⟩ <;> rcases r2 with _ | ⟨g3, e3⟩
  · trivial
  · exact hrel
  · exact hrel
  · obtain ⟨-, hc, ht, A, B, hA, hB, hAB, hAk⟩ := hrel
    refine ⟨rfl, hc, ht, P ++ A ++ S, P2 ++ B ++ S2, ?_, ?_, ?_, ?_⟩
    · simp [hA, hP]
    · simp [hB, hP2]
    · simp [hPr, hSr, hAB]
    · intro s hs
      simp only [List.map_append, List.mem_append] at hs
      rcases hs with (hs | hs) | hs
      · exact hPk s hs
      · obtain ⟨x, hx⟩ := hAk s hs
        exact ⟨"  " ++ x, by rw [hx, stringsRepeat_succ, String.append_assoc]⟩
      · exact hSk s hs


/-- Indentation only moves the text: a call of `genTypeEncoder` at indent
`k + 1` behaves as the call at indent `k`, with every line two spaces further
right. -/
theorem genTypeEncoder_indent (U : Universe) (n : Nat) (t : TypeId) (inRef : String)
    (k : Nat) (g g2 : Generator)
    (hc : g2.varCounter = g.varCounter) (ht : g2.typesUnseen = g.typesUnseen) :
    IndentRel U.quote k g g2 (genTypeEncoder U n t inRef k g)
      (genTypeEncoder U n t inRef (k + 1) g2) := by
  induction n generalizing t inRef k g g2 with
  | zero => simp [genTypeEncoder, IndentRel]
  | succ n ih =>
    have hws : stringsRepeat "  " (k + 1) = "  " ++ stringsRepeat "  " k := rfl
    simp only [genTypeEncoder]
    by_cases h1 : (U.info t).implementsMarshaler = true
    · rw [if_pos h1, if_pos h1]
      exact indentRel_single _ _ _ _ _ _ _ ("(" ++ inRef ++ ").MarshalEasyJSON(out)") hc ht
        (by simp [Line.render, hws, String.append_assoc])
        (by simp [Line.render, String.append_assoc])
    rw [if_neg h1, if_neg h1]
    by_cases h2 : (U.info t).implementsJSONMarshaler = true
    · rw [if_pos h2, if_pos h2]
      exact indentRel_single _ _ _ _ _ _ _ ("out.Raw( (" ++ inRef ++ ").MarshalJSON() )") hc ht
        (by simp [Line.render, hws, String.append_assoc])
        (by simp [Line.render, String.append_assoc])
    rw [if_neg h2, if_neg h2]
    by_cases h3 : primitiveEncoders (U.info t).kind ≠ ""
    · rw [if_pos h3, if_pos h3]
      exact indentRel_single _ _ _ _ _ _ _
        (primitiveEncoders (U.info t).kind ++ "(" ++ inRef ++ ")") hc ht
        (by simp [Line.render, hws, String.append_assoc])
        (by simp [Line.render, String.append_assoc])
    rw [if_neg h3, if_neg h3]
    cases hk : (U.info t).kind with
    | Slice =>
      simp only [uniqueVarName, hc]
      have hrel := ih (U.info t).elem (U.varName (g.varCounter + 1)) (k + 1)
        (((((({ g with varCounter := g.varCounter + 1 + 1 } : Generator).println
          (.rawByte (stringsRepeat "  " k) '[')).println
          (.forRange (stringsRepeat "  " k) (U.varName g.varCounter)
            (U.varName (g.varCounter + 1)) inRef)).println
          (.ifPos (stringsRepeat "  " k ++ "  ") (U.varName g.varCounter))).println
          (.rawByte (stringsRepeat "  " k ++ "    ") ',')).println
          (.close (stringsRepeat "  " k ++ "  ")))
        (((((({ g2 with varCounter := g.varCounter + 1 + 1 } : Generator).println
          (.rawByte (stringsRepeat "  " (k + 1)) '[')).println
          (.forRange (stringsRepeat "  " (k + 1)) (U.varName g.varCounter)
            (U.varName (g.varCounter + 1)) inRef)).println
          (.ifPos (stringsRepeat "  " (k + 1) ++ "  ") (U.varName g.varCounter))).println
          (.rawByte (stringsRepeat "  " (k + 1) ++ "    ") ',')).println
          (.close (stringsRepeat "  " (k + 1) ++ "  ")))
        rfl ht
      have hwrap := indentRel_wrap U.quote k g g2 _ _
        [.rawByte (stringsRepeat "  " k) '[',
          .forRange (stringsRepeat "  " k) (U.varName g.varCounter)
            (U.varName (g.varCounter + 1)) inRef,
          .ifPos (stringsRepeat "  " k ++ "  ") (U.varName g.varCounter),
          .rawByte (stringsRepeat "  " k ++ "    ") ',',
          .close (stringsRepeat "  " k ++ "  ")]
        [.rawByte (stringsRepeat "  " (k + 1)) '[',
          .forRange (stringsRepeat "  " (k + 1)) (U.varName g.varCounter)
            (U.varName (g.varCounter + 1)) inRef,
          .ifPos (stringsRepeat "  " (k + 1) ++ "  ") (U.varName g.varCounter),
          .rawByte (stringsRepeat "  " (k + 1) ++ "    ") ',',
          .close (stringsRepeat "  " (k + 1) ++ "  ")]
        [.close (stringsRepeat "  " k), .rawByte (stringsRepeat "  " k) ']']
        [.close (stringsRepeat "  " (k + 1)), .rawByte (stringsRepeat "  " (k + 1)) ']']
        _ _ (by simp [Generator.println]) (by simp [Generator.println])
        (by simp [Line.render, hws, String.append_assoc])
        (by simp [Line.render, hws, String.append_assoc])
        (by
          intro s hs
          simp only [List.map_cons, List.map_nil, List.mem_cons, List.mem_singleton,
            List.not_mem_nil, or_false, Line.render, String.append_assoc] at hs
          rcases hs with hs | hs | hs | hs | hs <;> exact ⟨_, hs⟩)
        (by
          intro s hs
          simp only [List.map_cons, List.map_nil, List.mem_cons, List.mem_singleton,
            List.not_mem_nil, or_false, Line.render, String.append_assoc] at hs
          rcases hs with hs | hs <;> exact ⟨_, hs⟩)
        hrel
      convert hwrap using 1
      · generalize genTypeEncoder U n _ _ _ _ = r
        rcases r with _ | ⟨a, b⟩ <;> simp [Generator.println]
      · generalize genTypeEncoder U n _ _ _ _ = r
        rcases r with _ | ⟨a, b⟩ <;> simp [Generator.println]
    | Struct =>
      simp only []
      have h := indentRel_single U.quote k (addType g t) (addType g2 t)
        (.callEncoder (stringsRepeat "  " k) (getStructEncoderName U t) inRef)
        (.callEncoder (stringsRepeat "  " (k + 1)) (getStructEncoderName U t) inRef) none
        (getStructEncoderName U t ++ "(out, &" ++ inRef ++ ")") hc
        (by simp [addType, ht])
        (by simp [Line.render, hws, String.append_assoc])
        (by simp [Line.render, String.append_assoc])
      obtain ⟨he, hc1, ht1, A, B, hA, hB, hAB, hAk⟩ := h
      exact ⟨he, hc1, ht1, A, B, hA, hB, hAB, hAk⟩
    | Ptr =>
      simp only []
      have hrel := ih (U.info t).elem ("*" ++ inRef) (k + 1)
        (((g.println (.ifNil (stringsRepeat "  " k) inRef)).println
          (.rawNull (stringsRepeat "  " k ++ "  "))).println
          (.elseOpen (stringsRepeat "  " k)))
        (((g2.println (.ifNil (stringsRepeat "  " (k + 1)) inRef)).println
          (.rawNull (stringsRepeat "  " (k + 1) ++ "  "))).println
          (.elseOpen (stringsRepeat "  " (k + 1))))
        hc ht
      have hwrap := indentRel_wrap U.quote k g g2 _ _
        [.ifNil (stringsRepeat "  " k) inRef, .rawNull (stringsRepeat "  " k ++ "  "),
          .elseOpen (stringsRepeat "  " k)]
        [.ifNil (stringsRepeat "  " (k + 1)) inRef,
          .rawNull (stringsRepeat "  " (k + 1) ++ "  "),
          .elseOpen (stringsRepeat "  " (k + 1))]
        [.close (stringsRepeat "  " k)]
        [.close (stringsRepeat "  " (k + 1))]
        _ _ (by simp [Generator.println]) (by simp [Generator.println])
        (by simp [Line.render, hws, String.append_assoc])
        (by simp [Line.render, hws, String.append_assoc])
        (by
          intro s hs
          simp only [List.map_cons, List.map_nil, List.mem_cons, List.mem_singleton,
            List.not_mem_nil, or_false, Line.render, String.append_assoc] at hs
          rcases hs with hs | hs | hs <;> exact ⟨_, hs⟩)
        (by
          intro s hs
          simp only [List.map_cons, List.map_nil, List.mem_singleton, Line.render] at hs
          exact ⟨_, hs⟩)
        hrel
      convert hwrap using 1
      · generalize genTypeEncoder U n _ _ _ _ = r
        rcases r with _ | ⟨a, b⟩ <;> simp [Generator.println]
      · generalize genTypeEncoder U n _ _ _ _ = r
        rcases r with _ | ⟨a, b⟩ <;> simp [Generator.println]
    | Map =>
      simp only []
      by_cases h4 : (U.info (U.info t).key).kind ≠ Kind.String
      · rw [if_pos h4, if_pos h4]
        exact indentRel_error _ _ _ _ _ hc ht
      rw [if_neg h4, if_neg h4]
      simp only [uniqueVarName, hc]
      have hrel := ih (U.info t).elem (U.varName g.varCounter ++ "_value") (k + 1)
        ((((((({ g with varCounter := g.varCounter + 1 } : Generator).println
          (.rawByte (stringsRepeat "  " k) '{')).println
          (.declTrue (stringsRepeat "  " k) (U.varName g.varCounter ++ "_first"))).println
          (.forEntries (stringsRepeat "  " k) (U.varName g.varCounter) inRef)).println
          (.commaUnless (stringsRepeat "  " k ++ "  ")
            (U.varName g.varCounter ++ "_first"))).println
          (.clearFlag (stringsRepeat "  " k ++ "  ")
            (U.varName g.varCounter ++ "_first"))).println
          (.prim (stringsRepeat "  " k ++ "  ") "out.String"
            (U.varName g.varCounter ++ "_name")))
        ((((((({ g2 with varCounter := g.varCounter + 1 } : Generator).println
          (.rawByte (stringsRepeat "  " (k + 1)) '{')).println
          (.declTrue (stringsRepeat "  " (k + 1)) (U.varName g.varCounter ++ "_first"))).println
          (.forEntries (stringsRepeat "  " (k + 1)) (U.varName g.varCounter) inRef)).println
          (.commaUnless (stringsRepeat "  " (k + 1) ++ "  ")
            (U.varName g.varCounter ++ "_first"))).println
          (.clearFlag (stringsRepeat "  " (k + 1) ++ "  ")
            (U.varName g.varCounter ++ "_first"))).println
          (.prim (stringsRepeat "  " (k + 1) ++ "  ") "out.String"
            (U.varName g.varCounter ++ "_name")))
        rfl ht
      have hwrap := indentRel_wrap U.quote k g g2 _ _
        [.rawByte (stringsRepeat "  " k) '{',
          .declTrue (stringsRepeat "  " k) (U.varName g.varCounter ++ "_first"),
          .forEntries (stringsRepeat "  " k) (U.varName g.varCounter) inRef,
          .commaUnless (stringsRepeat "  " k ++ "  ") (U.varName g.varCounter ++ "_first"),
          .clearFlag (stringsRepeat "  " k ++ "  ") (U.varName g.varCounter ++ "_first"),
          .prim (stringsRepeat "  " k ++ "  ") "out.String"
            (U.varName g.varCounter ++ "_name")]
        [.rawByte (stringsRepeat "  " (k + 1)) '{',
          .declTrue (stringsRepeat "  " (k + 1)) (U.varName g.varCounter ++ "_first"),
          .forEntries (stringsRepeat "  " (k + 1)) (U.varName g.varCounter) inRef,
          .commaUnless (stringsRepeat "  " (k + 1) ++ "  ")
            (U.varName g.varCounter ++ "_first"),
          .clearFlag (stringsRepeat "  " (k + 1) ++ "  ")
            (U.varName g.varCounter ++ "_first"),
          .prim (stringsRepeat "  " (k + 1) ++ "  ") "out.String"
            (U.varName g.varCounter ++ "_name")]
        [.close (stringsRepeat "  " k), .rawByte (stringsRepeat "  " k) '}']
        [.close (stringsRepeat "  " (k + 1)), .rawByte (stringsRepeat "  " (k + 1)) '}']
        _ _ (by simp [Generator.println]) (by simp [Generator.println])
        (by simp [Line.render, hws, String.append_assoc])
        (by simp [Line.render, hws, String.append_assoc])
        (by
          intro s hs
          simp only [List.map_cons, List.map_nil, List.mem_cons, List.mem_singleton,
            List.not_mem_nil, or_false, Line.render, String.append_assoc] at hs
          rcases hs with hs | hs | hs | hs | hs | hs <;> exact ⟨_, hs⟩)
        (by
          intro s hs
          simp only [List.map_cons, List.map_nil, List.mem_cons, List.mem_singleton,
            List.not_mem_nil, or_false, Line.render, String.append_assoc] at hs
          rcases hs with hs | hs <;> exact ⟨_, hs⟩)
        hrel
      convert hwrap using 1
      · generalize genTypeEncoder U n _ _ _ _ = r
        rcases r with _ | ⟨a, b⟩ <;> simp [Generator.println]
      · generalize genTypeEncoder U n _ _ _ _ = r
        rcases r with _ | ⟨a, b⟩ <;> simp [Generator.println]
    | Interface =>
      simp only []
      by_cases h5 : (U.info t).numMethod ≠ 0
      · rw [if_pos h5, if_pos h5]
        exact indentRel_error _ _ _ _ _ hc ht
      rw [if_neg h5, if_neg h5]
      exact indentRel_single _ _ _ _ _ _ _ ("out.Raw(json.Marshal(" ++ inRef ++ "))") hc ht
        (by simp [Line.render, hws, String.append_assoc])
        (by simp [Line.render, String.append_assoc])
    | _ => exact indentRel_error _ _ _ _ _ hc ht

/-- The white space of indent `k` is `2 * k` spaces. -/
theorem stringsRepeat_spaces (k : Nat) :
    stringsRepeat "  " k = String.mk (List.replicate (2 * k) ' ') := by
  induction k with
  | zero => rfl
  | succ k ih =>
    have h : stringsRepeat "  " (k + 1) = "  " ++ stringsRepeat "  " k := rfl
    rw [h, ih]
    apply String.ext
    simp [List.replicate_succ, Nat.mul_succ]

/-- The lines appended by a call, when the output after the call is known. -/
theorem appendedLines_eq (q : String → String) (g g1 : Generator) (A : List Line)
    (h : g1.out = g.out ++ A) : appendedLines q g g1 = A.map (Line.render q) := by
  simp [appendedLines, h]

/-- C20: indentation is a homomorphism on the emitted text.  For every type,
value reference, indent `k` and starting state, `genTypeEncoder` at indent
`k + 1` returns exactly when it returns at indent `k`, with the same error,
the same name counter and the same registry worklist; the lines it appends are
the lines appended at indent `k`, each prefixed with two spaces, and every
line appended at indent `k` begins with `2 * k` spaces. -/
theorem indentation_is_homomorphism (U : Universe) (n : Nat) (t : TypeId) (inRef : String)
    (k : Nat) (g : Generator) :
    (genTypeEncoder U n t inRef (k + 1) g).isSome = (genTypeEncoder U n t inRef k g).isSome
    ∧ ∀ g1 e1, genTypeEncoder U n t inRef k g = some (g1, e1) →
        ∃ g2, genTypeEncoder U n t inRef (k + 1) g = some (g2, e1)
          ∧ g2.varCounter = g1.varCounter ∧ g2.typesUnseen = g1.typesUnseen
          ∧ g1.out.take g.out.length = g.out ∧ g2.out.take g.out.length = g.out
          ∧ appendedLines U.quote g g2
              = (appendedLines U.quote g g1).map (fun s => "  " ++ s)
          ∧ ∀ s ∈ appendedLines U.quote g g1,
              ∃ r, s = String.mk (List.replicate (2 * k) ' ') ++ r := by
  have hrel := genTypeEncoder_indent U n t inRef k g g rfl rfl
  constructor
  · rw [genTypeEncoder_isSome_eq, genTypeEncoder_isSome_eq]
  · intro g1 e1 h1
    rw [h1] at hrel
    cases h2 : genTypeEncoder U n t inRef (k + 1) g with
    | none => rw [h2] at hrel; exact absurd hrel (by simp [IndentRel])
    | some r =>
      obtain ⟨g2, e2⟩ := r
      rw [h2] at hrel
      obtain ⟨he, hc, ht, A, B, hA, hB, hAB, hAk⟩ := hrel
      subst he
      refine ⟨g2, rfl, hc, ht, by simp [hA], by simp [hB], ?_, ?_⟩
      · rw [appendedLines_eq _ _ _ _ hA, appendedLines_eq _ _ _ _ hB, hAB]
      · rw [appendedLines_eq _ _ _ _ hA, ← stringsRepeat_spaces]
        exact hAk

/-- Witness of C20: the sequence type `[]int` of the example graph at indent
one and two. -/
theorem indentation_is_homomorphism_witness :
    ∃ g2, genTypeEncoder demo 2 22 "in.X" (1 + 1) (newGenerator false) = some (g2, none)
      ∧ g2.varCounter = 2 ∧ g2.typesUnseen = []
      ∧ appendedLines demo.quote (newGenerator false) g2
          = ["    out.RawByte('[')",
             "    for v1, v2 := range in.X \x7b",
             "      if v1 > 0 \x7b",
             "        out.RawByte(',')",
             "      \x7d",
             "      out.Int(v2)",
             "    \x7d",
             "    out.RawByte(']')"] := by
  obtain ⟨g2, h, hc, ht, -, -, hl, -⟩ :=
    (indentation_is_homomorphism demo 2 22 "in.X" 1 (newGenerator false)).2
      ((genTypeEncoder demo 2 22 "in.X" 1 (newGenerator false)).getD (newGenerator false, none)).1
      none (by decide)
  exact ⟨g2, h, hc.trans (by decide), ht.trans (by decide), hl.trans (by decide)⟩

/-- C11: omit-if-empty wraps exactly the always-include sequence.  Take a
field under policy omit-if-empty and the same field (same declared name, type
and serialized name) under policy always-include, started with the same name
counter and registry worklist, and let the always-include call return no
error.  Then the omit-if-empty call returns no error as well, with the same
name counter and worklist, and the lines it appends are the guard line
`  if <notEmptyCheck(f.Type, in.<f.Name>)> {`, then every line appended
under always-include prefixed with two spaces, then the line `  }`.  So the
comma write and the update of `first` occur inside the guarded block only. -/
theorem omitEmpty_wraps_alwaysInclude (U : Universe) (fuel : Nat) (t : TypeId)
    (f1 f2 : StructField) (g1 g2 r2 : Generator)
    (hN : f1.Name = f2.Name) (hT : f1.Typ = f2.Typ)
    (hJ : U.getJSONFieldName t f1 = U.getJSONFieldName t f2)
    (hc : g1.varCounter = g2.varCounter) (ht : g1.typesUnseen = g2.typesUnseen)
    (hp1 : fieldOmitEmpty g1 f1 = true) (hp2 : fieldOmitEmpty g2 f2 = false)
    (h2 : genStructFieldEncoder U fuel t f2 g2 = some (r2, none)) :
    ∃ r1, genStructFieldEncoder U fuel t f1 g1 = some (r1, none)
      ∧ r1.varCounter = r2.varCounter ∧ r1.typesUnseen = r2.typesUnseen
      ∧ appendedLines U.quote g1 r1
          = ("  if " ++ (notEmptyCheck U f1.Typ ("in." ++ f1.Name)).render ++ " \x7b")
            :: ((appendedLines U.quote g2 r2).map (fun s => "  " ++ s) ++ ["  \x7d"])
      ∧ (appendedLines U.quote g2 r2).take 2
          = ["  if !first \x7b out.RawByte(',') \x7d", "  first = false"] := by
  simp only [genStructFieldEncoder, hp2, Bool.not_false, if_true] at h2
  have hrel := genTypeEncoder_indent U fuel f2.Typ ("in." ++ f2.Name) 1
    (((g2.println (.commaUnless "  " "first")).println (.clearFlag "  " "first")).println
      (.rawString "  " (U.quote (U.getJSONFieldName t f2) ++ ":")))
    ((((g1.println (.ifCond "  " (notEmptyCheck U f2.Typ ("in." ++ f2.Name)))).println
      (.commaUnless "    " "first")).println (.clearFlag "    " "first")).println
      (.rawString "    " (U.quote (U.getJSONFieldName t f2) ++ ":")))
    hc ht
  rw [h2] at hrel
  simp only [genStructFieldEncoder, hp1, Bool.not_true, Bool.false_eq_true, if_false, hN, hT,
    hJ]
  cases h1 : genTypeEncoder U fuel f2.Typ ("in." ++ f2.Name) (1 + 1)
      ((((g1.println (.ifCond "  " (notEmptyCheck U f2.Typ ("in." ++ f2.Name)))).println
      (.commaUnless "    " "first")).println (.clearFlag "    " "first")).println
      (.rawString "    " (U.quote (U.getJSONFieldName t f2) ++ ":"))) with
  | none => rw [h1] at hrel; exact absurd hrel (by simp [IndentRel])
  | some r =>
    obtain ⟨g5, e5⟩ := r
    rw [h1] at hrel
    obtain ⟨he, hc5, ht5, A, B, hA, hB, hAB, -⟩ := hrel
    subst he
    refine ⟨g5.println (.close "  "), rfl, hc5, ht5, ?_, ?_⟩
    · rw [appendedLines_eq U.quote g1 _
        (Line.ifCond "  " (notEmptyCheck U f2.Typ ("in." ++ f2.Name))
          :: Line.commaUnless "    " "first" :: Line.clearFlag "    " "first"
          :: Line.rawString "    " (U.quote (U.getJSONFieldName t f2) ++ ":")
          :: (B ++ [Line.close "  "])) (by simp [Generator.println, hB]),
        appendedLines_eq U.quote g2 r2
          (Line.commaUnless "  " "first" :: Line.clearFlag "  " "first"
            :: Line.rawString "  " (U.quote (U.getJSONFieldName t f2) ++ ":") :: A)
          (by simp [Generator.println, hA])]
      simp [Line.render, hAB, String.append_assoc]
      rw [← String.append_assoc]
      rfl
    · rw [appendedLines_eq U.quote g2 r2
          (Line.commaUnless "  " "first" :: Line.clearFlag "  " "first"
            :: Line.rawString "  " (U.quote (U.getJSONFieldName t f2) ++ ":") :: A)
          (by simp [Generator.println, hA])]
      simp [Line.render]

/-- Witness of C11: the field `count` (int32) of the example graph with the tag
`c,omitempty` and with the tag `c`. -/
theorem omitEmpty_wraps_alwaysInclude_witness :
    ∃ r1, genStructFieldEncoder demo 1 13
        { Name := "count", Typ := 12, jsonTag := "c,omitempty" } (newGenerator false)
        = some (r1, none)
      ∧ appendedLines demo.quote (newGenerator false) r1
          = ["  if in.count != 0 \x7b",
             "    if !first \x7b out.RawByte(',') \x7d",
             "    first = false",
             "    out.RawString(\"\\\"c\\\":\")",
             "    out.Int32(in.count)",
             "  \x7d"] := by
  obtain ⟨r1, h, -, -, hl, -⟩ := omitEmpty_wraps_alwaysInclude demo 1 13
    { Name := "count", Typ := 12, jsonTag := "c,omitempty" }
    { Name := "count", Typ := 12, jsonTag := "c" } (newGenerator false) (newGenerator false)
    ((genStructFieldEncoder demo 1 13 { Name := "count", Typ := 12, jsonTag := "c" }
      (newGenerator false)).getD (newGenerator false, none)).1
    rfl rfl (by decide) rfl rfl (by decide) (by decide) (by decide)
  exact ⟨r1, h, hl.trans (by decide)⟩

/-- The lines appended by `genTypeEncoder` contain no key line of a field and
no initialisation of the flag `first`. -/
theorem genTypeEncoder_lines (U : Universe) (n : Nat) (t : TypeId) (inRef : String)
    (k : Nat) (g g1 : Generator) (e : Option String)
    (h : genTypeEncoder U n t inRef k g = some (g1, e)) :
    ∃ A, g1.out = g.out ++ A
      ∧ ∀ l ∈ A, l.keyLiteral = none ∧ l.declaresFirst = false := by
  induction n generalizing t inRef k g g1 e with
  | zero => simp [genTypeEncoder] at h
  | succ n ih =>
    simp only [genTypeEncoder] at h
    have hone : ∀ (l : Line),
        some (g.println l, (none : Option String)) = some (g1, e) →
        l.keyLiteral = none → l.declaresFirst = false →
        ∃ A, g1.out = g.out ++ A
          ∧ ∀ l ∈ A, l.keyLiteral = none ∧ l.declaresFirst = false := by
      intro l hm hl1 hl2
      simp only [Option.some.injEq, Prod.mk.injEq] at hm
      obtain ⟨rfl, -⟩ := hm
      refine ⟨[l], rfl, ?_⟩
      intro l1 hl
      rw [List.mem_singleton] at hl
      subst hl
      exact ⟨hl1, hl2⟩
    have hnil : ∀ (e0 : Option String), some (g, e0) = some (g1, e) →
        ∃ A, g1.out = g.out ++ A
          ∧ ∀ l ∈ A, l.keyLiteral = none ∧ l.declaresFirst = false := by
      intro e0 hm
      simp only [Option.some.injEq, Prod.mk.injEq] at hm
      obtain ⟨rfl, -⟩ := hm
      exact ⟨[], by simp, by simp⟩
    by_cases h1 : (U.info t).implementsMarshaler = true
    · rw [if_pos h1] at h
      exact hone _ h rfl rfl
    rw [if_neg h1] at h
    by_cases h2 : (U.info t).implementsJSONMarshaler = true
    · rw [if_pos h2] at h
      exact hone _ h rfl rfl
    rw [if_neg h2] at h
    by_cases h3 : primitiveEncoders (U.info t).kind ≠ ""
    · rw [if_pos h3] at h
      exact hone _ h rfl rfl
    rw [if_neg h3] at h
    cases hk : (U.info t).kind with
    | Slice =>
      simp only [hk, uniqueVarName] at h
      split at h
      · simp at h
      · next g8 e8 hr =>
        obtain ⟨A, hout, hA⟩ := ih _ _ _ _ _ _ hr
        simp only [Option.some.injEq, Prod.mk.injEq] at h
        obtain ⟨rfl, -⟩ := h
        refine ⟨Line.rawByte (stringsRepeat "  " k) '['
          :: Line.forRange (stringsRepeat "  " k) (U.varName g.varCounter)
            (U.varName (g.varCounter + 1)) inRef
          :: Line.ifPos (stringsRepeat "  " k ++ "  ") (U.varName g.varCounter)
          :: Line.rawByte (stringsRepeat "  " k ++ "    ") ','
          :: Line.close (stringsRepeat "  " k ++ "  ")
          :: (A ++ [Line.close (stringsRepeat "  " k),
              Line.rawByte (stringsRepeat "  " k) ']']), ?_, ?_⟩
        · simp [Generator.println] at hout ⊢
          simp [hout]
        · intro l hl
          simp only [List.mem_cons, List.mem_append, List.mem_singleton, List.not_mem_nil,
            or_false] at hl
          rcases hl with rfl | rfl | rfl | rfl | rfl | hl | rfl | rfl <;>
            first | exact hA l hl | exact ⟨rfl, rfl⟩
    | Struct =>
      simp only [hk] at h
      simp only [Option.some.injEq, Prod.mk.injEq] at h
      obtain ⟨rfl, -⟩ := h
      refine ⟨[Line.callEncoder (stringsRepeat "  " k) (getStructEncoderName U t) inRef],
        by simp [Generator.println, addType], ?_⟩
      intro l hl
      rw [List.mem_singleton] at hl
      subst hl
      exact ⟨rfl, rfl⟩
    | Ptr =>
      simp only [hk] at h
      split at h
      · simp at h
      · next g4 e4 hr =>
        obtain ⟨A, hout, hA⟩ := ih _ _ _ _ _ _ hr
        simp only [Option.some.injEq, Prod.mk.injEq] at h
        obtain ⟨rfl, -⟩ := h
        refine ⟨Line.ifNil (stringsRepeat "  " k) inRef
          :: Line.rawNull (stringsRepeat "  " k ++ "  ")
          :: Line.elseOpen (stringsRepeat "  " k)
          :: (A ++ [Line.close (stringsRepeat "  " k)]), ?_, ?_⟩
        · simp [Generator.println] at hout ⊢
          simp [hout]
        · intro l hl
          simp only [List.mem_cons, List.mem_append, List.mem_singleton, List.not_mem_nil,
            or_false] at hl
          rcases hl with rfl | rfl | rfl | hl | rfl <;>
            first | exact hA l hl | exact ⟨rfl, rfl⟩
    | Map =>
      simp only [hk] at h
      by_cases h4 : (U.info (U.info t).key).kind ≠ Kind.String
      · rw [if_pos h4] at h
        exact hnil _ h
      · rw [if_neg h4] at h
        simp only [uniqueVarName] at h
        split at h
        · simp at h
        · next g8 e8 hr =>
          obtain ⟨A, hout, hA⟩ := ih _ _ _ _ _ _ hr
          simp only [Option.some.injEq, Prod.mk.injEq] at h
          obtain ⟨rfl, -⟩ := h
          refine ⟨Line.rawByte (stringsRepeat "  " k) '{'
            :: Line.declTrue (stringsRepeat "  " k) (U.varName g.varCounter ++ "_first")
            :: Line.forEntries (stringsRepeat "  " k) (U.varName g.varCounter) inRef
            :: Line.commaUnless (stringsRepeat "  " k ++ "  ")
              (U.varName g.varCounter ++ "_first")
            :: Line.clearFlag (stringsRepeat "  " k ++ "  ")
              (U.varName g.varCounter ++ "_first")
            :: Line.prim (stringsRepeat "  " k ++ "  ") "out.String"
              (U.varName g.varCounter ++ "_name")
            :: (A ++ [Line.close (stringsRepeat "  " k),
                Line.rawByte (stringsRepeat "  " k) '}']), ?_, ?_⟩
          · simp [Generator.println] at hout ⊢
            simp [hout]
          · intro l hl
            simp only [List.mem_cons, List.mem_append, List.mem_singleton, List.not_mem_nil,
              or_false] at hl
            rcases hl with rfl | rfl | rfl | rfl | rfl | rfl | hl | rfl | rfl <;>
              first
                | exact hA l hl
                | exact ⟨rfl, rfl⟩
                | exact ⟨rfl, by simp [Line.declaresFirst, flagName_ne_first]⟩
    | Interface =>
      simp only [hk] at h
      by_cases h5 : (U.info t).numMethod ≠ 0
      · rw [if_pos h5] at h
        exact hnil _ h
      · rw [if_neg h5] at h
        exact hone _ h rfl rfl
    | _ =>
      simp only [hk] at h
      exact hnil _ h

/-- The lines appended by `genStructFieldEncoder` contain the key line of the
field, once, and no initialisation of the flag `first`. -/
theorem genStructFieldEncoder_lines (U : Universe) (fuel : Nat) (t : TypeId)
    (f : StructField) (g g1 : Generator)
    (h : genStructFieldEncoder U fuel t f g = some (g1, none)) :
    ∃ A, g1.out = g.out ++ A
      ∧ A.filterMap Line.keyLiteral = [U.quote (U.getJSONFieldName t f) ++ ":"]
      ∧ A.filter Line.declaresFirst = [] := by
  have hfm : ∀ A : List Line, (∀ l ∈ A, l.keyLiteral = none ∧ l.declaresFirst = false) →
      A.filterMap Line.keyLiteral = [] ∧ A.filter Line.declaresFirst = [] := by
    intro A hA
    constructor
    · rw [List.filterMap_eq_nil_iff]
      exact fun l hl => (hA l hl).1
    · rw [List.filter_eq_nil_iff]
      intro l hl
      simp [(hA l hl).2]
  simp only [genStructFieldEncoder] at h
  cases hpol : fieldOmitEmpty g f with
  | false =>
    simp only [hpol, Bool.not_false, if_true] at h
    obtain ⟨A, hout, hA⟩ := genTypeEncoder_lines U _ _ _ _ _ _ _ h
    obtain ⟨hk, hd⟩ := hfm A hA
    refine ⟨Line.commaUnless "  " "first" :: Line.clearFlag "  " "first"
      :: Line.rawString "  " (U.quote (U.getJSONFieldName t f) ++ ":") :: A, ?_, ?_, ?_⟩
    · simp [Generator.println] at hout ⊢
      simp [hout]
    · simp [List.filterMap, Line.keyLiteral, hk]
    · simp [List.filter, Line.declaresFirst, hd]
  | true =>
    simp only [hpol, Bool.not_true, Bool.false_eq_true, if_false] at h
    split at h
    · simp at h
    · simp at h
    · next g5 hr =>
      simp only [Option.some.injEq, Prod.mk.injEq, and_true] at h
      subst h
      obtain ⟨A, hout, hA⟩ := genTypeEncoder_lines U _ _ _ _ _ _ _ hr
      obtain ⟨hk, hd⟩ := hfm A hA
      refine ⟨Line.ifCond "  " (notEmptyCheck U f.Typ ("in." ++ f.Name))
        :: Line.commaUnless "    " "first" :: Line.clearFlag "    " "first"
        :: Line.rawString "    " (U.quote (U.getJSONFieldName t f) ++ ":")
        :: (A ++ [Line.close "  "]), ?_, ?_, ?_⟩
      · simp [Generator.println] at hout ⊢
        simp [hout]
      · simp [List.filterMap, Line.keyLiteral, hk, List.filterMap_append]
      · simp [List.filter, Line.declaresFirst, hd, List.filter_append]

/-- The lines appended for the fields of a record are the outputs of
`genStructFieldEncoder` in declaration order; the key lines among them are
those of the fields, in declaration order. -/
theorem genStructFields_lines (U : Universe) (fuel : Nat) (t : TypeId)
    (fs : List StructField) (g g1 : Generator)
    (h : genStructFields U fuel t fs g = some (g1, none)) :
    ∃ A, g1.out = g.out ++ A
      ∧ A.map (Line.render U.quote) = fieldsOutput U fuel t fs g
      ∧ A.filterMap Line.keyLiteral
          = fs.map (fun f => U.quote (U.getJSONFieldName t f) ++ ":")
      ∧ A.filter Line.declaresFirst = [] := by
  induction fs generalizing g with
  | nil =>
    simp only [genStructFields, Option.some.injEq, Prod.mk.injEq, and_true] at h
    subst h
    exact ⟨[], by simp, by simp [fieldsOutput], by simp, by simp⟩
  | cons f fs ih =>
    simp only [genStructFields] at h
    split at h
    · simp at h
    · simp at h
    · next g2 hf =>
      obtain ⟨A1, hout1, hk1, hd1⟩ := genStructFieldEncoder_lines U fuel t f g g2 hf
      obtain ⟨A2, hout2, hr2, hk2, hd2⟩ := ih g2 h
      refine ⟨A1 ++ A2, ?_, ?_, ?_, ?_⟩
      · rw [hout2, hout1, List.append_assoc]
      · simp only [fieldsOutput, hf, List.map_append, hr2]
        rw [appendedLines_eq U.quote g g2 A1 hout1]
      · simp [List.filterMap_append, hk1, hk2]
      · simp [List.filter_append, hd1, hd2]

/-- C12: for every record type whose fields all generate without error, the
text that `genStructEncoder` appends is the function header line, the lines
`  out.RawByte('{')`, `  first := true` and `  _ = first`, then the outputs of
`genStructFieldEncoder` for the fields of `getStructFields(t)` one after the
other in declaration order, each field once, then `  out.RawByte('}')` and
the closing brace.  The key literals occur in the output in the declaration
order of their fields whatever the policies of the fields are, and the flag
`first` is initialised once. -/
theorem genStructEncoder_layout (U : Universe) (fuel : Nat) (t : TypeId) (g g1 : Generator)
    (h : genStructEncoder U fuel t g = some (g1, none)) :
    appendedLines U.quote g g1
        = ["func " ++ getStructEncoderName U t ++ "(out *jwriter.Writer, in *"
              ++ U.getType t ++ ") \x7b",
           "  out.RawByte('\x7b')", "  first := true", "  _ = first"]
          ++ fieldsOutput U fuel t (U.getStructFields t)
              ((((g.println (.funcHeader (getStructEncoderName U t) (U.getType t))).println
                (.rawByte "  " '{')).println (.declTrue "  " "first")).println
                (.blankUse "  " "first"))
          ++ ["  out.RawByte('\x7d')", "\x7d"]
    ∧ (g1.out.drop g.out.length).filterMap Line.keyLiteral
        = (U.getStructFields t).map (fun f => U.quote (U.getJSONFieldName t f) ++ ":")
    ∧ ((g1.out.drop g.out.length).filter Line.declaresFirst).length = 1
    ∧ g1.out.take g.out.length = g.out := by
  simp only [genStructEncoder] at h
  split_ifs at h with hk
  · simp at h
  split at h
  · simp at h
  · simp at h
  · next g5 hf =>
    simp only [Option.some.injEq, Prod.mk.injEq, and_true] at h
    subst h
    obtain ⟨A, hout, hr, hkey, hd⟩ := genStructFields_lines U fuel t _ _ _ hf
    have hlines : ((g5.println (.rawByte "  " '}')).println (.close "")).out
        = g.out ++ (Line.funcHeader (getStructEncoderName U t) (U.getType t)
          :: Line.rawByte "  " '{' :: Line.declTrue "  " "first" :: Line.blankUse "  " "first"
          :: (A ++ [Line.rawByte "  " '}', Line.close ""])) := by
      simp [Generator.println] at hout ⊢
      simp [hout]
    refine ⟨?_, ?_, ?_, ?_⟩
    · rw [appendedLines_eq U.quote g _ _ hlines, ← hr]
      simp [Line.render]
      exact ⟨rfl, rfl⟩
    · rw [hlines]
      simp [List.filterMap, Line.keyLiteral, List.filterMap_append, hkey]
    · rw [hlines]
      simp [List.filter, Line.declaresFirst, List.filter_append, hd]
    · rw [hlines]
      simp

/-- Witness of C12: the record `Rec` of the example graph, whose second field
has policy omit-if-empty. -/
theorem genStructEncoder_layout_witness :
    appendedLines demo.quote (newGenerator false) (demoGenerated false 13)
        = ["func easyjson_encode_demo.Rec(out *jwriter.Writer, in *demo.Rec) \x7b",
           "  out.RawByte('\x7b')",
           "  first := true",
           "  _ = first",
           "  if !first \x7b out.RawByte(',') \x7d",
           "  first = false",
           "  out.RawString(\"\\\"n\\\":\")",
           "  out.String(in.name)",
           "  if in.count != 0 \x7b",
           "    if !first \x7b out.RawByte(',') \x7d",
           "    first = false",
           "    out.RawString(\"\\\"c\\\":\")",
           "    out.Int32(in.count)",
           "  \x7d",
           "  out.RawByte('\x7d')",
           "\x7d"]
    ∧ ((demoGenerated false 13).out.drop (newGenerator false).out.length).filterMap
          Line.keyLiteral = ["\"n\":", "\"c\":"] :=
  ⟨(genStructEncoder_layout demo 2 13 (newGenerator false) (demoGenerated false 13)
      (by decide)).1.trans (by decide),
   (genStructEncoder_layout demo 2 13 (newGenerator false) (demoGenerated false 13)
      (by decide)).2.1.trans (by decide)⟩

/-! ## Theorems about pointers and sequences -/

/-- Running the lines appended by a call of `genTypeEncoder` on their own
appends the text `encode` of the value of the reference. -/
theorem genTypeEncoder_run_alone (U : Universe) (rt : Runtime)
    (hnames : ∀ k, startsWithStar (U.varName k) = false)
    (n : Nat) (t : TypeId) (inRef : String) (k : Nat) (g g1 : Generator) (e : Option String)
    (h : genTypeEncoder U n t inRef k g = some (g1, e)) (s : RunState) :
    (run rt (g1.out.drop g.out.length) s).out
      = s.out ++ encode U rt n t (evalRef s.vals inRef) := by
  obtain ⟨A, hout, -, hA⟩ := genTypeEncoder_runs U rt hnames n t inRef k g g1 e h
  obtain ⟨D, -, hrun⟩ := hA.2 [] s
  rw [List.append_nil, run_nil] at hrun
  rw [hout, List.drop_left, hrun]

/-- C17: for every pointer type without capability, the code that
`genTypeEncoder` emits is a two-way conditional: the line
`if <in> == nil {`, the line writing the raw literal `null`, the line
`} else {`, then exactly the lines of the encoder of the target type applied
to `*<in>` one level deeper, then `}`; run on `nil` it writes `null`, and run
on a pointer it writes the text of the target.  The guard of an omit-if-empty
pointer field is `<in> != nil`.  Hence in the output of a record encoder an
absent pointer field is the member `"key":null` when it is always included,
and is left out entirely when it is omit-if-empty. -/
theorem genTypeEncoder_pointer (U : Universe) (rt : Runtime)
    (hnames : ∀ k, startsWithStar (U.varName k) = false)
    (n : Nat) (t : TypeId) (inRef : String) (k : Nat) (g : Generator)
    (h1 : (U.info t).implementsMarshaler = false)
    (h2 : (U.info t).implementsJSONMarshaler = false)
    (h3 : (U.info t).implementsOptional = false)
    (hk : (U.info t).kind = .Ptr) :
    (∀ g4 e4,
      genTypeEncoder U n (U.info t).elem ("*" ++ inRef) (k + 1)
          (((g.println (.ifNil (stringsRepeat "  " k) inRef)).println
            (.rawNull (stringsRepeat "  " k ++ "  "))).println
            (.elseOpen (stringsRepeat "  " k))) = some (g4, e4) →
      genTypeEncoder U (n + 1) t inRef k g
          = some (g4.println (.close (stringsRepeat "  " k)), none)
      ∧ appendedLines U.quote g (g4.println (.close (stringsRepeat "  " k)))
          = [stringsRepeat "  " k ++ "if " ++ inRef ++ " == nil \x7b",
             stringsRepeat "  " k ++ "  out.RawString(\"null\")",
             stringsRepeat "  " k ++ "\x7d else \x7b"]
            ++ appendedLines U.quote
                (((g.println (.ifNil (stringsRepeat "  " k) inRef)).println
                  (.rawNull (stringsRepeat "  " k ++ "  "))).println
                  (.elseOpen (stringsRepeat "  " k))) g4
            ++ [stringsRepeat "  " k ++ "\x7d"]
      ∧ ∀ s : RunState,
          (run rt ((g4.println (.close (stringsRepeat "  " k))).out.drop g.out.length) s).out
            = s.out ++ (if (evalRef s.vals inRef).isNil then "null"
                else encode U rt n (U.info t).elem (evalRef s.vals inRef).deref))
    ∧ (∀ v : String, (notEmptyCheck U t v).render = v ++ " != nil")
    ∧ (∀ (t0 : TypeId) (g0 g1 : Generator) (input : List (String × Value))
        (pre post : List StructField) (f : StructField),
        genStructEncoder U (n + 1) t0 g0 = some (g1, none) →
        U.getStructFields t0 = pre ++ f :: post → f.Typ = t →
        evalRef input ("in." ++ f.Name) = .nil →
        (fieldOmitEmpty g0 f = false →
          runEncoder rt (g1.out.drop g0.out.length) input
            = "\x7b" ++ (String.intercalate "," (writtenMembers U rt (n + 1) t0 g0 input pre)
                ++ ((if (writtenMembers U rt (n + 1) t0 g0 input pre).isEmpty then "" else ",")
                  ++ (U.quote (U.getJSONFieldName t0 f) ++ ":" ++ "null"))
                ++ joinFrom false (writtenMembers U rt (n + 1) t0 g0 input post)) ++ "\x7d")
        ∧ (fieldOmitEmpty g0 f = true →
          runEncoder rt (g1.out.drop g0.out.length) input
            = "\x7b" ++ (String.intercalate "," (writtenMembers U rt (n + 1) t0 g0 input pre)
                ++ joinFrom (writtenMembers U rt (n + 1) t0 g0 input pre).isEmpty
                    (writtenMembers U rt (n + 1) t0 g0 input post)) ++ "\x7d")) := by
  refine ⟨?_, ?_, ?_⟩
  · intro g4 e4 hr
    have hgen : genTypeEncoder U (n + 1) t inRef k g
        = some (g4.println (.close (stringsRepeat "  " k)), none) := by
      simp [genTypeEncoder, h1, h2, hk, primitiveEncoders, hr]
    obtain ⟨A, hA, -⟩ := genTypeEncoder_lines U _ _ _ _ _ _ _ hr
    refine ⟨hgen, ?_, ?_⟩
    · rw [appendedLines_eq U.quote _ g4 A hA,
        appendedLines_eq U.quote g _
          (Line.ifNil (stringsRepeat "  " k) inRef
            :: Line.rawNull (stringsRepeat "  " k ++ "  ")
            :: Line.elseOpen (stringsRepeat "  " k)
            :: (A ++ [Line.close (stringsRepeat "  " k)]))
          (by simp [Generator.println] at hA ⊢; simp [hA])]
      simp [Line.render, String.append_assoc]
    · intro s
      rw [genTypeEncoder_run_alone U rt hnames _ _ _ _ _ _ _ hgen s]
      simp [encode, h1, h2, hk, primitiveEncoders]
  · intro v
    simp [notEmptyCheck, h3, hk, Cond.render]
  · intro t0 g0 g1 input pre post f hgen hfs hty hnil
    have hrun := genStructEncoder_runs U rt hnames (n + 1) t0 g0 g1 hgen input
    have hmem : fieldMember U rt (n + 1) t0 input f
        = U.quote (U.getJSONFieldName t0 f) ++ ":" ++ "null" := by
      simp [fieldMember, hnil, hty, encode, h1, h2, hk, primitiveEncoders, Value.isNil]
    have hguard : evalCond rt input (notEmptyCheck U f.Typ ("in." ++ f.Name)) = false := by
      simp [notEmptyCheck, hty, h3, hk, evalCond, hnil, Value.isNil]
    constructor
    · intro hpol
      have hw : fieldWritten U rt g0 input f = true := by simp [fieldWritten, hpol]
      rw [hrun, hfs, ← joinFrom_true]
      have hsplit : List.map (fieldMember U rt (n + 1) t0 input)
          (List.filter (fieldWritten U rt g0 input) (pre ++ f :: post))
          = writtenMembers U rt (n + 1) t0 g0 input pre
            ++ ([fieldMember U rt (n + 1) t0 input f]
              ++ writtenMembers U rt (n + 1) t0 g0 input post) := by
        simp [writtenMembers, List.filter, hw]
      rw [hsplit, joinFrom_append, joinFrom_append, hmem]
      simp [joinFrom, String.append_assoc]
    · intro hpol
      have hw : fieldWritten U rt g0 input f = false := by
        simp [fieldWritten, hpol, hguard]
      rw [hrun, hfs, ← joinFrom_true]
      have hsplit : List.map (fieldMember U rt (n + 1) t0 input)
          (List.filter (fieldWritten U rt g0 input) (pre ++ f :: post))
          = writtenMembers U rt (n + 1) t0 g0 input pre
            ++ writtenMembers U rt (n + 1) t0 g0 input post := by
        simp [writtenMembers, List.filter, hw]
      rw [hsplit, joinFrom_append]
      simp [String.append_assoc]


/-- Witness of C17 on the example graph: the lines emitted for the type `*int`,
and the record `Link` with the absent pointer field `Next`, always included
and omit-if-empty. -/
theorem genTypeEncoder_pointer_witness :
    appendedLines demo.quote (newGenerator false)
        (((genTypeEncoder demo 2 23 "in.Next" 1 (newGenerator false)).getD
          (newGenerator false, none)).1)
      = ["  if in.Next == nil \x7b",
         "    out.RawString(\"null\")",
         "  \x7d else \x7b",
         "    out.Int(*in.Next)",
         "  \x7d"]
    ∧ runEncoder demoRuntime (demoGenerated false 24).out [("in.Next", .nil)]
        = "\x7b\"next\":null\x7d"
    ∧ runEncoder demoRuntime (demoGenerated true 24).out [("in.Next", .nil)]
        = "\x7b\x7d" :=
  ⟨(((genTypeEncoder_pointer demo demoRuntime demo_names 1 23 "in.Next" 1 (newGenerator false)
      rfl rfl rfl rfl).1
      ((genTypeEncoder demo 1 1 ("*" ++ "in.Next") 2
        ((((newGenerator false).println (.ifNil (stringsRepeat "  " 1) "in.Next")).println
          (.rawNull (stringsRepeat "  " 1 ++ "  "))).println
          (.elseOpen (stringsRepeat "  " 1)))).getD (newGenerator false, none)).1
      none (by decide)).2.1).trans (by decide),
   ((genTypeEncoder_pointer demo demoRuntime demo_names 1 23 "in.Next" 1 (newGenerator false)
      rfl rfl rfl rfl).2.2 24 (newGenerator false) (demoGenerated false 24)
      [("in.Next", .nil)] [] [] { Name := "Next", Typ := 23, jsonTag := "next" }
      (by decide) rfl rfl rfl).1 (by decide) |>.trans (by decide),
   ((genTypeEncoder_pointer demo demoRuntime demo_names 1 23 "in.Next" 1 (newGenerator false)
      rfl rfl rfl rfl).2.2 24 (newGenerator true) (demoGenerated true 24)
      [("in.Next", .nil)] [] [] { Name := "Next", Typ := 23, jsonTag := "next" }
      (by decide) rfl rfl rfl).2 (by decide) |>.trans (by decide)⟩

/-- The names of the supply `tallyName` are pairwise distinct. -/
theorem tallyName_injective : Function.Injective tallyName := by
  intro a b h
  have h1 := congrArg String.length h
  simpa [tallyName, String.length] using h1

/-- The names of the supply `tallyName` do not begin with a star. -/
theorem tallyName_noStar (k : Nat) : startsWithStar (demoTally.varName k) = false := by
  simp [startsWithStar, demoTally, tallyName]

/-- C18: for every sequence type without marshal capability, `genTypeEncoder`
takes two auxiliary names from the supply, distinct from each other when the
supply is collision-free, and emits the line writing `[`, the loop header
over position and element, the comma guarded by `position > 0`, exactly the
lines of the encoder of the element type applied to the element variable one
level deeper, the end of the loop and the line writing `]`.  Run on a
sequence, this code writes `[`, the texts of the elements separated by commas,
and `]`; run on an empty sequence it writes exactly `[]`. -/
theorem genTypeEncoder_sequence (U : Universe) (rt : Runtime)
    (hnames : ∀ k, startsWithStar (U.varName k) = false)
    (hinj : Function.Injective U.varName)
    (n : Nat) (t : TypeId) (inRef : String) (k : Nat) (g : Generator)
    (h1 : (U.info t).implementsMarshaler = false)
    (h2 : (U.info t).implementsJSONMarshaler = false)
    (hk : (U.info t).kind = .Slice) :
    U.varName g.varCounter ≠ U.varName (g.varCounter + 1)
    ∧ ∀ g7 g8 e8,
      g7 = ((((({ g with varCounter := g.varCounter + 1 + 1 } : Generator).println
          (.rawByte (stringsRepeat "  " k) '[')).println
          (.forRange (stringsRepeat "  " k) (U.varName g.varCounter)
            (U.varName (g.varCounter + 1)) inRef)).println
          (.ifPos (stringsRepeat "  " k ++ "  ") (U.varName g.varCounter))).println
          (.rawByte (stringsRepeat "  " k ++ "    ") ',')).println
          (.close (stringsRepeat "  " k ++ "  ")) →
      genTypeEncoder U n (U.info t).elem (U.varName (g.varCounter + 1)) (k + 1) g7
        = some (g8, e8) →
      genTypeEncoder U (n + 1) t inRef k g
          = some ((g8.println (.close (stringsRepeat "  " k))).println
              (.rawByte (stringsRepeat "  " k) ']'), none)
      ∧ appendedLines U.quote g ((g8.println (.close (stringsRepeat "  " k))).println
            (.rawByte (stringsRepeat "  " k) ']'))
          = [stringsRepeat "  " k ++ "out.RawByte('[')",
             stringsRepeat "  " k ++ "for " ++ U.varName g.varCounter ++ ", "
               ++ U.varName (g.varCounter + 1) ++ " := range " ++ inRef ++ " \x7b",
             stringsRepeat "  " k ++ "  if " ++ U.varName g.varCounter ++ " > 0 \x7b",
             stringsRepeat "  " k ++ "    out.RawByte(',')",
             stringsRepeat "  " k ++ "  \x7d"]
            ++ appendedLines U.quote g7 g8
            ++ [stringsRepeat "  " k ++ "\x7d", stringsRepeat "  " k ++ "out.RawByte(']')"]
      ∧ (∀ s : RunState,
          (run rt (((g8.println (.close (stringsRepeat "  " k))).println
              (.rawByte (stringsRepeat "  " k) ']')).out.drop g.out.length) s).out
            = s.out ++ ("[" ++ String.intercalate ","
                ((evalRef s.vals inRef).elems.map (encode U rt n (U.info t).elem)) ++ "]"))
      ∧ (∀ s : RunState, (evalRef s.vals inRef).elems = [] →
          (run rt (((g8.println (.close (stringsRepeat "  " k))).println
              (.rawByte (stringsRepeat "  " k) ']')).out.drop g.out.length) s).out
            = s.out ++ "[]") := by
  constructor
  · intro h
    have := hinj h
    omega
  · intro g7 g8 e8 hg7 hr
    subst hg7
    have hgen : genTypeEncoder U (n + 1) t inRef k g
        = some ((g8.println (.close (stringsRepeat "  " k))).println
            (.rawByte (stringsRepeat "  " k) ']'), none) := by
      simp only [genTypeEncoder]
      rw [if_neg (by simp [h1]), if_neg (by simp [h2]),
        if_neg (by simp [hk, primitiveEncoders])]
      simp only [hk, uniqueVarName]
      rw [hr]
    obtain ⟨A, hA, -⟩ := genTypeEncoder_lines U _ _ _ _ _ _ _ hr
    have hrun : ∀ s : RunState,
        (run rt (((g8.println (.close (stringsRepeat "  " k))).println
            (.rawByte (stringsRepeat "  " k) ']')).out.drop g.out.length) s).out
          = s.out ++ ("[" ++ String.intercalate ","
              ((evalRef s.vals inRef).elems.map (encode U rt n (U.info t).elem)) ++ "]") := by
      intro s
      rw [genTypeEncoder_run_alone U rt hnames _ _ _ _ _ _ _ hgen s]
      simp [encode, h1, h2, hk, primitiveEncoders]
    refine ⟨hgen, ?_, hrun, ?_⟩
    · rw [appendedLines_eq U.quote _ g8 A hA,
        appendedLines_eq U.quote g _
          (Line.rawByte (stringsRepeat "  " k) '['
            :: Line.forRange (stringsRepeat "  " k) (U.varName g.varCounter)
              (U.varName (g.varCounter + 1)) inRef
            :: Line.ifPos (stringsRepeat "  " k ++ "  ") (U.varName g.varCounter)
            :: Line.rawByte (stringsRepeat "  " k ++ "    ") ','
            :: Line.close (stringsRepeat "  " k ++ "  ")
            :: (A ++ [Line.close (stringsRepeat "  " k),
                Line.rawByte (stringsRepeat "  " k) ']']))
          (by simp [Generator.println] at hA ⊢; simp [hA])]
      simp [Line.render, String.append_assoc]
      exact ⟨rfl, rfl, rfl⟩
    · intro s hs
      rw [hrun s, hs]
      rfl


/-- Witness of C18 on the example graph with the name supply `tallyName`: the
lines emitted for `[]int`, and what they write for three elements and for
none. -/
theorem genTypeEncoder_sequence_witness :
    tallyName 0 ≠ tallyName 1
    ∧ appendedLines demoTally.quote (newGenerator false)
        (((genTypeEncoder demoTally 2 22 "in.X" 1 (newGenerator false)).getD
          (newGenerator false, none)).1)
      = ["  out.RawByte('[')",
         "  for v, vx := range in.X \x7b",
         "    if v > 0 \x7b",
         "      out.RawByte(',')",
         "    \x7d",
         "    out.Int(vx)",
         "  \x7d",
         "  out.RawByte(']')"]
    ∧ (run demoRuntime
        (((genTypeEncoder demoTally 2 22 "in.X" 1 (newGenerator false)).getD
          (newGenerator false, none)).1).out
        { out := "", flags := [], idx := [], vals := [("in.X", .slice [.num 1, .num 2, .num 3])] }).out = "[1,2,3]"
    ∧ (run demoRuntime
        (((genTypeEncoder demoTally 2 22 "in.X" 1 (newGenerator false)).getD
          (newGenerator false, none)).1).out
        { out := "", flags := [], idx := [], vals := [("in.X", .slice [])] }).out = "[]" :=
  have hthm := genTypeEncoder_sequence demoTally demoRuntime tallyName_noStar
    tallyName_injective 1 22 "in.X" 1 (newGenerator false) rfl rfl rfl
  have hrec := hthm.2 _
    ((genTypeEncoder demoTally 1 1 (tallyName 1) 2
      (((((({ newGenerator false with varCounter := 0 + 1 + 1 } : Generator).println
          (.rawByte (stringsRepeat "  " 1) '[')).println
          (.forRange (stringsRepeat "  " 1) (tallyName 0) (tallyName 1) "in.X")).println
          (.ifPos (stringsRepeat "  " 1 ++ "  ") (tallyName 0))).println
          (.rawByte (stringsRepeat "  " 1 ++ "    ") ',')).println
          (.close (stringsRepeat "  " 1 ++ "  ")))).getD (newGenerator false, none)).1
    none rfl (by decide)
  ⟨hthm.1, hrec.2.1.trans (by decide),
   (hrec.2.2.1 { out := "", flags := [], idx := [], vals := [("in.X", .slice [.num 1, .num 2, .num 3])] }).trans (by decide),
   hrec.2.2.2 { out := "", flags := [], idx := [], vals := [("in.X", .slice [])] } rfl⟩

end EasyJSON
